import Mathlib

/-!
# md2pdf: a verification development

Shallow embedding of the render pipeline of `server.js` (and of the parts of
`md2pdf-cli/md2pdf.js` and `public/js/app.js` that the properties below talk
about).

Text is a list of characters.  JavaScript strings are sequences of UTF-16 code
units; every regular expression embedded here either compares with ASCII
characters or accepts any code unit (`[\s\S]`), so a character outside the
basic plane only shifts offsets, never the text that is produced.
-/

namespace Md2pdf

/-! ## Strings -/

/-- `String.prototype.indexOf` on the suffix `s` that starts at offset `pos`:
the first offset at which `needle` occurs. -/
def indexOfAux (needle : List Char) : List Char → Nat → Option Nat
  | [], pos => if needle.isPrefixOf [] then some pos else none
  | c :: t, pos =>
    if needle.isPrefixOf (c :: t) then some pos else indexOfAux needle t (pos + 1)

/-- `s.indexOf(needle, fromIndex)`; `none` stands for `-1`. -/
def indexOf (needle s : List Char) (fromIndex : Nat) : Option Nat :=
  indexOfAux needle (s.drop fromIndex) fromIndex

/-- `s.slice(a, b)` for `0 ≤ a`, `0 ≤ b`. -/
def slice (s : List Char) (a b : Nat) : List Char :=
  (s.drop a).take (b - a)

/-- Decimal digit `d` as a character. -/
def digitChar (d : Nat) : Char := Char.ofNat (48 + d)

/-- Digits of `n`, most significant first, pushed in front of `acc`. -/
def toDecimalAux : Nat → Nat → List Char → List Char
  | 0, _, acc => acc
  | fuel + 1, n, acc =>
    if n / 10 = 0 then digitChar (n % 10) :: acc
    else toDecimalAux fuel (n / 10) (digitChar (n % 10) :: acc)

/-- A non-negative integer as a template literal prints it. -/
def toDecimal (n : Nat) : List Char := toDecimalAux (n + 1) n []

/-- `Number(ds)` for a run of decimal digits `ds`. -/
def parseDecimal (ds : List Char) : Nat :=
  ds.foldl (fun a c => 10 * a + (c.toNat - 48)) 0

/-- `String.prototype.replace` with a global regular expression and a
replacement function.  `m s` is the regular expression anchored at the head of
`s` together with the callback: the replacement text and the length of the
match (never zero for the expressions used here).  The second argument counts
the characters of the current match that are still to be skipped. -/
def replaceAllGo (m : List Char → Option (List Char × Nat)) :
    List Char → Nat → List Char
  | [], _ => []
  | _ :: t, k + 1 => replaceAllGo m t k
  | c :: t, 0 =>
    match m (c :: t) with
    | some (rep, len) => rep ++ replaceAllGo m t (len - 1)
    | none => c :: replaceAllGo m t 0

/-- `s.replace(re, fn)` for a global `re`. -/
def replaceAll (m : List Char → Option (List Char × Nat)) (s : List Char) : List Char :=
  replaceAllGo m s 0

/-! ## buildFullHtml: fence ranges -/

/-- Line terminators of ECMAScript regular expressions. -/
def isLineTerminator (c : Char) : Bool :=
  c == '\n' || c == '\r' || c == Char.ofNat 0x2028 || c == Char.ofNat 0x2029

/-- The fence marker, three backticks. -/
def fenceMarker : List Char := "```".toList

/-- The expression `/^```.*$/gm` anchored at one offset: `prev` is the
character before the offset (`none` at offset 0), `s` the text from the
offset.  Returns the length of `m[0]`: the marker and the rest of the line. -/
def fenceReMatch (prev : Option Char) (s : List Char) : Option Nat :=
  let atLineStart := match prev with
    | none => true
    | some c => isLineTerminator c
  if atLineStart && fenceMarker.isPrefixOf s then
    some (3 + ((s.drop 3).takeWhile (fun c => !isLineTerminator c)).length)
  else none

/-- Leftmost match of the fence expression in the suffix `s` at offset `pos`:
`(m.index, m[0].length)`. -/
def fenceReSearch : Option Char → List Char → Nat → Option (Nat × Nat)
  | _, [], _ => none
  | prev, c :: t, pos =>
    match fenceReMatch prev (c :: t) with
    | some len => some (pos, len)
    | none => fenceReSearch (some c) t (pos + 1)

/-- `fenceRe.exec(mdContent)` with `fenceRe.lastIndex = lastIndex`. -/
def fenceReExec (md : List Char) (lastIndex : Nat) : Option (Nat × Nat) :=
  fenceReSearch (if lastIndex = 0 then none else md.get? (lastIndex - 1))
    (md.drop lastIndex) lastIndex

/-- The `while` loop of lines 108-115; `none` when the fuel runs out. -/
def fenceLoop (md : List Char) : Nat → Nat → List (Nat × Nat) → Option (List (Nat × Nat))
  | 0, _, _ => none
  | fuel + 1, lastIndex, ranges =>
    match fenceReExec md lastIndex with
    | none => some ranges
    | some (startIndex, len) =>
      match indexOf fenceMarker md (startIndex + len) with
      | some fenceClose =>
        fenceLoop md fuel (fenceClose + 3) (ranges ++ [(startIndex, fenceClose + 3)])
      | none => fenceLoop md fuel (startIndex + len) ranges

/-- The array `fenceRanges` of `buildFullHtml`. -/
def fenceRanges (md : List Char) : Option (List (Nat × Nat)) :=
  fenceLoop md (md.length + 1) 0 []

/-- The closure `isInFence` of `buildFullHtml`. -/
def isInFence (ranges : List (Nat × Nat)) (pos : Nat) : Bool :=
  ranges.any (fun r => decide (r.1 ≤ pos) && decide (pos < r.2))

/-! ## buildFullHtml: math protection -/

/-- The constant `placeholderPrefix`. -/
def placeholderHead : List Char := "MATHBLOCK_PLACEHOLDER_".toList

/-- The token that stands for math block `id`. -/
def placeholder (id : Nat) : List Char :=
  placeholderHead ++ toDecimal id ++ "__".toList

/-- One alternative of `mathRe`, anchored at the head of `s`: the opening
delimiter, a lazy `[\s\S]+?`, the closing delimiter.  Returns the length of
the match. -/
def matchDelimited (op cl s : List Char) : Option Nat :=
  if op.isPrefixOf s then
    match s.drop op.length with
    | [] => none
    | _ :: t => (indexOfAux cl t 0).map (fun k => op.length + 1 + k + cl.length)
  else none

/-- The expression `mathRe` anchored at the head of `s`: dollar-dollar spans,
and spans opened by two backslashes and a round or square bracket. -/
def mathReMatch (s : List Char) : Option Nat :=
  (matchDelimited "$$".toList "$$".toList s).orElse fun _ =>
  (matchDelimited "\\\\(".toList "\\\\)".toList s).orElse fun _ =>
  matchDelimited "\\\\[".toList "\\\\]".toList s

/-- Leftmost match of `mathRe` in the suffix `s` at offset `pos`:
`(mm.index, mathRe.lastIndex)`. -/
def mathReSearch : List Char → Nat → Option (Nat × Nat)
  | [], _ => none
  | c :: t, pos =>
    match mathReMatch (c :: t) with
    | some len => some (pos, pos + len)
    | none => mathReSearch t (pos + 1)

/-- `mathRe.exec(mdContent)` with `mathRe.lastIndex = reLast`. -/
def mathReExec (md : List Char) (reLast : Nat) : Option (Nat × Nat) :=
  mathReSearch (md.drop reLast) reLast

/-- What the extraction loop leaves behind: the placeholder-bearing text and
the recorded spans. -/
structure Extracted where
  out : List Char
  mathBlocks : List (List Char)
  deriving DecidableEq, Repr

/-- The `while` loop of lines 132-143 followed by line 144; `none` when the
fuel runs out.  `reLast` is `mathRe.lastIndex`, `lastIndex` the variable of
that name. -/
def extractLoop (md : List Char) (fences : List (Nat × Nat)) :
    Nat → Nat → Nat → List Char → List (List Char) → Option Extracted
  | 0, _, _, _, _ => none
  | fuel + 1, reLast, lastIndex, out, mathBlocks =>
    match mathReExec md reLast with
    | none => some ⟨out ++ md.drop lastIndex, mathBlocks⟩
    | some (idx, endIdx) =>
      if isInFence fences idx then
        extractLoop md fences fuel endIdx lastIndex out mathBlocks
      else
        extractLoop md fences fuel endIdx endIdx
          (out ++ slice md lastIndex idx ++ placeholder mathBlocks.length)
          (mathBlocks ++ [slice md idx endIdx])

/-- Lines 104-146 of `buildFullHtml`: fence scan, then math extraction. -/
def extractMath (md : List Char) : Option Extracted :=
  match fenceRanges md with
  | none => none
  | some fences => extractLoop md fences (md.length + 1) 0 0 [] []

/-- The expression `MATHBLOCK_PLACEHOLDER_(\d+)__` anchored at the head of
`s`: `Number` of the captured digits and the length of the match. -/
def placeholderReMatch (s : List Char) : Option (Nat × Nat) :=
  if placeholderHead.isPrefixOf s then
    let rest := s.drop placeholderHead.length
    let ds := rest.takeWhile Char.isDigit
    if !ds.isEmpty && "__".toList.isPrefixOf (rest.drop ds.length) then
      some (parseDecimal ds, placeholderHead.length + ds.length + 2)
    else none
  else none

/-- Lines 149-152: every placeholder is replaced by `mathBlocks[id] || ''`. -/
def restoreMath (mathBlocks : List (List Char)) (htmlAfterMd : List Char) : List Char :=
  replaceAll (fun s => (placeholderReMatch s).map
    fun (r : Nat × Nat) => (mathBlocks.getD r.1 [], r.2)) htmlAfterMd

/-- The body of `buildFullHtml` from the fence scan to `htmlBody`, with the
Markdown parser `render` (markdown-it, not part of the repository) as a
parameter. -/
def htmlBodyOf (render : List Char → List Char) (md : List Char) : Option (List Char) :=
  (extractMath md).map fun e => restoreMath e.mathBlocks (render e.out)

/-! ## Math protection: auxiliary notions -/

/-- Some substring of `s` has the form `MATHBLOCK_PLACEHOLDER_<digits>__`. -/
def HasToken (s : List Char) : Prop :=
  ∃ a ds b, ds ≠ [] ∧ (∀ c ∈ ds, c.isDigit = true) ∧
    s = a ++ (placeholderHead ++ ds ++ "__".toList) ++ b

/-- Decidable form of `HasToken`: the restore expression matches at some offset. -/
def hasTokenB : List Char → Bool
  | [] => false
  | c :: t => (placeholderReMatch (c :: t)).isSome || hasTokenB t

/-- The matcher-with-callback of the restore step. -/
def restoreMatcher (mathBlocks : List (List Char)) (s : List Char) : Option (List Char × Nat) :=
  (placeholderReMatch s).map fun (r : Nat × Nat) => (mathBlocks.getD r.1 [], r.2)

/-- Texts and spans in source order: what the extraction loop has cut the
source into. -/
def renderSegs (base : Nat) : List (List Char × List Char) → List Char
  | [] => []
  | (t, _) :: rest => t ++ (placeholder base ++ renderSegs (base + 1) rest)

/-- The source text the segments were cut from. -/
def flatSegs : List (List Char × List Char) → List Char
  | [] => []
  | (t, b) :: rest => t ++ (b ++ flatSegs rest)

/-! ## embedImagesInHtml -/

/-- An element of `payload.images`; an absent or empty field is the empty text. -/
structure ImageEntry where
  name : List Char
  dataUrl : List Char
  deriving DecidableEq, Repr

/-- Reading `imagesMap[key]` after the `forEach` of lines 72-74.  `proto key`
is the text of `Object.prototype[key]` when the plain object inherits a
property of that name (`constructor`, `toString`, ...) and `none` otherwise.
An entry is stored when its name and data URL are both non-empty, a later
entry overwrites an earlier one, and an assignment to `__proto__` stores
nothing.  The result is `none` exactly when the value read is falsy. -/
def imagesMapGet (proto : List Char → Option (List Char)) (images : List ImageEntry)
    (key : List Char) : Option (List Char) :=
  match images.reverse.find? (fun i =>
      !i.name.isEmpty && !i.dataUrl.isEmpty && i.name != "__proto__".toList && i.name == key) with
  | some i => some i.dataUrl
  | none => proto key

/-- Either quote character. -/
def isQuote (c : Char) : Bool := c == '"' || c == '\''

/-- The part `src=["']([^"']+)["']([^>]*)>` of the image expression anchored
at the head of `s`: the two captures and the length of the part. -/
def imgReTail (s : List Char) : Option (List Char × List Char × Nat) :=
  if "src=".toList.isPrefixOf s then
    match s.drop 4 with
    | [] => none
    | q :: r =>
      if isQuote q then
        let src := r.takeWhile (fun c => !isQuote c)
        if src.isEmpty then none
        else
          match r.drop src.length with
          | [] => none
          | _ :: r2 =>
            let after := r2.takeWhile (fun c => c != '>')
            match r2.drop after.length with
            | [] => none
            | _ :: _ => some (src, after, 4 + 1 + src.length + 1 + after.length + 1)
      else none
  else none

/-- The part `([^>]*)src=...>` anchored at the head of `s`: the greedy first
capture is tried from its longest extent down to the empty one. -/
def imgReBefore : List Char → Option (List Char × List Char × List Char × Nat)
  | [] => none
  | c :: t =>
    match (if c != '>' then imgReBefore t else none) with
    | some (before, src, after, len) => some (c :: before, src, after, len + 1)
    | none => (imgReTail (c :: t)).map fun r => ([], r.1, r.2.1, r.2.2)

/-- A match of `/<img([^>]*)src=["']([^"']+)["']([^>]*)>/`. -/
structure ImgTag where
  before : List Char
  src : List Char
  after : List Char
  raw : List Char
  deriving DecidableEq, Repr

/-- The image expression anchored at the head of `s`. -/
def imgReMatch (s : List Char) : Option ImgTag :=
  if "<img".toList.isPrefixOf s then
    (imgReBefore (s.drop 4)).map fun r =>
      ⟨r.1, r.2.1, r.2.2.1, s.take (4 + r.2.2.2)⟩
  else none

/-- The test of line 77: an `http(s)://` or `data:` URL in any letter case, or
a `file://` URL. -/
def isRemoteSrc (src : List Char) : Bool :=
  let lower := src.map Char.toLower
  "http://".toList.isPrefixOf lower || "https://".toList.isPrefixOf lower ||
  "data:".toList.isPrefixOf lower || "file://".toList.isPrefixOf src

/-- `src.split(/[/\\]/).pop()`: the text after the last slash or backslash. -/
def lastSegment (src : List Char) : List Char :=
  (src.reverse.takeWhile (fun c => c != '/' && c != '\\')).reverse

/-- The tag the callback builds on a hit, line 82. -/
def rewrittenTag (t : ImgTag) (value : List Char) : List Char :=
  "<img".toList ++ t.before ++ "src=\"".toList ++ value ++ "\"".toList ++ t.after ++ ">".toList

/-- The replacement callback of lines 76-85. -/
def imgReplacer (proto : List Char → Option (List Char)) (images : List ImageEntry)
    (t : ImgTag) : List Char :=
  if isRemoteSrc t.src then t.raw
  else
    match imagesMapGet proto images (lastSegment t.src) with
    | some value => rewrittenTag t value
    | none => t.raw

/-- The function `embedImagesInHtml` of lines 69-86. -/
def embedImagesInHtml (proto : List Char → Option (List Char)) (htmlBody : List Char)
    (images : List ImageEntry) : List Char :=
  if images.isEmpty then htmlBody
  else
    replaceAll (fun s => (imgReMatch s).map fun t => (imgReplacer proto images t, t.raw.length))
      htmlBody


/-- A piece of the input of `embedImagesInHtml`: a character outside every
match of the image expression, or one match. -/
inductive ImgToken where
  | text (c : Char)
  | tag (t : ImgTag)
  deriving DecidableEq, Repr

/-- The input text of a piece. -/
def ImgToken.raw : ImgToken → List Char
  | .text c => [c]
  | .tag t => t.raw

/-- The matches of the global image expression, left to right, with the text
between them. -/
def imgTokensGo : List Char → Nat → List ImgToken
  | [], _ => []
  | _ :: t, k + 1 => imgTokensGo t k
  | c :: t, 0 =>
    match imgReMatch (c :: t) with
    | some tag => .tag tag :: imgTokensGo t (tag.raw.length - 1)
    | none => .text c :: imgTokensGo t 0

/-- The pieces of `html`. -/
def imgTokens (html : List Char) : List ImgToken := imgTokensGo html 0

/-! ## Page height in millimetres -/

/-- The double nearest to 0.264583 is `pxToMmSig / 2^54`
(`0x1.0eeed8904f6e0p-2`). -/
def pxToMmSig : Nat := 4766303600834272

/-- Number of low bits of `n` that do not fit into a 53-bit significand. -/
def excessBits : Nat → Nat → Nat
  | 0, _ => 0
  | fuel + 1, n => if n < 2 ^ 53 then 0 else 1 + excessBits fuel (n / 2)

/-- Nearest multiple of `2^e` to `n`, a tie going to the even multiple. -/
def roundToEven (n e : Nat) : Nat :=
  let q := n / 2 ^ e
  let r := n % 2 ^ e
  if 2 * r < 2 ^ e then q * 2 ^ e
  else if 2 ^ e < 2 * r then (q + 1) * 2 ^ e
  else if q % 2 = 0 then q * 2 ^ e else (q + 1) * 2 ^ e

/-- The double product `contentHeight * 0.264583` as a numerator over `2^54`:
the exact product of the integer `contentHeight` (below `2^53`) and the
significand, rounded to 53 significant bits. -/
def mulPxToMm (contentHeight : Nat) : Nat :=
  roundToEven (contentHeight * pxToMmSig)
    (excessBits (contentHeight * pxToMmSig) (contentHeight * pxToMmSig))

/-- Line 375: `heightMm = Math.ceil(contentHeight * 0.264583)`. -/
def heightMm (contentHeight : Nat) : Nat :=
  (mulPxToMm contentHeight + (2 ^ 54 - 1)) / 2 ^ 54

/-! ## The job registry and the world around a request -/

/-- A value of the map `renderJobs` (line 278). -/
structure RenderJob where
  htmlFilePath : List Char
  debugPdfPath : Option (List Char)
  browser : Option Nat
  aborted : Bool
  deriving DecidableEq, Repr

/-- The state shared by all handlers of the process: the map `renderJobs` in
insertion order, the paths that exist in the file system, the engine
instances that are running, and the number of engines launched so far (the
next engine handle).  The file system is taken to be reliable: writing a file
creates the path and `unlinkSync` of an existing path removes it. -/
structure World where
  renderJobs : List (List Char × RenderJob)
  files : List (List Char)
  engines : List Nat
  launched : Nat
  deriving DecidableEq, Repr

/-- `renderJobs.get(id)`. -/
def World.getJob (w : World) (id : List Char) : Option RenderJob :=
  w.renderJobs.lookup id

/-- `renderJobs.has(id)`. -/
def World.hasJob (w : World) (id : List Char) : Bool :=
  (w.getJob id).isSome

/-- `job && job.aborted` for `job = renderJobs.get(id)` (lines 406-407). -/
def World.jobAborted (w : World) (id : List Char) : Bool :=
  match w.getJob id with
  | some job => job.aborted
  | none => false

/-- `renderJobs.delete(id)`. -/
def World.deleteJob (w : World) (id : List Char) : World :=
  { w with renderJobs := w.renderJobs.filter (fun e => e.1 != id) }

/-- Assignment to a property of the job object stored under `id`. -/
def World.updateJob (w : World) (id : List Char) (f : RenderJob → RenderJob) : World :=
  { w with renderJobs := w.renderJobs.map (fun e => if e.1 == id then (e.1, f e.2) else e) }

/-- `renderJobs.set(id, job)`: an existing key keeps its place and gets the
new value, a new key is appended. -/
def World.setJob (w : World) (id : List Char) (job : RenderJob) : World :=
  if w.hasJob id then w.updateJob id (fun _ => job)
  else { w with renderJobs := w.renderJobs ++ [(id, job)] }

/-- `fs.writeFileSync(path, ...)` that succeeds. -/
def World.writeFile (w : World) (path : List Char) : World :=
  if w.files.contains path then w else { w with files := w.files ++ [path] }

/-- `if (fs.existsSync(path)) fs.unlinkSync(path)`. -/
def World.unlink (w : World) (path : List Char) : World :=
  { w with files := w.files.filter (fun p => p != path) }

/-- `browser.close()` on the engine with handle `b`. -/
def World.closeEngine (w : World) (b : Nat) : World :=
  { w with engines := w.engines.filter (fun e => e != b) }

/-! ## The viewport resolution -/

/-- The table `RESOLUTIONS` of lines 13-17. -/
def RESOLUTIONS : List (List Char × (Nat × Nat)) :=
  [("1K".toList, (1920, 1080)), ("2K".toList, (2560, 1440)), ("4K".toList, (3840, 2160))]

/-- The constant `VIEWPORT_RESOLUTION` of line 11. -/
def VIEWPORT_RESOLUTION : List Char := "2K".toList

/-- The field `payload.resolution` as lines 242-255 tell its values apart: a
string, an object (a `width` or `height` that is absent or falsy is 0), another
truthy value, or nothing. -/
inductive ResolutionSpec where
  | absent
  | text (s : List Char)
  | object (width height : Nat)
  | other
  deriving DecidableEq, Repr

/-- The variable `resolution` of lines 243-255: an object with a width and a
height, or the value of a property that `RESOLUTIONS` inherits from
`Object.prototype`, which has neither. -/
inductive Resolution where
  | size (width height : Nat)
  | inherited (key : List Char)
  deriving DecidableEq, Repr

/-- The class `\s` of regular expressions, which is also what `trim` strips:
white space and line terminators. -/
def isJsSpace (c : Char) : Bool :=
  let n := c.toNat
  n == 9 || n == 10 || n == 11 || n == 12 || n == 13 || n == 32 || n == 160 || n == 0x1680 ||
  (decide (0x2000 ≤ n) && decide (n ≤ 0x200A)) || n == 0x2028 || n == 0x2029 || n == 0x202F ||
  n == 0x205F || n == 0x3000 || n == 0xFEFF

/-- The class `[x×]` under the flag `i`, which is also where `split(/x|×/i)`
cuts. -/
def isCross (c : Char) : Bool := c == 'x' || c == 'X' || c == '×'

/-- The test `/^\d+\s*[x×]\s*\d+$/i` of line 247.  The classes are disjoint,
so the greedy runs are the only way to match. -/
def resolutionReTest (s : List Char) : Bool :=
  let d1 := s.takeWhile Char.isDigit
  match (s.drop d1.length).dropWhile isJsSpace with
  | [] => false
  | c :: r2 =>
    let r3 := r2.dropWhile isJsSpace
    let d2 := r3.takeWhile Char.isDigit
    !d1.isEmpty && isCross c && !d2.isEmpty && (r3.drop d2.length).isEmpty

/-- `s.split(/x|×/i)`. -/
def splitCross : List Char → List (List Char)
  | [] => [[]]
  | c :: t =>
    if isCross c then [] :: splitCross t
    else
      match splitCross t with
      | p :: ps => (c :: p) :: ps
      | [] => [[c]]

/-- `String.prototype.trim`. -/
def trim (s : List Char) : List Char :=
  ((s.dropWhile isJsSpace).reverse.dropWhile isJsSpace).reverse

/-- `parseInt(s, 10)` for a text without a sign, as every part is after the
test of line 247: leading white space is skipped and the run of digits that
follows is read; `none` is `NaN`. -/
def parseInt10 (s : List Char) : Option Nat :=
  let ds := (s.dropWhile isJsSpace).takeWhile Char.isDigit
  if ds.isEmpty then none else some (parseDecimal ds)

/-- Lines 242-255: the resolution of the viewport. -/
def resolutionOf (proto : List Char → Option (List Char)) (spec : ResolutionSpec) : Resolution :=
  let resolutionKey : ResolutionSpec :=
    match spec with
    | .absent => .text VIEWPORT_RESOLUTION
    | .text [] => .text VIEWPORT_RESOLUTION
    | given => given
  match resolutionKey with
  | .text s =>
    match RESOLUTIONS.lookup s with
    | some (width, height) => .size width height
    | none =>
      if (proto s).isSome then .inherited s
      else if resolutionReTest s then
        match (splitCross s).map (fun p => parseInt10 (trim p)) with
        | [some width, some height] =>
          if width ≠ 0 ∧ height ≠ 0 then .size width height else .size 3840 2160
        | _ => .size 3840 2160
      else .size 3840 2160
  | .object width height =>
    if width ≠ 0 ∧ height ≠ 0 then .size width height else .size 3840 2160
  | _ => .size 3840 2160

/-! ## Requests and the host -/

/-- The body of a generate request.  A field that is absent is the empty
text (or `none`, or `false`, or `.absent`); `pageWidth` and `margin` hold what
`parseFloat` returns, in whole millimetres, `none` for `NaN`. -/
structure Payload where
  markdown : List Char
  theme : List Char
  fileName : List Char
  renderId : List Char
  forceSingle : Bool
  pageWidth : Option Nat
  format : List Char
  margin : Option Nat
  images : List ImageEntry
  resolution : ResolutionSpec := .absent
  deriving DecidableEq, Repr

/-- The calls that `generatePdfFromPayload` waits for, or that can throw. -/
inductive Step where
  | writeFile
  | launch
  | newPage
  | setViewport
  | goto
  | imageWait
  | mermaidWait
  | mathTypeset
  | measure
  | pdf
  | close
  | writeDebug
  deriving DecidableEq, Repr

/-- Everything outside the code that a run depends on: the host objects, the
environment variables, the clock, what each awaited call does (`fails s` is
the message of the error it rejects with, `none` when it resolves) and what
the other handlers of the process do to the shared state while the call is
awaited (`during s`). -/
structure Env where
  proto : List Char → Option (List Char)
  render : List Char → List Char
  tmpBaseDir : List Char
  debugEnabled : Bool
  nowFile : Nat
  nowId : Nat
  nowDebug : Nat
  nowOut : Nat
  fails : Step → Option (List Char)
  during : Step → World → World
  contentHeight : Nat
  pdfBuffer : List Nat

/-- The constant `PAGE_WIDTH`. -/
def PAGE_WIDTH : Nat := 580

/-- The keys of `THEMES` with their style sheets. -/
def THEMES : List (List Char × List Char) :=
  [("vue".toList, "vue.css".toList), ("atom".toList, "atom.css".toList),
   ("light".toList, "light.css".toList), ("github".toList, "github.css".toList),
   ("monokai".toList, "monokai.css".toList), ("solarized".toList, "solarized.css".toList)]

/-- What `THEMES[name]` evaluates to. -/
inductive ThemeLookup where
  | own (file : List Char)
  | inherited
  | absent
  deriving DecidableEq, Repr

/-- `THEMES[name]`: one of the six entries, a property inherited from
`Object.prototype` (truthy, without a `file`), or `undefined`. -/
def themesGet (proto : List Char → Option (List Char)) (name : List Char) : ThemeLookup :=
  match THEMES.lookup name with
  | some file => .own file
  | none => if (proto name).isSome then .inherited else .absent

/-- Whether `needle` occurs in `s`. -/
def containsSub (needle : List Char) : List Char → Bool
  | [] => needle.isPrefixOf []
  | c :: t => needle.isPrefixOf (c :: t) || containsSub needle t

/-- `/needle/i.test(msg)` for a literal `needle`. -/
def testIgnoreCase (needle msg : List Char) : Bool :=
  containsSub (needle.map Char.toLower) (msg.map Char.toLower)

/-- The expression `/detached|Target closed|Session closed|Page crashed/i` of
line 409. -/
def abortPattern (msg : List Char) : Bool :=
  testIgnoreCase "detached".toList msg || testIgnoreCase "Target closed".toList msg ||
  testIgnoreCase "Session closed".toList msg || testIgnoreCase "Page crashed".toList msg

/-- The expression of line 512, with the extra alternative
`Navigating frame was detached`. -/
def handlerAbortPattern (msg : List Char) : Bool :=
  abortPattern msg || testIgnoreCase "Navigating frame was detached".toList msg

/-- The message `RENDER_ABORTED`. -/
def RENDER_ABORTED : List Char := "RENDER_ABORTED".toList

/-- The message of the error thrown for an unknown theme (lines 236, 488). -/
def themeError (themeName : List Char) : List Char :=
  "主题 \"".toList ++ themeName ++ "\" 不存在".toList

/-- The message of the `TypeError` that `path.join` throws in `buildFullHtml`
when `THEMES[themeName].file` is `undefined`. -/
def pathTypeError : List Char :=
  "The \"path\" argument must be of type string. Received undefined".toList

/-- The test `hasMath` of lines 154 and 268. -/
def hasMath : List Char → Bool
  | [] => false
  | c :: t =>
    (matchDelimited "$$".toList "$$".toList (c :: t)).isSome ||
    "\\\\(".toList.isPrefixOf (c :: t) || "\\\\[".toList.isPrefixOf (c :: t) || hasMath t

/-- The object handed to `page.pdf` (lines 380-398); a property that is not
set is `none`.  Lengths are in millimetres. -/
structure PdfOptions where
  printBackground : Bool
  preferCSSPageSize : Bool
  width : Option Nat
  height : Option Nat
  pageRanges : Option (List Char)
  format : Option (List Char)
  deriving DecidableEq, Repr

/-- `payload.fileName || dflt`. -/
def fileNameOr (payload : Payload) (dflt : List Char) : List Char :=
  if payload.fileName.isEmpty then dflt else payload.fileName

/-- Lines 259-265: the page width of the request. -/
def pageWidthOf (payload : Payload) : Nat :=
  if payload.forceSingle then
    match payload.pageWidth with
    | some v => if v = 0 then PAGE_WIDTH else v
    | none => PAGE_WIDTH
  else PAGE_WIDTH

/-- Lines 259-265: the paper format of the request. -/
def formatOf (payload : Payload) : List Char :=
  if payload.forceSingle then "A4".toList
  else if payload.format.isEmpty then "A4".toList else payload.format

/-- Lines 375-398: the options for a measured content height. -/
def pdfOptionsOf (payload : Payload) (contentHeight : Nat) : PdfOptions :=
  if payload.forceSingle then
    { printBackground := true, preferCSSPageSize := false,
      width := some (pageWidthOf payload), height := some (heightMm contentHeight),
      pageRanges := some "1".toList, format := none }
  else
    { printBackground := true, preferCSSPageSize := true,
      width := none, height := none, pageRanges := none, format := some (formatOf payload) }


/-! ## generatePdfFromPayload -/

/-- `path.join(dir, name)` for a plain file name. -/
def joinPath (dir name : List Char) : List Char := dir ++ "/".toList ++ name

/-- What a call of `generatePdfFromPayload` settles with: the returned
object, or the message of the error it throws. -/
inductive Outcome where
  | ok (buffer : List Nat) (fileName : List Char) (debugPdfPath : Option (List Char))
  | throws (msg : List Char)
  deriving DecidableEq, Repr

/-- The outer `catch` of lines 438-444; `htmlFilePath` is `none` while the
variable is still unassigned. -/
def outerCatch (payload : Payload) (htmlFilePath : Option (List Char)) (msg : List Char)
    (w : World) : World × Outcome :=
  let w1 := match htmlFilePath with
    | some p => w.unlink p
    | none => w
  let w2 := if payload.renderId.isEmpty then w1 else w1.deleteJob payload.renderId
  (w2, .throws msg)

/-- The awaited calls between the launch and the pagination, lines 324-374. -/
def pageSteps (mdContent : List Char) : List Step :=
  [.newPage, .setViewport, .goto, .imageWait, .mermaidWait]
    ++ (if hasMath mdContent then [.mathTypeset] else []) ++ [.measure]

/-- The calls whose rejection is caught on the spot (lines 343, 346-369). -/
def swallowed : Step → Bool
  | .mermaidWait => true
  | .mathTypeset => true
  | _ => false

/-- Awaits the calls in turn; stops at the first rejection that is not
caught and returns its message. -/
def runSteps (env : Env) : List Step → World → World × Option (List Char)
  | [], w => (w, none)
  | s :: rest, w =>
    match (if swallowed s then none else env.fails s) with
    | some msg => (env.during s w, some msg)
    | none => runSteps env rest (env.during s w)

/-- The local variables that the pagination block uses. -/
structure PaginationCtx where
  world : World
  renderId : List Char
  htmlFilePath : List Char
  browser : Nat
  themeName : List Char
  pdfOptions : PdfOptions
  viewport : Resolution
  deriving DecidableEq, Repr

/-- How far lines 233-399 get: the run ends in the outer `catch`, or it
reaches `page.pdf`. -/
inductive Run where
  | ended (w : World) (o : Outcome)
  | reached (ctx : PaginationCtx)
  deriving DecidableEq, Repr

/-- The result of the outer `catch` as the end of a run. -/
def Run.caught (r : World × Outcome) : Run := .ended r.1 r.2

/-- Lines 233-399 of `generatePdfFromPayload`: from the theme check to the
options of `page.pdf`; `viewport` is the resolution handed to
`page.setViewport` (line 327).  The text of the document (`buildFullHtml`, `embedImagesInHtml`)
does not influence the control flow and is embedded separately. -/
def runToPagination (env : Env) (payload : Payload) (w : World) :
    Run :=
  let themeName := if payload.theme.isEmpty then "atom".toList else payload.theme
  match themesGet env.proto themeName with
  | .absent => .caught (outerCatch payload none (themeError themeName) w)
  | .inherited => .caught (outerCatch payload none pathTypeError w)
  | .own _ =>
    let htmlFilePath := joinPath (joinPath env.tmpBaseDir "md2pdf_tmp".toList)
      (fileNameOr payload "md".toList ++ "-".toList ++ toDecimal env.nowFile ++ ".html".toList)
    match env.fails .writeFile with
    | some msg => .caught (outerCatch payload (some htmlFilePath) msg w)
    | none =>
      let renderId := if payload.renderId.isEmpty
        then fileNameOr payload "md".toList ++ "-".toList ++ toDecimal env.nowId
        else payload.renderId
      let w1 := (w.writeFile htmlFilePath).setJob renderId
        { htmlFilePath := htmlFilePath, debugPdfPath := none, browser := none, aborted := false }
      let w2 := env.during .launch w1
      match env.fails .launch with
      | some msg => .caught (outerCatch payload (some htmlFilePath) msg w2)
      | none =>
        let browser := w2.launched
        let w3 : World := { w2 with engines := w2.engines ++ [browser], launched := w2.launched + 1 }
        let w4 := if w3.hasJob renderId
          then w3.updateJob renderId (fun j => { j with browser := some browser })
          else w3
        match runSteps env (pageSteps payload.markdown) w4 with
        | (w5, some msg) => .caught (outerCatch payload (some htmlFilePath) msg w5)
        | (w5, none) =>
          .reached
            { world := w5, renderId := renderId, htmlFilePath := htmlFilePath,
              browser := browser, themeName := themeName,
              pdfOptions := pdfOptionsOf payload env.contentHeight,
              viewport := resolutionOf env.proto payload.resolution }

/-- Lines 400-445: `page.pdf`, the inner `catch`, the `finally` block, and the
return or the outer `catch`. -/
def paginate (env : Env) (payload : Payload) (ctx : PaginationCtx) : World × Outcome :=
  let w0 := env.during .pdf ctx.world
  let inner : Except (List Char) (List Nat) :=
    match env.fails .pdf with
    | none => .ok env.pdfBuffer
    | some msg =>
      if w0.jobAborted ctx.renderId || abortPattern msg then .error RENDER_ABORTED else .error msg
  let w1 := env.during .close (w0.closeEngine ctx.browser)
  let debugPath := joinPath (joinPath env.tmpBaseDir "md2pdf_debug".toList)
    (fileNameOr payload "markdown".toList ++ "-".toList ++ toDecimal env.nowDebug ++ ".pdf".toList)
  let dbg : Option (List Char) × World :=
    match inner with
    | .ok _ =>
      if env.debugEnabled then
        match env.fails .writeDebug with
        | some _ => (some debugPath, w1)
        | none => (some debugPath,
            (w1.writeFile debugPath).updateJob ctx.renderId
              (fun j => { j with debugPdfPath := some debugPath }))
      else (none, w1)
    | .error _ => (none, w1)
  let w3 := (dbg.2.unlink ctx.htmlFilePath).deleteJob ctx.renderId
  match inner with
  | .ok buffer =>
    (w3, .ok buffer
      (fileNameOr payload "markdown".toList ++ "-".toList ++ ctx.themeName ++ "-".toList
        ++ toDecimal env.nowOut ++ ".pdf".toList) dbg.1)
  | .error msg => outerCatch payload (some ctx.htmlFilePath) msg w3

/-- The function `generatePdfFromPayload` of lines 231-445. -/
def generatePdfFromPayload (env : Env) (payload : Payload) (w : World) : World × Outcome :=
  match runToPagination env payload w with
  | .ended w1 o => (w1, o)
  | .reached ctx => paginate env payload ctx

/-! ## The handlers -/

/-- What a handler answers: a PDF download (200), an empty 204, the JSON
object of a successful cancel (200), or a JSON error with its status. -/
inductive Response where
  | pdf (buffer : List Nat) (fileName : List Char)
  | noContent
  | ok (message : List Char)
  | error (status : Nat) (message : List Char)
  deriving DecidableEq, Repr

/-- The `catch` of the generate handler, lines 510-516. -/
def generateErrorResponse (msg : List Char) : Response :=
  if msg == RENDER_ABORTED || handlerAbortPattern msg then .noContent
  else .error 500 (if msg.isEmpty then "生成 PDF 失败".toList else msg)

/-- The handler of `POST /api/generate`, lines 480-517.  The buffer that
`page.pdf` resolves with is an object and so never falsy. -/
def apiGenerate (env : Env) (payload : Payload) (w : World) : World × Response :=
  if payload.markdown.isEmpty then (w, .error 400 "缺少 markdown 字段".toList)
  else if !payload.theme.isEmpty && themesGet env.proto payload.theme == .absent then
    (w, .error 400 (themeError payload.theme))
  else
    match generatePdfFromPayload env payload w with
    | (w1, .ok buffer fileName debugPdfPath) =>
      let w2 := match debugPdfPath with
        | some p => if env.debugEnabled then w1 else w1.unlink p
        | none => w1
      (w2, .pdf buffer fileName)
    | (w1, .throws msg) => (w1, generateErrorResponse msg)

/-- The cancel handler up to its `await`, lines 461-468: the job is marked
and the close of its engine is requested.  `none` when the handler has
answered already. -/
def cancelBegin (id : List Char) (w : World) : World × Except Response RenderJob :=
  if id.isEmpty then (w, .error (.error 400 "缺少 renderId".toList))
  else
    match w.getJob id with
    | none => (w, .error (.error 404 "未找到对应的渲染作业".toList))
    | some job =>
      let w1 := w.updateJob id (fun j => { j with aborted := true })
      let w2 := match job.browser with
        | some b => w1.closeEngine b
        | none => w1
      (w2, .ok job)

/-- The cancel handler after its `await`, lines 470-473. -/
def cancelFinish (id : List Char) (job : RenderJob) (w : World) : World × Response :=
  let w1 := w.unlink job.htmlFilePath
  let w2 := match job.debugPdfPath with
    | some p => w1.unlink p
    | none => w1
  (w2.deleteJob id, .ok "已取消".toList)

/-- The handler of `POST /api/cancel`, lines 459-478, run without another
handler in between. -/
def apiCancel (id : List Char) (w : World) : World × Response :=
  match cancelBegin id w with
  | (w1, .error r) => (w1, r)
  | (w1, .ok job) => cancelFinish id job w1


/-! ## Sample runs -/

/-- A host in which every awaited call resolves and no other handler runs. -/
def quietEnv : Env :=
  { proto := fun _ => none, render := id, tmpBaseDir := "/tmp".toList, debugEnabled := false,
    nowFile := 1000, nowId := 1000, nowDebug := 1001, nowOut := 1002,
    fails := fun _ => none, during := fun _ w => w, contentHeight := 1200,
    pdfBuffer := [37, 80, 68, 70] }

/-- A request with only the `markdown` field set. -/
def plainPayload : Payload :=
  { markdown := "# hi".toList, theme := [], fileName := [], renderId := [], forceSingle := false,
    pageWidth := none, format := [], margin := none, images := [] }

/-- The same request with a job id supplied by the caller. -/
def jobPayload : Payload := { plainPayload with renderId := "job1".toList }

/-- The state of a process that has served nothing yet. -/
def emptyWorld : World := { renderJobs := [], files := [], engines := [], launched := 0 }

/-- The engine cannot be launched. -/
def launchFailEnv : Env :=
  { quietEnv with fails := fun s =>
      if s = .launch then some "Failed to launch the browser process!".toList else none }

/-- The navigation to the temp document times out. -/
def gotoFailEnv : Env :=
  { quietEnv with fails := fun s =>
      if s = .goto then some "Navigation timeout of 600000 ms exceeded".toList else none }

/-- A cancel request for `job1` is served while the engine is being launched;
the navigation then finds the temp document deleted. -/
def cancelDuringLaunchEnv : Env :=
  { quietEnv with
    during := fun s w => if s = .launch then (apiCancel "job1".toList w).1 else w,
    fails := fun s =>
      if s = .goto then
        some "net::ERR_FILE_NOT_FOUND at file:////tmp/md2pdf_tmp/md-1000.html".toList
      else none }

/-- The page crashes during `page.pdf`; nobody cancels. -/
def pageCrashEnv : Env :=
  { quietEnv with fails := fun s => if s = .pdf then some "Page crashed!".toList else none }

/-- A cancel request for `job1` reaches its `await` while `page.pdf` is in
flight, and `page.pdf` rejects. -/
def cancelDuringPdfEnv : Env :=
  { quietEnv with
    during := fun s w => if s = .pdf then (cancelBegin "job1".toList w).1 else w,
    fails := fun s => if s = .pdf then some "Protocol error: Connection closed.".toList else none }

/-- `page.pdf` rejects with a message outside the abort pattern; nobody cancels. -/
def pdfFailEnv : Env :=
  { quietEnv with fails := fun s =>
      if s = .pdf then some "Printing failed".toList else none }

/-- The job of the sample runs once its engine is recorded. -/
def job1 : RenderJob :=
  { htmlFilePath := "/tmp/md2pdf_tmp/md-1000.html".toList, debugPdfPath := none,
    browser := some 0, aborted := false }

/-- The shared state of the sample runs of `jobPayload` at `page.pdf`. -/
def jobWorld : World :=
  { renderJobs := [("job1".toList, job1)],
    files := ["/tmp/md2pdf_tmp/md-1000.html".toList],
    engines := [0],
    launched := 1 }

/-- The local variables of the sample runs of `jobPayload` at `page.pdf`. -/
def jobCtx : PaginationCtx :=
  { world := jobWorld,
    renderId := "job1".toList,
    htmlFilePath := "/tmp/md2pdf_tmp/md-1000.html".toList,
    browser := 0,
    themeName := "atom".toList,
    pdfOptions :=
      { printBackground := true, preferCSSPageSize := true, width := none,
        height := none, pageRanges := none, format := some "A4".toList },
    viewport := .size 2560 1440 }

/-- A single-page request. -/
def singlePayload : Payload := { jobPayload with forceSingle := true, pageWidth := some 210 }

/-- The local variables of the run of `singlePayload` at `page.pdf`. -/
def singleCtx : PaginationCtx :=
  { jobCtx with
    pdfOptions :=
      { printBackground := true, preferCSSPageSize := false, width := some 210,
        height := some 318, pageRanges := some "1".toList, format := none } }

/-- Line 277: the id under which `generatePdfFromPayload` registers the job. -/
def renderIdOf (env : Env) (payload : Payload) : List Char :=
  if payload.renderId.isEmpty
  then fileNameOr payload "md".toList ++ "-".toList ++ toDecimal env.nowId
  else payload.renderId

/-- A second job, registered by another request. -/
def job2 : RenderJob :=
  { htmlFilePath := "/tmp/md2pdf_tmp/other-2000.html".toList, debugPdfPath := none,
    browser := some 7, aborted := false }

/-- A process with two jobs in flight. -/
def twoJobsWorld : World :=
  { renderJobs := [("job1".toList, job1), ("job2".toList, job2)],
    files := ["/tmp/md2pdf_tmp/md-1000.html".toList, "/tmp/md2pdf_tmp/other-2000.html".toList],
    engines := [0, 7],
    launched := 8 }

/-- The state in which the sample request `jobPayload` starts while `job2` is
in flight. -/
def otherJobWorld : World :=
  { renderJobs := [("job2".toList, job2)],
    files := ["/tmp/md2pdf_tmp/other-2000.html".toList],
    engines := [7],
    launched := 8 }

/-- The message of the 404 answer of the cancel handler. -/
def jobNotFound : List Char := "未找到对应的渲染作业".toList

/-- A request for a fixed paper format. -/
def letterPayload : Payload :=
  { jobPayload with format := "Letter".toList, pageWidth := some 300 }

/-- The local variables of the run of `letterPayload` at `page.pdf`. -/
def letterCtx : PaginationCtx :=
  { jobCtx with
    pdfOptions :=
      { printBackground := true, preferCSSPageSize := true, width := none,
        height := none, pageRanges := none, format := some "Letter".toList } }

/-- The output of one piece of the input of `embedImagesInHtml` for a
non-empty image list: text is copied, a match goes through the callback. -/
def embedPiece (proto : List Char → Option (List Char)) (images : List ImageEntry) :
    ImgToken → List Char
  | .text c => [c]
  | .tag t => imgReplacer proto images t

/-- The only usable image of the sample runs. -/
def imageA : ImageEntry :=
  { name := "a.png".toList, dataUrl := "data:image/png;base64,AAAA".toList }

/-- A second image with the name of `imageA`. -/
def imageA2 : ImageEntry :=
  { name := "a.png".toList, dataUrl := "data:image/png;base64,BBBB".toList }

/-- The match of the image expression in the sample document. -/
def tagA : ImgTag :=
  { before := " alt=\"x\" ".toList, src := "pics/a.png".toList, after := " width=\"1\"".toList,
    raw := "<img alt=\"x\" src=\"pics/a.png\" width=\"1\">".toList }

/-- The text `s` has the form `<width>x<height>`: two runs of digits that
denote positive integers, around one cross (`x`, `X` or `×`) with optional
white space on either side of it. -/
def IsSizeText (s : List Char) : Prop :=
  ∃ d1 sp1 c sp2 d2, s = d1 ++ sp1 ++ c :: (sp2 ++ d2) ∧
    d1 ≠ [] ∧ d2 ≠ [] ∧ (∀ x ∈ d1, x.isDigit = true) ∧ (∀ x ∈ d2, x.isDigit = true) ∧
    (∀ x ∈ sp1, isJsSpace x = true) ∧ (∀ x ∈ sp2, isJsSpace x = true) ∧ isCross c = true ∧
    parseDecimal d1 ≠ 0 ∧ parseDecimal d2 ≠ 0

/-- Decidable form of `IsSizeText`: the test of line 247 and the check of
line 249. -/
def isSizeTextB (s : List Char) : Bool :=
  resolutionReTest s &&
  match (splitCross s).map (fun p => parseInt10 (trim p)) with
  | [some width, some height] => width != 0 && height != 0
  | _ => false

/-- A request whose resolution is the text `abc`. -/
def abcPayload : Payload := { jobPayload with resolution := .text "abc".toList }

/-- A request whose resolution is the text `0x100`. -/
def zeroWidthPayload : Payload := { jobPayload with resolution := .text "0x100".toList }

/-! ## mdParser: fenced blocks -/

/-- A `fence` token of markdown-it: the info string that follows the opening
markers and the content of the block. -/
structure Token where
  info : List Char
  content : List Char
  deriving DecidableEq, Repr

/-- The utility `escapeHtml` of markdown-it, which line 44 calls: `&`, `<`,
`>` and `"` become `&amp;`, `&lt;`, `&gt;` and `&quot;`. -/
def escapeHtml : List Char → List Char
  | [] => []
  | c :: t =>
    (if c = '&' then "&amp;".toList
     else if c = '<' then "&lt;".toList
     else if c = '>' then "&gt;".toList
     else if c = '"' then "&quot;".toList
     else [c]) ++ escapeHtml t

/-- The option `highlight` of lines 42-45. -/
def highlight (code lang : List Char) : List Char :=
  let langClass := if lang.isEmpty then [] else "language-".toList ++ lang
  "<pre><code class=\"".toList ++ langClass ++ "\">".toList ++ escapeHtml code
    ++ "</code></pre>\n".toList

/-- What the plugin of lines 46-65 finds on the renderer of markdown-it: the
rule for `fence` tokens, if there is one, as a function of the option
`highlight`, and the method `renderToken`. -/
structure Renderer where
  fenceRule : Option ((List Char → List Char → List Char) → Token → List Char)
  renderToken : Token → List Char

/-- Lines 55-63: the rule for `fence` tokens that the plugin installs. -/
def mdParserFence (md : Renderer) (token : Token) : List Char :=
  let fence : Token → List Char :=
    match md.fenceRule with
    | some rule => rule highlight
    | none => md.renderToken
  if trim token.info = "mermaid".toList then
    "<div class=\"mermaid\">\n".toList ++ token.content ++ "\n</div>".toList
  else fence token

/-- A language name as markdown-it takes it from an info string without
escapes: the first word. -/
def firstWord (info : List Char) : List Char :=
  (trim info).takeWhile (fun c => !isJsSpace c)

/-- A rule for `fence` tokens that does what the one of markdown-it
does with the result of `highlight`: a result that starts with `<pre` is
returned with a line feed after it, another one is wrapped. -/
def sampleFenceRule (hl : List Char → List Char → List Char) (token : Token) : List Char :=
  let highlighted := hl token.content (firstWord token.info)
  if "<pre".toList.isPrefixOf highlighted then highlighted ++ "\n".toList
  else "<pre><code>".toList ++ highlighted ++ "</code></pre>\n".toList

/-- A renderer with that rule. -/
def sampleRenderer : Renderer :=
  { fenceRule := some sampleFenceRule, renderToken := fun _ => [] }

/-- A diagram block. -/
def mermaidToken : Token :=
  { info := " mermaid ".toList, content := "graph TD; A-->B & \"C\"\n".toList }

/-- A code block. -/
def jsToken : Token :=
  { info := "js".toList, content := "if (a<b && s==\"x\") a>>=1\n".toList }

/-! ## The style sheet of the document -/

/-- The values that the template of a document puts into its style sheet:
`max-width` and `padding` of `html, body`, the `background` of `html, body`,
and the side margin of `@page`, the lengths in millimetres. -/
structure PageStyle where
  maxWidth : Nat
  padding : Nat
  background : List Char
  pageMargin : Nat
  deriving DecidableEq, Repr

/-- Line 98 of `server.js`:
`['atom', 'monokai', 'solarized'].includes(themeName)`. -/
def isDarkTheme (themeName : List Char) : Bool :=
  ["atom".toList, "monokai".toList, "solarized".toList].contains themeName

/-- The style sheet of the template of `buildFullHtml`, lines 164-184. -/
def buildFullHtmlStyle (themeName : List Char) (pageWidth margin : Nat) : PageStyle :=
  { maxWidth := pageWidth,
    padding := margin,
    background := if isDarkTheme themeName then "#282c34".toList else "#ffffff".toList,
    pageMargin := margin }

/-- The style sheet of the template of `generatePdf` in `md2pdf.js`, lines
136-183: the width and the margin are constants, the background is the test
`themeName === 'atom'` of line 149. -/
def cliStyle (themeName : List Char) : PageStyle :=
  { maxWidth := PAGE_WIDTH,
    padding := 10,
    background := if themeName = "atom".toList then "#282c34".toList else "#ffffff".toList,
    pageMargin := 10 }

/-- Line 240: `parseFloat(payload.margin) || 10`. -/
def marginOf (payload : Payload) : Nat :=
  match payload.margin with
  | some v => if v = 0 then 10 else v
  | none => 10

/-- The style sheet of the document that `generatePdfFromPayload` assembles
(lines 234, 240, 259-267). -/
def documentStyle (payload : Payload) : PageStyle :=
  buildFullHtmlStyle (if payload.theme.isEmpty then "atom".toList else payload.theme)
    (pageWidthOf payload) (marginOf payload)

/-- A request for a document without margin. -/
def noMarginPayload : Payload := { jobPayload with margin := some 0 }

/-! ## The command line tool -/

/-- What a plain object inherits from `Object.prototype`, each value as a
template literal prints it. -/
def objectPrototype (key : List Char) : Option (List Char) :=
  if key = "constructor".toList then some "function Object() \x7b [native code] \x7d".toList
  else if key = "__proto__".toList then some "[object Object]".toList
  else if ["toString".toList, "toLocaleString".toList, "valueOf".toList,
      "hasOwnProperty".toList, "isPrototypeOf".toList, "propertyIsEnumerable".toList,
      "__defineGetter__".toList, "__defineSetter__".toList, "__lookupGetter__".toList,
      "__lookupSetter__".toList].contains key
    then some ("function ".toList ++ key ++ "() \x7b [native code] \x7d".toList)
  else none

/-- What a run of `md2pdf.js` depends on: the inherited properties of plain
objects, which paths exist, and whether every call that `generatePdf` makes
for a theme, from the launch of the engine to `page.pdf`, gets through. -/
structure CliHost where
  proto : List Char → Option (List Char)
  fileExists : List Char → Bool
  renders : List Char → Bool

/-- How a run of `md2pdf.js` ends: the exit code of the process and the
themes for which a PDF was written. -/
structure CliResult where
  exitCode : Nat
  pdfs : List (List Char)
  deriving DecidableEq, Repr

/-- The function `generatePdf` of `md2pdf.js`, lines 75-353: whether a PDF is
written.  Reading a file that does not exist throws, and so does
`THEMES[themeName].file` for a name that is not a key of `THEMES`; the
`catch` of line 343 swallows every error. -/
def cliGeneratePdf (host : CliHost) (themeName mdFilePath : List Char) : Bool :=
  if !host.fileExists mdFilePath then false
  else
    match THEMES.lookup themeName with
    | none => false
    | some _ => host.renders themeName

/-- The main function of `md2pdf.js`, lines 355-398; `argv` is
`process.argv` from index 2 on.  A run that returns ends with exit code 0. -/
def cliMain (host : CliHost) (argv : List (List Char)) : CliResult :=
  let themeName := match argv.get? 0 with
    | some t => if t.isEmpty then "atom".toList else t
    | none => "atom".toList
  let mdFilePath := match argv.get? 1 with
    | some p => if p.isEmpty then "markdown/markdown.md".toList else p
    | none => "markdown/markdown.md".toList
  if argv.contains "--help".toList || argv.contains "-h".toList then
    { exitCode := 0, pdfs := [] }
  else if themeName = "all".toList then
    if !host.fileExists mdFilePath then { exitCode := 0, pdfs := [] }
    else
      { exitCode := 0,
        pdfs := (THEMES.map Prod.fst).filter (fun t => cliGeneratePdf host t mdFilePath) }
  else if themesGet host.proto themeName == .absent then { exitCode := 1, pdfs := [] }
  else if !host.fileExists mdFilePath then { exitCode := 1, pdfs := [] }
  else
    { exitCode := 0,
      pdfs := if cliGeneratePdf host themeName mdFilePath then [themeName] else [] }

/-- A machine on which the Markdown file of the run does not exist. -/
def missingFileHost : CliHost :=
  { proto := objectPrototype, fileExists := fun _ => false, renders := fun _ => true }

/-- A machine on which every file exists and every rendering gets through. -/
def readyHost : CliHost :=
  { proto := objectPrototype, fileExists := fun _ => true, renders := fun _ => true }

/-! ## Two requests in one millisecond -/

/-- A second request, with another job id. -/
def jobBPayload : Payload := { plainPayload with renderId := "job2".toList }

/-- The temp document of the sample runs. -/
def sampleHtmlPath : List Char := "/tmp/md2pdf_tmp/md-1000.html".toList

/-- The request `jobBPayload` arrives in the millisecond of the first request
and is served up to its first `await` while the first request waits for its
engine: it writes its temp document and registers `job2` (lines 275-278). -/
def twinEnv : Env :=
  { quietEnv with
    during := fun s w =>
      if s = .launch then
        (w.writeFile sampleHtmlPath).setJob "job2".toList
          { htmlFilePath := sampleHtmlPath, debugPdfPath := none, browser := none,
            aborted := false }
      else w }

/-! ## The name of the download -/

/-- Hexadecimal digit `d` in upper case. -/
def hexDigit (d : Nat) : Char :=
  if d < 10 then Char.ofNat (48 + d) else Char.ofNat (55 + d)

/-- The value of a hexadecimal digit in either letter case. -/
def hexVal (c : Char) : Option Nat :=
  let n := c.toNat
  if 48 ≤ n ∧ n ≤ 57 then some (n - 48)
  else if 65 ≤ n ∧ n ≤ 70 then some (n - 55)
  else if 97 ≤ n ∧ n ≤ 102 then some (n - 87)
  else none

/-- The UTF-8 octets of code point `n`. -/
def utf8Octets (n : Nat) : List Nat :=
  if n < 0x80 then [n]
  else if n < 0x800 then [0xC0 + n / 64, 0x80 + n % 64]
  else if n < 0x10000 then [0xE0 + n / 4096, 0x80 + n / 64 % 64, 0x80 + n % 64]
  else [0xF0 + n / 262144, 0x80 + n / 4096 % 64, 0x80 + n / 64 % 64, 0x80 + n % 64]

/-- The characters that `encodeURIComponent` leaves as they are: ASCII letters,
digits, and the marks `- _ . ! ~ * ' ( )`. -/
def uriUnescaped (c : Char) : Bool :=
  c.isAlphanum || "-_.!~*'()".toList.contains c

/-- `encodeURIComponent`: every other character becomes its UTF-8 octets, each
written `%XX`. -/
def encodeURIComponent (s : List Char) : List Char :=
  (s.map fun c =>
    if uriUnescaped c then [c]
    else ((utf8Octets c.toNat).map fun b => ['%', hexDigit (b / 16), hexDigit (b % 16)]).flatten
  ).flatten

/-- `decodeURIComponent`; `none` when it throws `URIError`.  The second
argument is the multi-octet sequence under way: the number of continuation
octets still due, the bits read so far, and the least code point that the
length of the sequence can stand for. -/
def decodeURIGo : List Char → Option (Nat × Nat × Nat) → Option (List Char)
  | [], none => some []
  | [], some _ => none
  | c :: rest, st =>
    if c = '%' then
      match rest with
      | h1 :: h2 :: rest2 =>
        match hexVal h1, hexVal h2 with
        | some a, some b =>
          let octet := 16 * a + b
          match st with
          | none =>
            if octet < 0x80 then (decodeURIGo rest2 none).map (Char.ofNat octet :: ·)
            else if octet < 0xC0 then none
            else if octet < 0xE0 then decodeURIGo rest2 (some (1, octet - 0xC0, 0x80))
            else if octet < 0xF0 then decodeURIGo rest2 (some (2, octet - 0xE0, 0x800))
            else if octet < 0xF8 then decodeURIGo rest2 (some (3, octet - 0xF0, 0x10000))
            else none
          | some (due, bits, least) =>
            if 0x80 ≤ octet ∧ octet < 0xC0 then
              let v := bits * 64 + (octet - 0x80)
              if due = 1 then
                if least ≤ v ∧ v ≤ 0x10FFFF ∧ ¬ (0xD800 ≤ v ∧ v ≤ 0xDFFF) then
                  (decodeURIGo rest2 none).map (Char.ofNat v :: ·)
                else none
              else decodeURIGo rest2 (some (due - 1, v, least))
            else none
        | _, _ => none
      | _ => none
    else
      match st with
      | none => (decodeURIGo rest none).map (c :: ·)
      | some _ => none

/-- `decodeURIComponent(s)`. -/
def decodeURIComponent (s : List Char) : Option (List Char) := decodeURIGo s none

/-- Whether `s` starts with `p` in any letter case (`p` in lower case). -/
def startsWithIgnoreCase (p s : List Char) : Bool :=
  p.isPrefixOf (s.map Char.toLower)

/-- The capture `([^;"']+)` at the head of `s`. -/
def captureName (s : List Char) : Option (List Char) :=
  let name := s.takeWhile (fun c => c != ';' && !isQuote c)
  if name.isEmpty then none else some name

/-- The part `["']?([^;"']+)` at the head of `s`. -/
def captureQuoted (s : List Char) : Option (List Char) :=
  match s with
  | [] => none
  | c :: t =>
    if isQuote c then (captureName t).orElse fun _ => captureName (c :: t)
    else captureName (c :: t)

/-- The part `(?:UTF-8'')?["']?([^;"']+)` at the head of `s`. -/
def captureCharset (s : List Char) : Option (List Char) :=
  if startsWithIgnoreCase "utf-8''".toList s then
    (captureQuoted (s.drop 7)).orElse fun _ => captureQuoted s
  else captureQuoted s

/-- The part `=(?:UTF-8'')?["']?([^;"']+)` at the head of `s`. -/
def captureAssigned (s : List Char) : Option (List Char) :=
  match s with
  | '=' :: t => captureCharset t
  | _ => none

/-- The expression `/filename\*?=(?:UTF-8'')?["']?([^;"']+)/i` of line 666 of
`app.js` anchored at the head of `s`: the first capture. -/
def dispositionReMatch (s : List Char) : Option (List Char) :=
  if startsWithIgnoreCase "filename".toList s then
    match s.drop 8 with
    | '*' :: t => (captureAssigned t).orElse fun _ => captureAssigned ('*' :: t)
    | r => captureAssigned r
  else none

/-- The leftmost match of that expression in `s`. -/
def dispositionReExec : List Char → Option (List Char)
  | [] => none
  | c :: t => (dispositionReMatch (c :: t)).orElse fun _ => dispositionReExec t

/-- Lines 496-498 of `server.js`: the header `Content-Disposition` for the
file name that `generatePdfFromPayload` returned. -/
def contentDisposition (fileName : List Char) : List Char :=
  "attachment; filename*=UTF-8''".toList ++ encodeURIComponent fileName

/-- Lines 664-669 of `app.js`: the name under which the client saves the
download; `dflt` is the name it starts from, `none` stands for the
`URIError` of `decodeURIComponent`. -/
def clientFileName (disposition dflt : List Char) : Option (List Char) :=
  match dispositionReExec disposition with
  | some m1 => decodeURIComponent (m1.filter fun c => !isQuote c)
  | none => some dflt

/-- A request for a document with an apostrophe in its name. -/
def quotePayload : Payload := { jobPayload with fileName := "it's".toList }

/-! ## Fence ranges: what the scan records -/

/-- A line of `md` starts at offset `i`: the offset is 0 or follows a line
terminator. -/
def IsLineStart (md : List Char) (i : Nat) : Prop :=
  i = 0 ∨ ∃ c, md.get? (i - 1) = some c ∧ isLineTerminator c = true

/-- The offset at which the line that holds offset `i` ends. -/
def lineEnd (md : List Char) (i : Nat) : Nat :=
  i + ((md.drop i).takeWhile (fun c => !isLineTerminator c)).length

/-- Offset `k` is the first one from offset `i` on at which three backticks
stand. -/
def IsFirstMarkerFrom (md : List Char) (i k : Nat) : Prop :=
  i ≤ k ∧ fenceMarker.isPrefixOf (md.drop k) = true ∧
    ∀ j, i ≤ j → j < k → fenceMarker.isPrefixOf (md.drop j) = false

/-- A range as the scan is meant to record it: it lies within the text, starts
at a line that begins with three backticks, and ends just past the first three
backticks after that line. -/
def IsFenceRange (md : List Char) (r : Nat × Nat) : Prop :=
  r.1 < r.2 ∧ r.2 ≤ md.length ∧ IsLineStart md r.1 ∧
    fenceMarker.isPrefixOf (md.drop r.1) = true ∧
    ∃ k, r.2 = k + 3 ∧ IsFirstMarkerFrom md (lineEnd md r.1) k

/-! # Theorems -/

theorem isPrefixOf_append_self (p s : List Char) : p.isPrefixOf (p ++ s) = true := by
  rw [List.isPrefixOf_iff_prefix]; exact List.prefix_append p s

theorem takeWhile_digits (ds rest : List Char) (hd : ∀ c ∈ ds, c.isDigit = true) :
    (ds ++ '_' :: rest).takeWhile Char.isDigit = ds := by
  induction ds with
  | nil => simp [List.takeWhile]
  | cons d ds ih =>
    have h1 : d.isDigit = true := hd d (List.mem_cons_self _ _)
    have h2 : ∀ c ∈ ds, c.isDigit = true := fun c hc => hd c (List.mem_cons_of_mem _ hc)
    simp [List.takeWhile, h1, ih h2]

theorem placeholderReMatch_token (ds b : List Char) (hne : ds ≠ [])
    (hd : ∀ c ∈ ds, c.isDigit = true) :
    placeholderReMatch (placeholderHead ++ ds ++ "__".toList ++ b) =
      some (parseDecimal ds, placeholderHead.length + ds.length + 2) := by
  unfold placeholderReMatch
  have e1 : placeholderHead ++ ds ++ "__".toList ++ b
      = placeholderHead ++ (ds ++ '_' :: ('_' :: b)) := by simp
  rw [e1, isPrefixOf_append_self]
  simp only [if_true, List.drop_left]
  rw [takeWhile_digits ds _ hd]
  have : ds.isEmpty = false := by cases ds <;> simp_all
  simp [this]

theorem placeholderReMatch_some (s : List Char) (r : Nat × Nat)
    (h : placeholderReMatch s = some r) :
    ∃ ds b, ds ≠ [] ∧ (∀ c ∈ ds, c.isDigit = true) ∧
      s = placeholderHead ++ ds ++ "__".toList ++ b := by
  unfold placeholderReMatch at h
  split at h
  · rename_i hp
    rw [List.isPrefixOf_iff_prefix] at hp
    obtain ⟨rest, rfl⟩ := hp
    simp only [List.drop_left] at h
    split at h
    · rename_i hc
      simp only [Bool.and_eq_true, Bool.not_eq_true', List.isEmpty_eq_false] at hc
      obtain ⟨hne, hu⟩ := hc
      rw [List.isPrefixOf_iff_prefix] at hu
      obtain ⟨b, hb⟩ := hu
      refine ⟨rest.takeWhile Char.isDigit, b, ?_, ?_, ?_⟩
      · simpa using hne
      · intro c hc
        exact (List.mem_takeWhile_imp hc)
      · have := List.takeWhile_append_dropWhile Char.isDigit rest
        have hd : rest.drop (rest.takeWhile Char.isDigit).length = rest.dropWhile Char.isDigit := by
          have h2 := congrArg (List.drop (rest.takeWhile Char.isDigit).length) this
          rw [List.drop_left] at h2
          exact h2.symm
        rw [hd] at hb
        rw [List.append_assoc, List.append_assoc, hb, this]
    · simp at h
  · simp at h

theorem parseFold_shift (l : List Char) (a : Nat) :
    l.foldl (fun a c => 10 * a + (c.toNat - 48)) a
      = a * 10 ^ l.length + l.foldl (fun a c => 10 * a + (c.toNat - 48)) 0 := by
  induction l generalizing a with
  | nil => simp
  | cons c t ih =>
    simp only [List.foldl_cons, List.length_cons]
    rw [ih (10 * a + (c.toNat - 48)), ih (10 * 0 + (c.toNat - 48))]
    ring

theorem digitChar_toNat (d : Nat) (h : d < 10) : (digitChar d).toNat - 48 = d := by
  interval_cases d <;> decide

theorem digitChar_isDigit (d : Nat) (h : d < 10) : (digitChar d).isDigit = true := by
  interval_cases d <;> decide

theorem parseDecimal_toDecimalAux (fuel n : Nat) (acc : List Char) (h : n < fuel) :
    parseDecimal (toDecimalAux fuel n acc) = n * 10 ^ acc.length + parseDecimal acc := by
  induction fuel generalizing n acc with
  | zero => omega
  | succ fuel ih =>
    unfold toDecimalAux
    have hd := digitChar_toNat (n % 10) (Nat.mod_lt _ (by decide))
    split
    · rename_i h0
      unfold parseDecimal
      simp only [List.foldl_cons]
      rw [parseFold_shift, hd]
      have : n % 10 = n := by omega
      simp [this]
    · rename_i h0
      have hlt : n / 10 < fuel := by omega
      rw [ih (n / 10) _ hlt]
      unfold parseDecimal
      simp only [List.foldl_cons, List.length_cons]
      rw [parseFold_shift acc, hd]
      have := Nat.div_add_mod n 10
      have e : (n / 10) * 10 ^ (acc.length + 1) + (10 * 0 + n % 10) * 10 ^ acc.length
          = (10 * (n / 10) + n % 10) * 10 ^ acc.length := by ring
      rw [← Nat.add_assoc, e, this]

theorem parseDecimal_toDecimal (n : Nat) : parseDecimal (toDecimal n) = n := by
  unfold toDecimal
  rw [parseDecimal_toDecimalAux (n + 1) n [] (by omega)]
  simp [parseDecimal]

theorem toDecimalAux_digits (fuel n : Nat) (acc : List Char)
    (hacc : ∀ c ∈ acc, c.isDigit = true) :
    ∀ c ∈ toDecimalAux fuel n acc, c.isDigit = true := by
  induction fuel generalizing n acc with
  | zero => simpa [toDecimalAux] using hacc
  | succ fuel ih =>
    have hd := digitChar_isDigit (n % 10) (Nat.mod_lt _ (by decide))
    have hacc2 : ∀ c ∈ digitChar (n % 10) :: acc, c.isDigit = true := by
      intro c hc
      rcases List.mem_cons.mp hc with rfl | hc
      · exact hd
      · exact hacc c hc
    unfold toDecimalAux
    split
    · exact hacc2
    · exact ih _ _ hacc2

theorem toDecimalAux_ne_nil (fuel n : Nat) (acc : List Char) :
    toDecimalAux (fuel + 1) n acc ≠ [] := by
  induction fuel generalizing n acc with
  | zero => unfold toDecimalAux; split <;> simp [toDecimalAux]
  | succ fuel ih =>
    unfold toDecimalAux
    split
    · simp
    · exact ih _ _

theorem toDecimal_digits (n : Nat) : ∀ c ∈ toDecimal n, c.isDigit = true :=
  toDecimalAux_digits _ _ _ (by simp)

theorem toDecimal_ne_nil (n : Nat) : toDecimal n ≠ [] := toDecimalAux_ne_nil _ _ _

/-! ### replaceAll -/

theorem replaceAllGo_skip (m : List Char → Option (List Char × Nat)) (w y : List Char) :
    replaceAllGo m (w ++ y) w.length = replaceAllGo m y 0 := by
  induction w with
  | nil => simp
  | cons c w ih => simpa [replaceAllGo] using ih

theorem replaceAllGo_cons_some (m : List Char → Option (List Char × Nat)) (c : Char)
    (t rep : List Char) (len : Nat) (h : m (c :: t) = some (rep, len)) :
    replaceAllGo m (c :: t) 0 = rep ++ replaceAllGo m t (len - 1) := by
  simp only [replaceAllGo, h]

theorem replaceAllGo_cons_none (m : List Char → Option (List Char × Nat)) (c : Char)
    (t : List Char) (h : m (c :: t) = none) :
    replaceAllGo m (c :: t) 0 = c :: replaceAllGo m t 0 := by
  simp only [replaceAllGo, h]

theorem replaceAllGo_match (m : List Char → Option (List Char × Nat)) (w y rep : List Char)
    (hw : w ≠ []) (hm : m (w ++ y) = some (rep, w.length)) :
    replaceAllGo m (w ++ y) 0 = rep ++ replaceAllGo m y 0 := by
  cases w with
  | nil => exact absurd rfl hw
  | cons c w =>
    have hm2 : m (c :: (w ++ y)) = some (rep, (c :: w).length) := by simpa using hm
    rw [List.cons_append, replaceAllGo_cons_some m c (w ++ y) rep _ hm2]
    simp only [List.length_cons, Nat.add_sub_cancel]
    rw [replaceAllGo_skip]

theorem replaceAllGo_text (m : List Char → Option (List Char × Nat)) (t x : List Char)
    (h : ∀ j, j < t.length → m (t.drop j ++ x) = none) :
    replaceAllGo m (t ++ x) 0 = t ++ replaceAllGo m x 0 := by
  induction t with
  | nil => simp
  | cons c t ih =>
    have h0 : m (c :: (t ++ x)) = none := by simpa using h 0 (by simp)
    have ht : ∀ j, j < t.length → m (t.drop j ++ x) = none := by
      intro j hj
      simpa using h (j + 1) (by simpa using hj)
    rw [List.cons_append, replaceAllGo_cons_none m c (t ++ x) h0, ih ht]
    rfl

/-! ### Placeholder tokens in running text -/

theorem HasToken.embed (x t y : List Char) (h : HasToken t) : HasToken (x ++ t ++ y) := by
  obtain ⟨a, ds, b, hne, hd, rfl⟩ := h
  exact ⟨x ++ a, ds, b ++ y, hne, hd, by simp⟩

theorem tokenTail_no_M (ds : List Char) (hd : ∀ c ∈ ds, c.isDigit = true) :
    'M' ∉ placeholderHead.tail ++ ds ++ "__".toList := by
  intro hmem
  rcases List.mem_append.mp hmem with h | h
  · rcases List.mem_append.mp h with h | h
    · revert h; decide
    · have := hd _ h
      revert this; decide
  · revert h; decide

theorem placeholderHead_eq : placeholderHead = 'M' :: placeholderHead.tail := by decide

/-- Text without a token yields no match, whatever follows it, as long as what
follows is empty or begins with the first letter of a token. -/
theorem placeholderReMatch_text (t x : List Char) (ht : ¬ HasToken t)
    (hx : x = [] ∨ ∃ x1, x = 'M' :: x1) (j : Nat) (hj : j < t.length) :
    placeholderReMatch (t.drop j ++ x) = none := by
  cases hm : placeholderReMatch (t.drop j ++ x) with
  | none => rfl
  | some r =>
    exfalso
    obtain ⟨ds, b, hne, hd, hs⟩ := placeholderReMatch_some _ _ hm
    have hsplit : t = t.take j ++ t.drop j := (List.take_append_drop j t).symm
    rcases hx with rfl | ⟨x1, rfl⟩
    · apply ht
      refine ⟨t.take j, ds, b, hne, hd, ?_⟩
      rw [List.append_nil] at hs
      rw [List.append_assoc, ← hs]
      exact hsplit
    · have hnoM := tokenTail_no_M ds hd
      cases hu : t.drop j with
      | nil =>
        have : t.length ≤ j := by
          have := congrArg List.length hu
          simp at this; omega
        omega
      | cons c u =>
        rw [hu, placeholderHead_eq] at hs
        simp only [List.cons_append, List.cons.injEq] at hs
        obtain ⟨hc, hrest⟩ := hs
        have hrest2 : u ++ 'M' :: x1 = (placeholderHead.tail ++ ds ++ "__".toList) ++ b := by
          rw [hrest]
        rcases List.append_eq_append_iff.mp hrest2 with ⟨a, hw, hMx⟩ | ⟨c1, hu1, _⟩
        · cases a with
          | nil =>
            apply ht
            refine ⟨t.take j, ds, [], hne, hd, ?_⟩
            rw [List.append_nil] at hw
            have : t.drop j = placeholderHead ++ ds ++ "__".toList := by
              rw [hu, hc]
              conv_rhs => rw [placeholderHead_eq]
              simp only [List.cons_append, List.cons.injEq, true_and]
              rw [hw]
            rw [List.append_nil, ← this]; exact hsplit
          | cons a0 a =>
            simp only [List.cons_append, List.cons.injEq] at hMx
            apply hnoM
            rw [hw, ← hMx.1]
            simp
        · apply ht
          refine ⟨t.take j, ds, c1, hne, hd, ?_⟩
          have : t.drop j = (placeholderHead ++ ds ++ "__".toList) ++ c1 := by
            rw [hu, hc, hu1]
            conv_rhs => rw [placeholderHead_eq]
            simp
          rw [List.append_assoc, ← this]; exact hsplit

/-! ### Restoring a rendered segment list -/

theorem restoreMatcher_placeholder (blocks : List (List Char)) (i : Nat) (y : List Char) :
    restoreMatcher blocks (placeholder i ++ y)
      = some (blocks.getD i [], (placeholder i).length) := by
  unfold restoreMatcher placeholder
  rw [placeholderReMatch_token (toDecimal i) y (toDecimal_ne_nil i) (toDecimal_digits i)]
  simp [parseDecimal_toDecimal, Nat.add_assoc]

theorem placeholder_eq_cons (i : Nat) : ∃ p, placeholder i = 'M' :: p := by
  refine ⟨placeholderHead.tail ++ toDecimal i ++ "__".toList, ?_⟩
  unfold placeholder
  conv_lhs => rw [placeholderHead_eq]
  simp

theorem restore_render (segs : List (List Char × List Char)) (pre : List (List Char))
    (tail : List Char) (hsegs : ∀ seg ∈ segs, ¬ HasToken seg.1) (htail : ¬ HasToken tail) :
    replaceAllGo (restoreMatcher (pre ++ segs.map Prod.snd))
      (renderSegs pre.length segs ++ tail) 0 = flatSegs segs ++ tail := by
  induction segs generalizing pre with
  | nil =>
    have := replaceAllGo_text (restoreMatcher (pre ++ [])) tail []
      (fun j hj => by
        unfold restoreMatcher
        rw [placeholderReMatch_text tail [] htail (Or.inl rfl) j hj]; rfl)
    simpa [renderSegs, flatSegs, replaceAllGo] using this
  | cons seg segs ih =>
    obtain ⟨t, b⟩ := seg
    have ht : ¬ HasToken t := hsegs (t, b) (List.mem_cons_self _ _)
    have hrest : ∀ seg ∈ segs, ¬ HasToken seg.1 :=
      fun seg hs => hsegs seg (List.mem_cons_of_mem _ hs)
    obtain ⟨p, hp⟩ := placeholder_eq_cons pre.length
    have hB : pre ++ List.map Prod.snd ((t, b) :: segs)
        = (pre ++ [b]) ++ segs.map Prod.snd := by simp
    have hget : (pre ++ List.map Prod.snd ((t, b) :: segs)).getD pre.length [] = b := by
      rw [List.getD_eq_getElem?_getD, List.getElem?_append_right (Nat.le_refl _)]
      simp
    have e1 : renderSegs pre.length ((t, b) :: segs) ++ tail
        = t ++ (placeholder pre.length ++ (renderSegs (pre.length + 1) segs ++ tail)) := by
      simp [renderSegs]
    rw [e1, replaceAllGo_text _ t _ (fun j hj => by
        unfold restoreMatcher
        rw [placeholderReMatch_text t _ ht (Or.inr ⟨p ++ (renderSegs (pre.length + 1) segs ++ tail), by rw [hp]; rfl⟩) j hj]; rfl)]
    rw [replaceAllGo_match _ (placeholder pre.length) _ _ (by rw [hp]; simp)
      (restoreMatcher_placeholder _ _ _), hget, hB]
    have := ih (pre ++ [b]) hrest
    simp only [List.length_append, List.length_singleton] at this
    rw [this]
    simp [flatSegs]

/-! ### Offsets returned by the scans -/

theorem indexOfAux_bounds (needle s : List Char) (pos k : Nat)
    (h : indexOfAux needle s pos = some k) :
    pos ≤ k ∧ k + needle.length ≤ pos + s.length := by
  induction s generalizing pos with
  | nil =>
    unfold indexOfAux at h
    split at h
    · rename_i hp
      rw [List.isPrefixOf_iff_prefix] at hp
      have := hp.length_le
      simp at h this
      subst h
      simp [this]
    · simp at h
  | cons c t ih =>
    unfold indexOfAux at h
    split at h
    · rename_i hp
      rw [List.isPrefixOf_iff_prefix] at hp
      have := hp.length_le
      simp at h
      subst h
      omega
    · have := ih (pos + 1) h
      simp only [List.length_cons]
      omega

theorem matchDelimited_bounds (op cl s : List Char) (len : Nat)
    (h : matchDelimited op cl s = some len) : 0 < len ∧ len ≤ s.length := by
  unfold matchDelimited at h
  split at h
  · rename_i hp
    rw [List.isPrefixOf_iff_prefix] at hp
    obtain ⟨rest, rfl⟩ := hp
    simp only [List.drop_left] at h
    cases rest with
    | nil => simp at h
    | cons x t =>
      simp only [Option.map_eq_some'] at h
      obtain ⟨k, hk, rfl⟩ := h
      have := indexOfAux_bounds cl t 0 k hk
      simp only [List.length_append, List.length_cons]
      omega
  · simp at h

theorem mathReMatch_bounds (s : List Char) (len : Nat) (h : mathReMatch s = some len) :
    0 < len ∧ len ≤ s.length := by
  unfold mathReMatch at h
  cases h1 : matchDelimited "$$".toList "$$".toList s with
  | some l1 =>
    rw [h1] at h
    simp only [Option.orElse, Option.some.injEq] at h
    subst h
    exact matchDelimited_bounds _ _ _ _ h1
  | none =>
    rw [h1] at h
    simp only [Option.orElse] at h
    cases h2 : matchDelimited "\\\\(".toList "\\\\)".toList s with
    | some l2 =>
      rw [h2] at h
      simp only [Option.some.injEq] at h
      subst h
      exact matchDelimited_bounds _ _ _ _ h2
    | none =>
      rw [h2] at h
      exact matchDelimited_bounds _ _ _ _ h

theorem mathReSearch_bounds (s : List Char) (pos idx e : Nat)
    (h : mathReSearch s pos = some (idx, e)) :
    pos ≤ idx ∧ idx < e ∧ e ≤ pos + s.length := by
  induction s generalizing pos with
  | nil => simp [mathReSearch] at h
  | cons c t ih =>
    unfold mathReSearch at h
    cases hm : mathReMatch (c :: t) with
    | some len =>
      rw [hm] at h
      simp only [Option.some.injEq, Prod.mk.injEq] at h
      have := mathReMatch_bounds _ _ hm
      omega
    | none =>
      rw [hm] at h
      have := ih (pos + 1) h
      simp only [List.length_cons]
      omega

theorem mathReExec_bounds (md : List Char) (reLast idx e : Nat)
    (h : mathReExec md reLast = some (idx, e)) :
    reLast ≤ idx ∧ idx < e ∧ e ≤ md.length := by
  unfold mathReExec at h
  have := mathReSearch_bounds _ _ _ _ h
  simp only [List.length_drop] at this
  omega

theorem fenceReMatch_bounds (prev : Option Char) (s : List Char) (len : Nat)
    (h : fenceReMatch prev s = some len) : 3 ≤ len ∧ len ≤ s.length := by
  unfold fenceReMatch at h
  simp only at h
  split at h
  · rename_i hc
    simp only [Bool.and_eq_true] at hc
    have hp := hc.2
    rw [List.isPrefixOf_iff_prefix] at hp
    have h3 : fenceMarker.length ≤ s.length := hp.length_le
    have hm : fenceMarker.length = 3 := by decide
    have htw := (List.takeWhile_prefix (l := s.drop 3) (fun c => !isLineTerminator c)).length_le
    simp only [List.length_drop] at htw
    simp only [Option.some.injEq] at h
    omega
  · simp at h

theorem fenceReSearch_bounds (prev : Option Char) (s : List Char) (pos st len : Nat)
    (h : fenceReSearch prev s pos = some (st, len)) :
    pos ≤ st ∧ 3 ≤ len ∧ st + len ≤ pos + s.length := by
  induction s generalizing pos prev with
  | nil => simp [fenceReSearch] at h
  | cons c t ih =>
    unfold fenceReSearch at h
    cases hm : fenceReMatch prev (c :: t) with
    | some l =>
      rw [hm] at h
      simp only [Option.some.injEq, Prod.mk.injEq] at h
      have := fenceReMatch_bounds _ _ _ hm
      omega
    | none =>
      rw [hm] at h
      have := ih _ (pos + 1) h
      simp only [List.length_cons]
      omega

theorem fenceReExec_bounds (md : List Char) (li st len : Nat)
    (h : fenceReExec md li = some (st, len)) :
    li ≤ st ∧ 3 ≤ len ∧ st + len ≤ md.length := by
  unfold fenceReExec at h
  have := fenceReSearch_bounds _ _ _ _ _ h
  simp only [List.length_drop] at this
  omega

/-- The fence scan never runs out of fuel. -/
theorem fenceLoop_isSome (md : List Char) (fuel li : Nat) (ranges : List (Nat × Nat))
    (hli : li ≤ md.length) (h : md.length < li + fuel) :
    (fenceLoop md fuel li ranges).isSome = true := by
  induction fuel generalizing li ranges with
  | zero => omega
  | succ fuel ih =>
    unfold fenceLoop
    cases he : fenceReExec md li with
    | none => simp
    | some r =>
      obtain ⟨st, len⟩ := r
      have hb := fenceReExec_bounds _ _ _ _ he
      simp only
      cases hi : indexOf fenceMarker md (st + len) with
      | none => exact ih _ _ (by omega) (by omega)
      | some fc =>
        have := indexOfAux_bounds _ _ _ _ hi
        simp only [List.length_drop] at this
        have hm : fenceMarker.length = 3 := by decide
        exact ih _ _ (by omega) (by omega)

theorem fenceRanges_isSome (md : List Char) : (fenceRanges md).isSome = true :=
  fenceLoop_isSome md _ 0 [] (Nat.zero_le _) (by omega)

theorem slice_append_drop (md : List Char) (a b : Nat) (h : a ≤ b) :
    slice md a b ++ md.drop b = md.drop a := by
  unfold slice
  have h1 : md.drop b = (md.drop a).drop (b - a) := by
    rw [List.drop_drop]; congr 1; omega
  rw [h1, List.take_append_drop]

/-- Shape of the extraction result: the source from `lastIndex` on is cut into
texts and spans, the texts are copied, the spans recorded and numbered from
the number of spans recorded before. -/
theorem extractLoop_shape (md : List Char) (fences : List (Nat × Nat)) (fuel reLast lastIndex : Nat)
    (out : List Char) (blocks : List (List Char))
    (h1 : lastIndex ≤ reLast) (h2 : reLast ≤ md.length) (h3 : md.length < reLast + fuel) :
    ∃ segs tail,
      extractLoop md fences fuel reLast lastIndex out blocks
        = some ⟨out ++ (renderSegs blocks.length segs ++ tail), blocks ++ segs.map Prod.snd⟩ ∧
      md.drop lastIndex = flatSegs segs ++ tail := by
  induction fuel generalizing reLast lastIndex out blocks with
  | zero => omega
  | succ fuel ih =>
    unfold extractLoop
    cases he : mathReExec md reLast with
    | none => exact ⟨[], md.drop lastIndex, by simp [renderSegs], by simp [flatSegs]⟩
    | some r =>
      obtain ⟨idx, e⟩ := r
      have hb := mathReExec_bounds _ _ _ _ he
      simp only
      split
      · exact ih e lastIndex out blocks (by omega) (by omega) (by omega)
      · obtain ⟨segs, tail, hres, hflat⟩ := ih e e
          (out ++ slice md lastIndex idx ++ placeholder blocks.length)
          (blocks ++ [slice md idx e]) (Nat.le_refl _) (by omega) (by omega)
        refine ⟨(slice md lastIndex idx, slice md idx e) :: segs, tail, ?_, ?_⟩
        · rw [hres]
          simp [renderSegs]
        · simp only [flatSegs, List.append_assoc]
          rw [← hflat, slice_append_drop md idx e (by omega),
            slice_append_drop md lastIndex idx (by omega)]

theorem HasToken_of_flatSegs (segs : List (List Char × List Char)) (tail : List Char)
    (h : ¬ HasToken (flatSegs segs ++ tail)) :
    (∀ seg ∈ segs, ¬ HasToken seg.1) ∧ ¬ HasToken tail := by
  induction segs with
  | nil => exact ⟨by simp, by simpa [flatSegs] using h⟩
  | cons seg segs ih =>
    obtain ⟨t, b⟩ := seg
    have hrest : ¬ HasToken (flatSegs segs ++ tail) := by
      intro hc
      apply h
      have := HasToken.embed (t ++ b) _ [] hc
      simpa [flatSegs] using this
    obtain ⟨h1, h2⟩ := ih hrest
    refine ⟨?_, h2⟩
    intro seg hs
    rcases List.mem_cons.mp hs with rfl | hs
    · intro hc
      apply h
      have := HasToken.embed [] _ (b ++ (flatSegs segs ++ tail)) hc
      simpa [flatSegs] using this
    · exact h1 seg hs

/-- The Bool check finds every token. -/
theorem hasTokenB_of_HasToken (s : List Char) (h : HasToken s) : hasTokenB s = true := by
  obtain ⟨a, ds, b, hne, hd, rfl⟩ := h
  induction a with
  | nil =>
    have hm := placeholderReMatch_token ds b hne hd
    obtain ⟨p, hp⟩ : ∃ p, placeholderHead ++ ds ++ "__".toList ++ b = 'M' :: p :=
      ⟨placeholderHead.tail ++ ds ++ "__".toList ++ b, by
        conv_lhs => rw [placeholderHead_eq]
        simp⟩
    simp only [List.nil_append]
    rw [hp] at hm ⊢
    simp [hasTokenB, hm]
  | cons c a ih =>
    simp only [List.cons_append, hasTokenB, Bool.or_eq_true]
    right
    simpa using ih

/-- C2: round trip of the math protection.  For every Markdown text that has
no substring of the form `MATHBLOCK_PLACEHOLDER_<digits>__`, the fence scan and
the extraction loop terminate, and restoring the placeholders in the text the
extraction produced (the Markdown parser taken as the identity) gives back the
original text exactly. -/
theorem restoreMath_extractMath_roundtrip (md : List Char) (h : ¬ HasToken md) :
    htmlBodyOf id md = some md := by
  unfold htmlBodyOf extractMath
  have hf := fenceRanges_isSome md
  cases hfr : fenceRanges md with
  | none => rw [hfr] at hf; simp at hf
  | some fences =>
    obtain ⟨segs, tail, hres, hflat⟩ := extractLoop_shape md fences (md.length + 1) 0 0 [] []
      (Nat.le_refl _) (Nat.zero_le _) (by omega)
    simp only [hres, Option.map_some', id, Option.some.injEq]
    simp only [List.drop_zero] at hflat
    rw [hflat] at h
    obtain ⟨h1, h2⟩ := HasToken_of_flatSegs segs tail h
    have := restore_render segs [] tail h1 h2
    simp only [List.nil_append, List.length_nil] at this ⊢
    unfold restoreMath replaceAll
    rw [hflat]
    exact this

/-- Witness of C2 on a text with a fenced span and a free span. -/
theorem restoreMath_extractMath_roundtrip_witness :
    ¬ HasToken "```\n$$c$$\n```\n$$a$$ b".toList ∧
    htmlBodyOf id "```\n$$c$$\n```\n$$a$$ b".toList = some "```\n$$c$$\n```\n$$a$$ b".toList :=
  ⟨fun hc => absurd (hasTokenB_of_HasToken _ hc) (by decide),
   restoreMath_extractMath_roundtrip _
     (fun hc => absurd (hasTokenB_of_HasToken _ hc) (by decide))⟩

/-- C1 (fails on the code): the text below has one dollar-dollar span, at
offsets 11 to 16, that starts outside the only fence range `[0, 10)`; the
fenced block holds a single `$$`.  The match that starts at the fenced `$$`
runs to the opening `$$` of the free span and is skipped, the scan resumes
after it, and the extraction records no span and inserts no placeholder. -/
theorem extractMath_fenced_dollar_swallows_span :
    fenceRanges "```\n$$\n```\n$$a$$".toList = some [(0, 10)] ∧
    isInFence [(0, 10)] 11 = false ∧
    mathReMatch ("```\n$$\n```\n$$a$$".toList.drop 11) = some 5 ∧
    mathReExec "```\n$$\n```\n$$a$$".toList 0 = some (4, 13) ∧
    extractMath "```\n$$\n```\n$$a$$".toList
      = some ⟨"```\n$$\n```\n$$a$$".toList, []⟩ := by
  decide

theorem imgReMatch_raw (s : List Char) (t : ImgTag) (h : imgReMatch s = some t) :
    ∃ n, t.raw = s.take n ∧ 4 ≤ n := by
  unfold imgReMatch at h
  split at h
  · simp only [Option.map_eq_some'] at h
    obtain ⟨r, _, rfl⟩ := h
    exact ⟨4 + r.2.2.2, rfl, by omega⟩
  · simp at h

theorem imgReMatch_raw_append (c : Char) (s : List Char) (t : ImgTag)
    (h : imgReMatch (c :: s) = some t) : t.raw ++ s.drop (t.raw.length - 1) = c :: s := by
  obtain ⟨n, hn, h4⟩ := imgReMatch_raw _ _ h
  rw [hn]
  have hlen : ((c :: s).take n).length - 1 = min n (s.length + 1) - 1 := by simp
  rw [hlen]
  rcases Nat.lt_or_ge n (s.length + 1) with hlt | hge
  · have : min n (s.length + 1) - 1 = n - 1 := by omega
    rw [this]
    have h2 : s.drop (n - 1) = (c :: s).drop n := by
      obtain ⟨m, rfl⟩ : ∃ m, n = m + 1 := ⟨n - 1, by omega⟩
      simp
    rw [h2, List.take_append_drop]
  · have : min n (s.length + 1) - 1 = s.length := by omega
    rw [this, List.drop_length, List.append_nil, List.take_of_length_le (by simpa using hge)]

/-- The pieces are a partition of the text that is still to be scanned. -/
theorem imgTokensGo_raw (s : List Char) (k : Nat) :
    ((imgTokensGo s k).map ImgToken.raw).flatten = s.drop k := by
  induction s using List.rec generalizing k with
  | nil => simp [imgTokensGo]
  | cons c s ih =>
    cases k with
    | succ k => simpa [imgTokensGo] using ih k
    | zero =>
      unfold imgTokensGo
      cases hm : imgReMatch (c :: s) with
      | none => simp [ImgToken.raw, ih 0]
      | some t =>
        simp only [List.map_cons, List.flatten_cons, ImgToken.raw, ih, List.drop_zero]
        exact imgReMatch_raw_append c s t hm

/-- The global replace maps the callback over the matches and copies the rest. -/
theorem replaceAllGo_imgTokens (f : ImgTag → List Char) (s : List Char) (k : Nat) :
    replaceAllGo (fun s => (imgReMatch s).map fun t => (f t, t.raw.length)) s k
      = ((imgTokensGo s k).map fun tok => match tok with
          | .text c => [c]
          | .tag t => f t).flatten := by
  induction s using List.rec generalizing k with
  | nil => simp [imgTokensGo, replaceAllGo]
  | cons c s ih =>
    cases k with
    | succ k => simpa [imgTokensGo, replaceAllGo] using ih k
    | zero =>
      unfold imgTokensGo
      cases hm : imgReMatch (c :: s) with
      | none =>
        rw [replaceAllGo_cons_none _ _ _ (by simp [hm])]
        simp [ih 0]
      | some t =>
        rw [replaceAllGo_cons_some _ c s (f t) t.raw.length (by simp [hm])]
        simp [ih]

/-- Shape of the result of `embedImagesInHtml`.  The input is the
concatenation of its pieces, and the output is obtained piece by piece: text
outside the matches is copied, a matched tag whose `src` is local and for
whose file name reading the image map gives a value leaves as
`<img{before}src="{value}"{after}>`, and every other matched tag leaves
exactly as it came in. -/
theorem embedImagesInHtml_pieces (proto : List Char → Option (List Char))
    (html : List Char) (images : List ImageEntry) :
    ((imgTokens html).map ImgToken.raw).flatten = html ∧
    embedImagesInHtml proto html images
      = ((imgTokens html).map fun tok => match tok with
          | .text c => [c]
          | .tag t =>
            match (if images.isEmpty || isRemoteSrc t.src then none
                   else imagesMapGet proto images (lastSegment t.src)) with
            | some value =>
              "<img".toList ++ t.before ++ "src=\"".toList ++ value ++ "\"".toList
                ++ t.after ++ ">".toList
            | none => t.raw).flatten := by
  have hraw := imgTokensGo_raw html 0
  simp only [List.drop_zero] at hraw
  refine ⟨hraw, ?_⟩
  unfold embedImagesInHtml
  cases hi : images.isEmpty with
  | true =>
    simp only [if_true, Bool.true_or]
    conv_lhs => rw [← hraw]
    rfl
  | false =>
    simp only [Bool.false_or, Bool.false_eq_true, if_false]
    unfold replaceAll
    rw [replaceAllGo_imgTokens (imgReplacer proto images) html 0]
    congr 1
    apply List.map_congr_left
    intro tok _
    cases tok with
    | text c => rfl
    | tag t =>
      simp only [imgReplacer, rewrittenTag]
      split <;> simp_all

/-- C3 (fails on the code): a tag with a local `src` for which no image is
supplied.  With an empty image list (line 70) and with a list that holds
another image only (line 84) the server returns the tag with its local path
and attaches nothing to it; the preview of `app.js` (`replaceImagePaths`)
gives such a tag an `onerror` placeholder. -/
theorem embedImagesInHtml_leaves_local_path :
    isRemoteSrc "pics/a.png".toList = false ∧
    embedImagesInHtml (fun _ => none) "<p><img src=\"pics/a.png\"></p>".toList []
      = "<p><img src=\"pics/a.png\"></p>".toList ∧
    isRemoteSrc "pics/b.png".toList = false ∧
    imageA.name ≠ lastSegment "pics/b.png".toList ∧
    embedImagesInHtml objectPrototype "<p><img src=\"pics/b.png\"></p>".toList [imageA]
      = "<p><img src=\"pics/b.png\"></p>".toList := by
  decide

/-- The significand is the one of the double nearest to 0.264583: it has 53
bits and `pxToMmSig / 2^54` differs from `264583 / 10^6` by at most half a
unit in the last place. -/
theorem pxToMmSig_nearest :
    2 ^ 52 ≤ pxToMmSig ∧ pxToMmSig < 2 ^ 53 ∧
    pxToMmSig * 10 ^ 6 = 264583 * 2 ^ 54 + 227328 ∧ 2 * 227328 ≤ 10 ^ 6 := by
  decide

theorem excessBits_spec (fuel n : Nat) (h : n ≤ fuel) :
    n < 2 ^ (53 + excessBits fuel n) ∧
    (excessBits fuel n = 0 ∨ 2 ^ (52 + excessBits fuel n) ≤ n) := by
  induction fuel generalizing n with
  | zero =>
    have : n = 0 := by omega
    subst this
    simp [excessBits]
  | succ fuel ih =>
    unfold excessBits
    split
    · rename_i hlt
      exact ⟨by simpa using hlt, Or.inl rfl⟩
    · rename_i hge
      have hn : 2 ^ 53 ≤ n := by omega
      have hfuel : n / 2 ≤ fuel := by omega
      obtain ⟨h1, h2⟩ := ih (n / 2) hfuel
      have e1 : 53 + (1 + excessBits fuel (n / 2)) = (53 + excessBits fuel (n / 2)) + 1 := by omega
      have e2 : 52 + (1 + excessBits fuel (n / 2)) = (52 + excessBits fuel (n / 2)) + 1 := by omega
      rw [e1, e2, pow_succ, pow_succ]
      refine ⟨by omega, Or.inr ?_⟩
      rcases h2 with h0 | h2
      · rw [h0]
        simp only [Nat.add_zero]
        have : (2:Nat) ^ 52 * 2 = 2 ^ 53 := by norm_num
        omega
      · omega

theorem roundToEven_spec (n e : Nat) :
    ∃ q, roundToEven n e = q * 2 ^ e ∧ 2 * roundToEven n e ≤ 2 * n + 2 ^ e ∧
      2 * n ≤ 2 * roundToEven n e + 2 ^ e := by
  have hP : 0 < 2 ^ e := pow_pos (by decide) e
  have hdm := Nat.div_add_mod n (2 ^ e)
  have hr := Nat.mod_lt n hP
  have hcomm : 2 ^ e * (n / 2 ^ e) = n / 2 ^ e * 2 ^ e := Nat.mul_comm _ _
  have hsucc : (n / 2 ^ e + 1) * 2 ^ e = n / 2 ^ e * 2 ^ e + 2 ^ e := by ring
  rw [hcomm] at hdm
  unfold roundToEven
  simp only []
  split_ifs
  · refine ⟨_, rfl, ?_, ?_⟩ <;>
    · generalize n / 2 ^ e * 2 ^ e = a at *
      generalize n % 2 ^ e = r at *
      generalize 2 ^ e = p at *
      omega
  · refine ⟨_, rfl, ?_, ?_⟩ <;>
    · rw [hsucc]
      generalize n / 2 ^ e * 2 ^ e = a at *
      generalize n % 2 ^ e = r at *
      generalize 2 ^ e = p at *
      omega
  · refine ⟨_, rfl, ?_, ?_⟩ <;>
    · generalize n / 2 ^ e * 2 ^ e = a at *
      generalize n % 2 ^ e = r at *
      generalize 2 ^ e = p at *
      omega
  · refine ⟨_, rfl, ?_, ?_⟩ <;>
    · rw [hsucc]
      generalize n / 2 ^ e * 2 ^ e = a at *
      generalize n % 2 ^ e = r at *
      generalize 2 ^ e = p at *
      omega

theorem mul_step_of_lt (q b p : Nat) (h : b * p < q * p) : b * p + p ≤ q * p := by
  have hlt : b < q := Nat.lt_of_mul_lt_mul_right h
  have : (b + 1) * p ≤ q * p := Nat.mul_le_mul_right p hlt
  rw [Nat.add_mul, Nat.one_mul] at this
  exact this

/-- The double computation of line 375 agrees with the exact ceiling for
every 32-bit content height. -/
theorem heightMm_eq_ceil (H : Nat) (hH : H < 2 ^ 31) :
    heightMm H = (H * 264583 + 999999) / 1000000 := by
  unfold heightMm mulPxToMm
  obtain ⟨hN1, hN2⟩ := excessBits_spec (H * pxToMmSig) (H * pxToMmSig) (Nat.le_refl _)
  obtain ⟨q, hq, hr1, hr2⟩ := roundToEven_spec (H * pxToMmSig)
    (excessBits (H * pxToMmSig) (H * pxToMmSig))
  generalize excessBits (H * pxToMmSig) (H * pxToMmSig) = e at *
  generalize roundToEven (H * pxToMmSig) e = Z at *
  have hM : pxToMmSig = 4766303600834272 := rfl
  rw [hM] at hN1 hN2 hr1 hr2
  rw [Nat.pow_add] at hN1 hN2
  have h53 : (2:Nat) ^ 53 = 9007199254740992 := by norm_num
  have h52 : (2:Nat) ^ 52 = 4503599627370496 := by norm_num
  have h54 : (2:Nat) ^ 54 = 18014398509481984 := by norm_num
  have h31 : (2:Nat) ^ 31 = 2147483648 := by norm_num
  have h32 : (2:Nat) ^ 32 = 4294967296 := by norm_num
  rw [h53] at hN1
  rw [h52] at hN2
  rw [h31] at hH
  have hP : 0 < 2 ^ e := pow_pos (by decide) e
  -- the exponent is small
  have hPlt : 2 ^ e < 2 ^ 32 := by
    rcases hN2 with h0 | h2
    · rw [h0]; norm_num
    · rw [h32]; omega
  have he : e < 32 := (Nat.pow_lt_pow_iff_right (by decide)).mp hPlt
  have hK : (2:Nat) ^ 54 = 2 ^ (54 - e) * 2 ^ e := by
    rw [← Nat.pow_add]; congr 1; omega
  rw [h32] at hPlt
  have hP1 : e = 0 → 2 ^ e = 1 := by intro h; rw [h]; rfl
  set T := (H * 264583 + 999999) / 1000000 with hT
  have hT1 : H * 264583 ≤ T * 1000000 := by omega
  have hT2 : T * 1000000 < H * 264583 + 1000000 := by omega
  -- upper bound
  have hup : Z ≤ T * 2 ^ 54 := by
    by_contra hcon
    have hlt : (T * 2 ^ (54 - e)) * 2 ^ e < q * 2 ^ e := by
      rw [Nat.mul_assoc, ← hK, ← hq]; omega
    have hstep := mul_step_of_lt _ _ _ hlt
    rw [Nat.mul_assoc, ← hK, ← hq, h54] at hstep
    generalize 2 ^ e = p at *
    omega
  -- lower bound
  have hlow : T * 2 ^ 54 < Z + 2 ^ 54 := by
    rw [h54]
    generalize 2 ^ e = p at *
    omega
  rw [h54] at hup hlow ⊢
  omega

/-! ### The run up to `page.pdf` -/

/-- What is known when the run reaches `page.pdf`. -/
theorem runToPagination_reached (env : Env) (payload : Payload) (w : World)
    (ctx : PaginationCtx) (h : runToPagination env payload w = .reached ctx) :
    ctx.pdfOptions = pdfOptionsOf payload env.contentHeight ∧
    ctx.themeName = (if payload.theme.isEmpty then "atom".toList else payload.theme) ∧
    ∃ file, themesGet env.proto ctx.themeName = .own file := by
  unfold runToPagination at h
  simp only at h
  split at h
  · simp [Run.caught] at h
  · simp [Run.caught] at h
  · rename_i file hth
    split at h
    · simp [Run.caught] at h
    · split at h
      · simp [Run.caught] at h
      · split at h
        · simp [Run.caught] at h
        · simp only [Run.reached.injEq] at h
          subst h
          exact ⟨rfl, rfl, file, hth⟩

/-- A run that reaches `page.pdf` has passed the theme check of the handler. -/
theorem apiGenerate_of_reached (env : Env) (payload : Payload) (w : World)
    (ctx : PaginationCtx) (hmd : payload.markdown ≠ [])
    (h : runToPagination env payload w = .reached ctx) :
    apiGenerate env payload w =
      match paginate env payload ctx with
      | (w1, .ok buffer fileName debugPdfPath) =>
        ((match debugPdfPath with
          | some p => if env.debugEnabled then w1 else w1.unlink p
          | none => w1), .pdf buffer fileName)
      | (w1, .throws msg) => (w1, generateErrorResponse msg) := by
  obtain ⟨_, hname, file, hth⟩ := runToPagination_reached env payload w ctx h
  unfold apiGenerate generatePdfFromPayload
  have h1 : payload.markdown.isEmpty = false := by
    cases hm : payload.markdown with
    | nil => exact absurd hm hmd
    | cons c t => rfl
  have h2 : (!payload.theme.isEmpty && themesGet env.proto payload.theme == .absent) = false := by
    cases ht : payload.theme.isEmpty with
    | true => rfl
    | false =>
      rw [hname, ht] at hth
      simp only [Bool.false_eq_true, if_false] at hth
      rw [hth]
      rfl
  simp only [h1, h2, h, Bool.false_eq_true, if_false]


/-! ### Messages and the abort pattern -/

theorem containsSub_iff (n s : List Char) :
    containsSub n s = true ↔ ∃ a b, s = a ++ n ++ b := by
  constructor
  · intro h
    induction s with
    | nil =>
      simp only [containsSub, List.isPrefixOf_iff_prefix] at h
      have := List.prefix_nil.mp h
      exact ⟨[], [], by simp [this]⟩
    | cons c t ih =>
      simp only [containsSub, Bool.or_eq_true, List.isPrefixOf_iff_prefix] at h
      rcases h with ⟨r, hr⟩ | h
      · exact ⟨[], r, by simp [hr]⟩
      · obtain ⟨a, b, hab⟩ := ih h
        exact ⟨c :: a, b, by simp [hab]⟩
  · rintro ⟨a, b, rfl⟩
    induction a with
    | nil =>
      simp only [List.nil_append]
      cases hnb : n ++ b with
      | nil =>
        have hn : n = [] := (List.append_eq_nil.mp hnb).1
        simp [containsSub, hn]
      | cons c t =>
        simp only [containsSub, Bool.or_eq_true]
        left
        rw [← hnb, List.isPrefixOf_iff_prefix]
        exact List.prefix_append n b
    | cons c a ih =>
      simp only [List.cons_append, containsSub, Bool.or_eq_true]
      right
      simpa using ih

/-- The extra alternative of the handler's expression adds nothing: a message
that contains `Navigating frame was detached` contains `detached`. -/
theorem handlerAbortPattern_eq (msg : List Char) : handlerAbortPattern msg = abortPattern msg := by
  unfold handlerAbortPattern
  cases hnav : testIgnoreCase "Navigating frame was detached".toList msg with
  | false => simp
  | true =>
    have hsplit : ("Navigating frame was detached".toList).map Char.toLower
        = "navigating frame was ".toList ++ ("detached".toList).map Char.toLower := by decide
    unfold testIgnoreCase at hnav
    rw [hsplit, containsSub_iff] at hnav
    obtain ⟨a, b, hab⟩ := hnav
    have hdet : testIgnoreCase "detached".toList msg = true := by
      unfold testIgnoreCase
      rw [containsSub_iff]
      exact ⟨a ++ "navigating frame was ".toList, b, by rw [hab]; simp⟩
    unfold abortPattern
    rw [hdet]
    simp

theorem generateErrorResponse_aborted : generateErrorResponse RENDER_ABORTED = .noContent := by
  decide

theorem generateErrorResponse_failure (msg : List Char) (hpat : abortPattern msg = false)
    (hne : msg ≠ RENDER_ABORTED) :
    generateErrorResponse msg
      = .error 500 (if msg.isEmpty then "生成 PDF 失败".toList else msg) := by
  unfold generateErrorResponse
  rw [handlerAbortPattern_eq, hpat]
  have : (msg == RENDER_ABORTED) = false := by simpa using hne
  simp [this]

/-- The outcome of the pagination block when `page.pdf` rejects. -/
theorem paginate_reject (env : Env) (payload : Payload) (ctx : PaginationCtx) (msg : List Char)
    (hfail : env.fails .pdf = some msg) :
    (paginate env payload ctx).2 =
      .throws (if (env.during .pdf ctx.world).jobAborted ctx.renderId || abortPattern msg
        then RENDER_ABORTED else msg) := by
  unfold paginate
  simp only [hfail]
  cases hc : ((env.during .pdf ctx.world).jobAborted ctx.renderId || abortPattern msg) <;>
    simp [outerCatch]

/-- C6: for every request with `forceSingle` set whose run reaches `page.pdf`
and every measured content height `H` (a 32-bit value, as `scrollHeight` is),
the options passed to the engine have height `ceil(H * 264583 / 1000000)` mm,
obtained from the double product `H * 0.264583` rounded up, width the page
width of the request (`parseFloat(payload.pageWidth) || 580`) and the page
range `1`. -/
theorem pdfOptions_forceSingle (env : Env) (payload : Payload) (w : World) (ctx : PaginationCtx)
    (hf : payload.forceSingle = true) (hH : env.contentHeight < 2 ^ 31)
    (h : runToPagination env payload w = .reached ctx) :
    ctx.pdfOptions.height = some ((env.contentHeight * 264583 + 999999) / 1000000) ∧
    ctx.pdfOptions.width = some (match payload.pageWidth with
      | some v => if v = 0 then 580 else v
      | none => 580) ∧
    ctx.pdfOptions.pageRanges = some "1".toList := by
  obtain ⟨hopt, _, _⟩ := runToPagination_reached env payload w ctx h
  rw [hopt]
  simp only [pdfOptionsOf, hf, if_true]
  refine ⟨?_, ?_, ?_⟩
  · rw [heightMm_eq_ceil _ hH]
  · simp only [pageWidthOf, hf, if_true, PAGE_WIDTH]
  · trivial

/-- Witness of C6: a single-page request of width 210 mm and a content height
of 1200 px. -/
theorem pdfOptions_forceSingle_witness :
    singlePayload.forceSingle = true ∧ quietEnv.contentHeight < 2 ^ 31 ∧
    runToPagination quietEnv singlePayload emptyWorld = .reached singleCtx ∧
    singleCtx.pdfOptions.height = some ((quietEnv.contentHeight * 264583 + 999999) / 1000000) ∧
    singleCtx.pdfOptions.width = some (match singlePayload.pageWidth with
      | some v => if v = 0 then 580 else v
      | none => 580) ∧
    singleCtx.pdfOptions.pageRanges = some "1".toList :=
  ⟨by decide, by decide, by decide,
   pdfOptions_forceSingle quietEnv singlePayload emptyWorld singleCtx
     (by decide) (by decide) (by decide)⟩


/-- C4 (fails on the code): a request without `renderId` whose engine launch
fails.  The job was registered under the generated id `md-1000`; the outer
`catch` removes the temp document but deletes only `payload.renderId`, which
is absent, so the call settles with the registry still holding the job. -/
theorem generatePdfFromPayload_launch_failure_keeps_job :
    plainPayload.renderId = [] ∧
    generatePdfFromPayload launchFailEnv plainPayload emptyWorld =
      ({ renderJobs := [("md-1000".toList,
            { htmlFilePath := "/tmp/md2pdf_tmp/md-1000.html".toList, debugPdfPath := none,
              browser := none, aborted := false })],
         files := [], engines := [], launched := 0 },
       .throws "Failed to launch the browser process!".toList) := by
  decide

/-- C5 (fails on the code): the navigation to the temp document rejects after
the engine was launched.  The error goes straight to the outer `catch`, which
does not close the engine: the call settles with engine 0 still running. -/
theorem generatePdfFromPayload_goto_failure_leaves_engine :
    generatePdfFromPayload gotoFailEnv jobPayload emptyWorld =
      ({ renderJobs := [], files := [], engines := [0], launched := 1 },
       .throws "Navigation timeout of 600000 ms exceeded".toList) := by
  decide

/-- C7 (counterexample): the empty text is a theme string that is none of the
six registered names, and a request with it and a non-empty `markdown` is not
rejected: the default theme is used, an engine is launched and a PDF is
returned. -/
theorem apiGenerate_empty_theme_renders :
    plainPayload.theme = [] ∧ THEMES.lookup plainPayload.theme = none ∧
    apiGenerate quietEnv plainPayload emptyWorld =
      ({ renderJobs := [], files := [], engines := [], launched := 1 },
       .pdf [37, 80, 68, 70] "markdown-atom-1002.pdf".toList) := by
  decide

/-- C7 (as amended): a generate request whose `markdown` is missing or empty,
or whose theme is a non-empty string that is neither one of the six registered
names nor the name of a property inherited from `Object.prototype`, is
answered with a 400 error and the shared state is left as it was: no temp
file, no job, no engine. -/
theorem apiGenerate_validation (env : Env) (payload : Payload) (w : World)
    (h : payload.markdown = [] ∨
      (payload.theme ≠ [] ∧ THEMES.lookup payload.theme = none ∧ env.proto payload.theme = none)) :
    ∃ msg, apiGenerate env payload w = (w, .error 400 msg) := by
  unfold apiGenerate
  cases hm : payload.markdown.isEmpty with
  | true => exact ⟨_, rfl⟩
  | false =>
    rcases h with h | ⟨h1, h2, h3⟩
    · rw [h] at hm; simp at hm
    · have ht : payload.theme.isEmpty = false := by
        cases hp : payload.theme with
        | nil => exact absurd hp h1
        | cons c t => rfl
      have hab : themesGet env.proto payload.theme = .absent := by
        unfold themesGet
        rw [h2, h3]
        rfl
      refine ⟨themeError payload.theme, ?_⟩
      simp [ht, hab]

/-- Witness of C7 (as amended): an unknown theme name. -/
theorem apiGenerate_validation_witness :
    (({ plainPayload with theme := "dracula".toList } : Payload).markdown = [] ∨
      (({ plainPayload with theme := "dracula".toList } : Payload).theme ≠ [] ∧
        THEMES.lookup ({ plainPayload with theme := "dracula".toList } : Payload).theme = none ∧
        quietEnv.proto ({ plainPayload with theme := "dracula".toList } : Payload).theme = none)) ∧
    ∃ msg, apiGenerate quietEnv { plainPayload with theme := "dracula".toList } emptyWorld
      = (emptyWorld, .error 400 msg) :=
  ⟨Or.inr (by decide),
   apiGenerate_validation quietEnv { plainPayload with theme := "dracula".toList } emptyWorld
     (Or.inr (by decide))⟩

/-- C8 (counterexample): nobody cancels, `page.pdf` rejects because the page
crashed, and the failure is still reported as an abort: the call throws
`RENDER_ABORTED` and the handler answers with an empty 204. -/
theorem apiGenerate_page_crash_is_204 :
    runToPagination pageCrashEnv jobPayload emptyWorld = .reached jobCtx ∧
    (pageCrashEnv.during .pdf jobCtx.world).jobAborted jobCtx.renderId = false ∧
    pageCrashEnv.fails .pdf = some "Page crashed!".toList ∧
    (generatePdfFromPayload pageCrashEnv jobPayload emptyWorld).2 = .throws RENDER_ABORTED ∧
    (apiGenerate pageCrashEnv jobPayload emptyWorld).2 = .noContent := by
  decide

/-- C8 (as amended): when `page.pdf` rejects on a job whose `aborted` flag is
not set, with a message that matches none of `detached`, `Target closed`,
`Session closed`, `Page crashed` (in any letter case) and is not the text
`RENDER_ABORTED`, the call rethrows the error and the handler answers with a
500 error that carries the message, or the default text when the message is
empty. -/
theorem apiGenerate_pdf_failure (env : Env) (payload : Payload) (w : World)
    (ctx : PaginationCtx) (msg : List Char) (hmd : payload.markdown ≠ [])
    (hrun : runToPagination env payload w = .reached ctx)
    (hfail : env.fails .pdf = some msg)
    (hflag : (env.during .pdf ctx.world).jobAborted ctx.renderId = false)
    (hpat : abortPattern msg = false) (hne : msg ≠ RENDER_ABORTED) :
    (generatePdfFromPayload env payload w).2 = .throws msg ∧
    (apiGenerate env payload w).2
      = .error 500 (if msg.isEmpty then "生成 PDF 失败".toList else msg) := by
  have hp := paginate_reject env payload ctx msg hfail
  rw [hflag, hpat] at hp
  simp only [Bool.or_self, Bool.false_eq_true, if_false] at hp
  constructor
  · unfold generatePdfFromPayload
    rw [hrun]
    exact hp
  · rw [apiGenerate_of_reached env payload w ctx hmd hrun]
    cases hpg : paginate env payload ctx with
    | mk w1 o =>
      rw [hpg] at hp
      simp only at hp
      subst hp
      exact generateErrorResponse_failure msg hpat hne

/-- Witness of C8 (as amended): `page.pdf` rejects with `Printing failed`. -/
theorem apiGenerate_pdf_failure_witness :
    jobPayload.markdown ≠ [] ∧
    runToPagination pdfFailEnv jobPayload emptyWorld = .reached jobCtx ∧
    pdfFailEnv.fails .pdf = some "Printing failed".toList ∧
    (pdfFailEnv.during .pdf jobCtx.world).jobAborted jobCtx.renderId = false ∧
    abortPattern "Printing failed".toList = false ∧
    "Printing failed".toList ≠ RENDER_ABORTED ∧
    (generatePdfFromPayload pdfFailEnv jobPayload emptyWorld).2
      = .throws "Printing failed".toList ∧
    (apiGenerate pdfFailEnv jobPayload emptyWorld).2
      = .error 500 (if "Printing failed".toList.isEmpty then "生成 PDF 失败".toList
          else "Printing failed".toList) :=
  ⟨by decide, by decide, by decide, by decide, by decide, by decide,
   apiGenerate_pdf_failure pdfFailEnv jobPayload emptyWorld jobCtx "Printing failed".toList
     (by decide) (by decide) (by decide) (by decide) (by decide) (by decide)⟩

/-- C9: when `page.pdf` rejects while the registry entry of the job has
`aborted = true`, the call throws `RENDER_ABORTED` whatever the message of the
underlying error, and the handler answers with an empty 204. -/
theorem apiGenerate_pdf_failure_aborted (env : Env) (payload : Payload) (w : World)
    (ctx : PaginationCtx) (msg : List Char) (hmd : payload.markdown ≠ [])
    (hrun : runToPagination env payload w = .reached ctx)
    (hfail : env.fails .pdf = some msg)
    (hflag : ∃ job, (env.during .pdf ctx.world).getJob ctx.renderId = some job ∧
      job.aborted = true) :
    (generatePdfFromPayload env payload w).2 = .throws RENDER_ABORTED ∧
    (apiGenerate env payload w).2 = .noContent := by
  have hab : (env.during .pdf ctx.world).jobAborted ctx.renderId = true := by
    obtain ⟨job, hj, ha⟩ := hflag
    simp [World.jobAborted, hj, ha]
  have hp := paginate_reject env payload ctx msg hfail
  rw [hab] at hp
  simp only [Bool.true_or, if_true] at hp
  constructor
  · unfold generatePdfFromPayload
    rw [hrun]
    exact hp
  · rw [apiGenerate_of_reached env payload w ctx hmd hrun]
    cases hpg : paginate env payload ctx with
    | mk w1 o =>
      rw [hpg] at hp
      simp only at hp
      subst hp
      exact generateErrorResponse_aborted

/-- Witness of C9: a cancel request marks the job while `page.pdf` is in
flight, and `page.pdf` rejects with a message outside the abort pattern. -/
theorem apiGenerate_pdf_failure_aborted_witness :
    jobPayload.markdown ≠ [] ∧
    runToPagination cancelDuringPdfEnv jobPayload emptyWorld = .reached jobCtx ∧
    cancelDuringPdfEnv.fails .pdf = some "Protocol error: Connection closed.".toList ∧
    (cancelDuringPdfEnv.during .pdf jobCtx.world).getJob jobCtx.renderId
      = some { job1 with aborted := true } ∧
    abortPattern "Protocol error: Connection closed.".toList = false ∧
    (generatePdfFromPayload cancelDuringPdfEnv jobPayload emptyWorld).2 = .throws RENDER_ABORTED ∧
    (apiGenerate cancelDuringPdfEnv jobPayload emptyWorld).2 = .noContent :=
  ⟨by decide, by decide, by decide, by decide, by decide,
   apiGenerate_pdf_failure_aborted cancelDuringPdfEnv jobPayload emptyWorld jobCtx
     "Protocol error: Connection closed.".toList (by decide) (by decide) (by decide)
     ⟨{ job1 with aborted := true }, by decide, by decide⟩⟩

/-- C10 (fails on the code): a cancel request for `job1` is served while the
engine of `job1` is being launched.  The handler finds no engine handle, so it
closes nothing; it deletes the temp document and the registry entry and
answers with success.  The generate call goes on with the engine it has
launched, its navigation fails, and it ends as a failure (500) with engine 0
still running. -/
theorem apiGenerate_cancel_during_launch :
    apiCancel "job1".toList
        { renderJobs := [("job1".toList,
            { htmlFilePath := "/tmp/md2pdf_tmp/md-1000.html".toList, debugPdfPath := none,
              browser := none, aborted := false })],
          files := ["/tmp/md2pdf_tmp/md-1000.html".toList], engines := [], launched := 0 }
      = (emptyWorld, .ok "已取消".toList) ∧
    apiGenerate cancelDuringLaunchEnv jobPayload emptyWorld =
      ({ renderJobs := [], files := [], engines := [0], launched := 1 },
       .error 500 "net::ERR_FILE_NOT_FOUND at file:////tmp/md2pdf_tmp/md-1000.html".toList) := by
  decide

/-! ### The registry -/

theorem lookup_cons_of_ne (l : List (List Char × RenderJob)) (k b : List Char) (v : RenderJob)
    (h : k ≠ b) : ((k, v) :: l).lookup b = l.lookup b := by
  have hbk : (b == k) = false := by simpa using fun hh => h hh.symm
  rw [List.lookup_cons, hbk]

theorem lookup_map_update (l : List (List Char × RenderJob)) (a b : List Char)
    (f : RenderJob → RenderJob) (h : a ≠ b) :
    (l.map (fun e => if e.1 == a then (e.1, f e.2) else e)).lookup b = l.lookup b := by
  induction l with
  | nil => rfl
  | cons e l ih =>
    obtain ⟨k, v⟩ := e
    rw [List.map_cons]
    by_cases hk : k = a
    · subst hk
      have e1 : (if ((k, v) : List Char × RenderJob).1 == k then (((k, v) : List Char × RenderJob).1, f ((k, v) : List Char × RenderJob).2) else (k, v)) = (k, f v) := by
        simp
      rw [e1, lookup_cons_of_ne _ _ _ _ h, lookup_cons_of_ne _ _ _ _ h, ih]
    · have e1 : (if ((k, v) : List Char × RenderJob).1 == a then (((k, v) : List Char × RenderJob).1, f ((k, v) : List Char × RenderJob).2) else (k, v)) = (k, v) := by
        simp [hk]
      rw [e1, List.lookup_cons, List.lookup_cons, ih]

theorem lookup_map_update_self (l : List (List Char × RenderJob)) (a : List Char)
    (f : RenderJob → RenderJob) :
    (l.map (fun e => if e.1 == a then (e.1, f e.2) else e)).lookup a = (l.lookup a).map f := by
  induction l with
  | nil => rfl
  | cons e l ih =>
    obtain ⟨k, v⟩ := e
    rw [List.map_cons]
    by_cases hk : k = a
    · subst hk
      have e1 : (if ((k, v) : List Char × RenderJob).1 == k then (((k, v) : List Char × RenderJob).1, f ((k, v) : List Char × RenderJob).2) else (k, v)) = (k, f v) := by
        simp
      rw [e1, List.lookup_cons_self, List.lookup_cons_self]
      rfl
    · have e1 : (if ((k, v) : List Char × RenderJob).1 == a then (((k, v) : List Char × RenderJob).1, f ((k, v) : List Char × RenderJob).2) else (k, v)) = (k, v) := by
        simp [hk]
      rw [e1, lookup_cons_of_ne _ _ _ _ hk, lookup_cons_of_ne _ _ _ _ hk, ih]

theorem lookup_filter_ne (l : List (List Char × RenderJob)) (a b : List Char) (h : a ≠ b) :
    (l.filter (fun e => e.1 != a)).lookup b = l.lookup b := by
  induction l with
  | nil => rfl
  | cons e l ih =>
    obtain ⟨k, v⟩ := e
    by_cases hk : k = a
    · subst hk
      rw [List.filter_cons, if_neg (by simp), lookup_cons_of_ne _ _ _ _ h, ih]
    · have hf : (((k, v) : List Char × RenderJob).1 != a) = true := by simpa using hk
      rw [List.filter_cons, if_pos hf, List.lookup_cons, List.lookup_cons, ih]

theorem lookup_filter_self (l : List (List Char × RenderJob)) (a : List Char) :
    (l.filter (fun e => e.1 != a)).lookup a = none := by
  induction l with
  | nil => rfl
  | cons e l ih =>
    obtain ⟨k, v⟩ := e
    by_cases hk : k = a
    · subst hk
      rw [List.filter_cons, if_neg (by simp), ih]
    · have hf : (((k, v) : List Char × RenderJob).1 != a) = true := by simpa using hk
      rw [List.filter_cons, if_pos hf, lookup_cons_of_ne _ _ _ _ hk, ih]

theorem lookup_append_ne (l : List (List Char × RenderJob)) (a b : List Char) (j : RenderJob)
    (h : a ≠ b) : (l ++ [(a, j)]).lookup b = l.lookup b := by
  induction l with
  | nil => exact lookup_cons_of_ne _ _ _ _ h
  | cons e l ih =>
    obtain ⟨k, v⟩ := e
    rw [List.cons_append, List.lookup_cons, List.lookup_cons, ih]

@[simp] theorem getJob_updateJob_ne (w : World) (a b : List Char) (f : RenderJob → RenderJob)
    (h : a ≠ b) : (w.updateJob a f).getJob b = w.getJob b :=
  lookup_map_update _ _ _ _ h

theorem getJob_updateJob_self (w : World) (a : List Char) (f : RenderJob → RenderJob) :
    (w.updateJob a f).getJob a = (w.getJob a).map f :=
  lookup_map_update_self _ _ _

@[simp] theorem getJob_deleteJob_ne (w : World) (a b : List Char) (h : a ≠ b) :
    (w.deleteJob a).getJob b = w.getJob b :=
  lookup_filter_ne _ _ _ h

@[simp] theorem getJob_deleteJob_self (w : World) (a : List Char) :
    (w.deleteJob a).getJob a = none :=
  lookup_filter_self _ _

@[simp] theorem getJob_setJob_ne (w : World) (a b : List Char) (j : RenderJob) (h : a ≠ b) :
    (w.setJob a j).getJob b = w.getJob b := by
  unfold World.setJob
  split
  · exact getJob_updateJob_ne _ _ _ _ h
  · exact lookup_append_ne _ _ _ _ h

@[simp] theorem getJob_unlink (w : World) (p b : List Char) :
    (w.unlink p).getJob b = w.getJob b := rfl

@[simp] theorem getJob_writeFile (w : World) (p b : List Char) :
    (w.writeFile p).getJob b = w.getJob b := by
  unfold World.writeFile
  split <;> rfl

@[simp] theorem getJob_closeEngine (w : World) (e : Nat) (b : List Char) :
    (w.closeEngine e).getJob b = w.getJob b := rfl


theorem getJob_deleteJob_of_none (w : World) (a b : List Char) (h : w.getJob b = none) :
    (w.deleteJob a).getJob b = none := by
  by_cases hab : a = b
  · subst hab; exact getJob_deleteJob_self _ _
  · rw [getJob_deleteJob_ne _ _ _ hab]; exact h

theorem isEmpty_eq_false_of_ne_nil (s : List Char) (h : s ≠ []) : s.isEmpty = false := by
  cases s with
  | nil => exact absurd rfl h
  | cons c t => rfl

theorem renderIdOf_ne_nil (env : Env) (payload : Payload) : renderIdOf env payload ≠ [] := by
  unfold renderIdOf
  split
  · intro h
    have := congrArg List.length h
    simp at this
  · rename_i hne
    intro h
    rw [h] at hne
    exact hne rfl

/-- The outer `catch` touches no registry entry but the one of `payload.renderId`. -/
theorem outerCatch_getJob (payload : Payload) (p : Option (List Char)) (msg : List Char)
    (w : World) (b : List Char) (hb : payload.renderId.isEmpty = true ∨ payload.renderId ≠ b) :
    (outerCatch payload p msg w).1.getJob b = w.getJob b := by
  unfold outerCatch
  rcases hb with hb | hb
  · cases p <;> simp [hb]
  · cases p <;> cases hE : payload.renderId.isEmpty <;> simp [hb]

theorem runSteps_getJob (env : Env) (steps : List Step) (w : World) (b : List Char)
    (hd : ∀ s w1, (env.during s w1).getJob b = w1.getJob b) :
    (runSteps env steps w).1.getJob b = w.getJob b := by
  induction steps generalizing w with
  | nil => rfl
  | cons s rest ih =>
    unfold runSteps
    split
    · exact hd s w
    · rw [ih, hd]

/-- Recording the engine handle (lines 320-322) touches no other entry. -/
theorem getJob_record (w2 : World) (rid b : List Char) (br : Nat) (hb : rid ≠ b) :
    (if ({ w2 with engines := w2.engines ++ [br], launched := w2.launched + 1 } : World).hasJob rid
      then ({ w2 with engines := w2.engines ++ [br], launched := w2.launched + 1 } : World).updateJob
        rid (fun j => { j with browser := some br })
      else { w2 with engines := w2.engines ++ [br], launched := w2.launched + 1 }).getJob b
      = w2.getJob b := by
  split
  · rw [getJob_updateJob_ne _ _ _ _ hb]; rfl
  · rfl

theorem renderId_cases (env : Env) (payload : Payload) (b : List Char)
    (hb : renderIdOf env payload ≠ b) :
    payload.renderId.isEmpty = true ∨ payload.renderId ≠ b := by
  cases hE : payload.renderId.isEmpty with
  | true => exact Or.inl rfl
  | false =>
    right
    unfold renderIdOf at hb
    rw [hE] at hb
    simpa using hb

/-- A run that ends before `page.pdf` touches no registry entry but its own. -/
theorem runToPagination_ended_getJob (env : Env) (payload : Payload) (w w1 : World)
    (o : Outcome) (b : List Char) (hb : renderIdOf env payload ≠ b)
    (hd : ∀ s w0, (env.during s w0).getJob b = w0.getJob b)
    (h : runToPagination env payload w = .ended w1 o) : w1.getJob b = w.getJob b := by
  have hb2 := renderId_cases env payload b hb
  have hreg : ∀ (w0 : World) (j : RenderJob), (w0.setJob (renderIdOf env payload) j).getJob b
      = w0.getJob b := fun w0 j => getJob_setJob_ne _ _ _ _ hb
  unfold renderIdOf at hreg
  unfold runToPagination at h
  simp only at h
  split at h
  · simp only [Run.caught, Run.ended.injEq] at h
    rw [← h.1]; exact outerCatch_getJob _ _ _ _ _ hb2
  · simp only [Run.caught, Run.ended.injEq] at h
    rw [← h.1]; exact outerCatch_getJob _ _ _ _ _ hb2
  · split at h
    · simp only [Run.caught, Run.ended.injEq] at h
      rw [← h.1]; exact outerCatch_getJob _ _ _ _ _ hb2
    · split at h
      · simp only [Run.caught, Run.ended.injEq] at h
        rw [← h.1, outerCatch_getJob _ _ _ _ _ hb2, hd, hreg, getJob_writeFile]
      · split at h
        · rename_i w5 msg hrs
          simp only [Run.caught, Run.ended.injEq] at h
          rw [← h.1, outerCatch_getJob _ _ _ _ _ hb2]
          have hrun := congrArg (fun r => r.1.getJob b) hrs
          simp only at hrun
          rw [runSteps_getJob _ _ _ _ hd] at hrun
          rw [← hrun]
          exact (getJob_record _ _ b _ (by unfold renderIdOf at hb; exact hb)).trans
            ((hd _ _).trans ((hreg _ _).trans (getJob_writeFile _ _ _)))
        · simp at h

/-- A run that reaches `page.pdf` has registered the job under `renderIdOf`
and touched no other registry entry. -/
theorem runToPagination_reached_getJob (env : Env) (payload : Payload) (w : World)
    (ctx : PaginationCtx) (b : List Char) (hb : renderIdOf env payload ≠ b)
    (hd : ∀ s w0, (env.during s w0).getJob b = w0.getJob b)
    (h : runToPagination env payload w = .reached ctx) :
    ctx.world.getJob b = w.getJob b := by
  have hreg : ∀ (w0 : World) (j : RenderJob), (w0.setJob (renderIdOf env payload) j).getJob b
      = w0.getJob b := fun w0 j => getJob_setJob_ne _ _ _ _ hb
  unfold renderIdOf at hreg
  unfold runToPagination at h
  simp only at h
  split at h
  · simp [Run.caught] at h
  · simp [Run.caught] at h
  · split at h
    · simp [Run.caught] at h
    · split at h
      · simp [Run.caught] at h
      · split at h
        · simp [Run.caught] at h
        · rename_i w5 hrs
          simp only [Run.reached.injEq] at h
          subst h
          simp only
          have hrun := congrArg (fun r => r.1.getJob b) hrs
          simp only at hrun
          rw [runSteps_getJob _ _ _ _ hd] at hrun
          rw [← hrun]
          exact (getJob_record _ _ b _ (by unfold renderIdOf at hb; exact hb)).trans
            ((hd _ _).trans ((hreg _ _).trans (getJob_writeFile _ _ _)))

theorem runToPagination_renderId (env : Env) (payload : Payload) (w : World)
    (ctx : PaginationCtx) (h : runToPagination env payload w = .reached ctx) :
    ctx.renderId = renderIdOf env payload := by
  unfold runToPagination at h
  simp only at h
  split at h
  · simp [Run.caught] at h
  · simp [Run.caught] at h
  · split at h
    · simp [Run.caught] at h
    · split at h
      · simp [Run.caught] at h
      · split at h
        · simp [Run.caught] at h
        · simp only [Run.reached.injEq] at h
          subst h
          rfl


/-- The pagination block touches no registry entry but the one of the job. -/
theorem paginate_getJob (env : Env) (payload : Payload) (ctx : PaginationCtx) (b : List Char)
    (hb : ctx.renderId ≠ b) (hb2 : payload.renderId.isEmpty = true ∨ payload.renderId ≠ b)
    (hd : ∀ s w0, (env.during s w0).getJob b = w0.getJob b) :
    (paginate env payload ctx).1.getJob b = ctx.world.getJob b := by
  unfold paginate
  simp only
  have hclose : (env.during .close ((env.during .pdf ctx.world).closeEngine ctx.browser)).getJob b
      = ctx.world.getJob b := by
    rw [hd, getJob_closeEngine, hd]
  cases hf : env.fails .pdf with
  | none =>
    simp only
    cases hdbg : env.debugEnabled with
    | false => simp [hb, hclose]
    | true =>
      cases hw : env.fails .writeDebug with
      | none => simp [hb, hclose]
      | some m => simp [hb, hclose]
  | some msg =>
    simp only
    cases hc : ((env.during .pdf ctx.world).jobAborted ctx.renderId || abortPattern msg) <;>
      simp [outerCatch_getJob _ _ _ _ _ hb2, hb, hclose]

/-- The pagination block leaves no entry under the id of the job. -/
theorem paginate_getJob_self (env : Env) (payload : Payload) (ctx : PaginationCtx) :
    (paginate env payload ctx).1.getJob ctx.renderId = none := by
  unfold paginate
  simp only
  cases hf : env.fails .pdf with
  | none => simp
  | some msg =>
    simp only
    have key : ∀ (w : World) (m : List Char),
        (outerCatch payload (some ctx.htmlFilePath) m
          ((w.unlink ctx.htmlFilePath).deleteJob ctx.renderId)).1.getJob ctx.renderId = none := by
      intro w m
      unfold outerCatch
      simp only
      split
      · simp
      · exact getJob_deleteJob_of_none _ _ _ (by simp)
    cases hc : ((env.during .pdf ctx.world).jobAborted ctx.renderId || abortPattern msg) <;>
      simp only [Bool.false_eq_true, if_false, if_true] <;> exact key _ _

theorem cancelBegin_of_job (id : List Char) (job : RenderJob) (w : World) (hid : id ≠ [])
    (hjob : w.getJob id = some job) :
    cancelBegin id w =
      ((match job.browser with
        | some b => (w.updateJob id (fun j => { j with aborted := true })).closeEngine b
        | none => w.updateJob id (fun j => { j with aborted := true })), .ok job) := by
  unfold cancelBegin
  rw [isEmpty_eq_false_of_ne_nil id hid, hjob]
  rfl

theorem not_mem_filter_ne {α : Type} [BEq α] [LawfulBEq α] (l : List α) (a : α) :
    a ∉ l.filter (fun e => e != a) := by
  intro h
  have := (List.mem_filter.mp h).2
  simp at this

/-- C11: for every job id present in the registry the cancel handler first
sets the job's `aborted` flag, then, run to its end, it has closed the engine
handle when one is recorded, deleted the temp document, removed the registry
entry and answered with success: afterwards the id is absent from the registry
and the temp file is absent from the file system. -/
theorem apiCancel_registered (id : List Char) (job : RenderJob) (w : World) (hid : id ≠ [])
    (hjob : w.getJob id = some job) :
    (cancelBegin id w).1.getJob id = some { job with aborted := true } ∧
    (apiCancel id w).2 = .ok "已取消".toList ∧
    (apiCancel id w).1.getJob id = none ∧
    job.htmlFilePath ∉ (apiCancel id w).1.files ∧
    (∀ b, job.browser = some b → b ∉ (apiCancel id w).1.engines) := by
  have hbegin := cancelBegin_of_job id job w hid hjob
  obtain ⟨hp, dp, br, ab⟩ := job
  refine ⟨?_, ?_, ?_, ?_, ?_⟩
  · rw [hbegin]
    cases br <;> simp [getJob_updateJob_self, hjob]
  · unfold apiCancel
    rw [hbegin]
    rfl
  · unfold apiCancel
    rw [hbegin]
    simp [cancelFinish]
  · unfold apiCancel
    rw [hbegin]
    cases br <;> cases dp <;>
      simp only [cancelFinish, World.deleteJob, World.unlink, World.closeEngine,
        World.updateJob] <;>
      first
      | exact not_mem_filter_ne _ _
      | exact fun hmem => not_mem_filter_ne _ _ (List.mem_filter.mp hmem).1
  · intro b hbr
    simp only [Option.some.injEq] at hbr
    subst hbr
    unfold apiCancel
    rw [hbegin]
    cases dp <;>
      simp only [cancelFinish, World.deleteJob, World.unlink, World.closeEngine,
        World.updateJob] <;>
      exact not_mem_filter_ne _ _

/-- Witness of C11: cancelling `job1` while `job2` is in flight as well. -/
theorem apiCancel_registered_witness :
    "job1".toList ≠ [] ∧ twoJobsWorld.getJob "job1".toList = some job1 ∧
    (cancelBegin "job1".toList twoJobsWorld).1.getJob "job1".toList
      = some { job1 with aborted := true } ∧
    (apiCancel "job1".toList twoJobsWorld).2 = .ok "已取消".toList ∧
    (apiCancel "job1".toList twoJobsWorld).1.getJob "job1".toList = none ∧
    job1.htmlFilePath ∉ (apiCancel "job1".toList twoJobsWorld).1.files ∧
    (∀ b, job1.browser = some b → b ∉ (apiCancel "job1".toList twoJobsWorld).1.engines) :=
  ⟨by decide, by decide, apiCancel_registered "job1".toList job1 twoJobsWorld (by decide) (by decide)⟩

/-- C12: for every state and every job id carried by the request (an absent
or empty `renderId` is answered with 400 before the lookup) that is not a key
of the registry, the cancel handler answers 404 and leaves the registry, and
the rest of the shared state, exactly as it was. -/
theorem apiCancel_unknown (id : List Char) (w : World) (hid : id ≠ [])
    (hjob : w.getJob id = none) :
    apiCancel id w = (w, .error 404 jobNotFound) := by
  unfold apiCancel cancelBegin
  rw [isEmpty_eq_false_of_ne_nil id hid, hjob]
  rfl

/-- Witness of C12: an id that is not registered while two jobs are. -/
theorem apiCancel_unknown_witness :
    "job9".toList ≠ [] ∧ twoJobsWorld.getJob "job9".toList = none ∧
    apiCancel "job9".toList twoJobsWorld = (twoJobsWorld, .error 404 jobNotFound) :=
  ⟨by decide, by decide, apiCancel_unknown "job9".toList twoJobsWorld (by decide) (by decide)⟩

/-- C13 (counterexample): `job1` was registered and its job has finished with
a PDF; a cancel request for `job1` and one for `job9`, which was never
registered, get the same answer, the client error 404. -/
theorem apiCancel_finished_same_as_unknown :
    apiGenerate quietEnv jobPayload emptyWorld =
      ({ renderJobs := [], files := [], engines := [], launched := 1 },
       .pdf [37, 80, 68, 70] "markdown-atom-1002.pdf".toList) ∧
    (apiCancel "job1".toList (apiGenerate quietEnv jobPayload emptyWorld).1).2
      = .error 404 jobNotFound ∧
    (apiCancel "job9".toList (apiGenerate quietEnv jobPayload emptyWorld).1).2
      = .error 404 jobNotFound := by
  decide

/-- C13 (as amended): once the generate call of a job has gone through its
pagination block, whether it returned a PDF or threw, a cancel request for the
id of that job is answered exactly like one for an id that was never
registered: 404, with the shared state unchanged. -/
theorem apiCancel_finished (env : Env) (payload : Payload) (w : World) (ctx : PaginationCtx)
    (other : List Char) (hrun : runToPagination env payload w = .reached ctx)
    (hother : other ≠ [])
    (hnever : (generatePdfFromPayload env payload w).1.getJob other = none) :
    apiCancel ctx.renderId (generatePdfFromPayload env payload w).1
      = ((generatePdfFromPayload env payload w).1, .error 404 jobNotFound) ∧
    apiCancel other (generatePdfFromPayload env payload w).1
      = ((generatePdfFromPayload env payload w).1, .error 404 jobNotFound) := by
  have hid : ctx.renderId ≠ [] := by
    rw [runToPagination_renderId env payload w ctx hrun]
    exact renderIdOf_ne_nil env payload
  have hgone : (generatePdfFromPayload env payload w).1.getJob ctx.renderId = none := by
    unfold generatePdfFromPayload
    rw [hrun]
    exact paginate_getJob_self env payload ctx
  constructor
  · unfold apiCancel cancelBegin
    rw [isEmpty_eq_false_of_ne_nil _ hid, hgone]
    rfl
  · unfold apiCancel cancelBegin
    rw [isEmpty_eq_false_of_ne_nil _ hother, hnever]
    rfl

/-- Witness of C13 (as amended): the finished job `job1` and the unknown id
`job9`. -/
theorem apiCancel_finished_witness :
    runToPagination quietEnv jobPayload emptyWorld = .reached jobCtx ∧
    "job9".toList ≠ [] ∧
    (generatePdfFromPayload quietEnv jobPayload emptyWorld).1.getJob "job9".toList = none ∧
    apiCancel jobCtx.renderId (generatePdfFromPayload quietEnv jobPayload emptyWorld).1
      = ((generatePdfFromPayload quietEnv jobPayload emptyWorld).1, .error 404 jobNotFound) ∧
    apiCancel "job9".toList (generatePdfFromPayload quietEnv jobPayload emptyWorld).1
      = ((generatePdfFromPayload quietEnv jobPayload emptyWorld).1, .error 404 jobNotFound) :=
  ⟨by decide, by decide, by decide,
   apiCancel_finished quietEnv jobPayload emptyWorld jobCtx "job9".toList
     (by decide) (by decide) (by decide)⟩

/-- C14: for two distinct job ids `a` and `b`, cancelling `a` leaves the
registry entry of `b` as it was, and so does the generate call that runs under
the id `a`, whether it returns or throws, as long as the handlers served while
it waits leave the entry of `b` alone. -/
theorem other_job_untouched (env : Env) (payload : Payload) (w : World) (a b : List Char)
    (hab : a ≠ b) :
    (apiCancel a w).1.getJob b = w.getJob b ∧
    (renderIdOf env payload = a →
      (∀ s w0, (env.during s w0).getJob b = w0.getJob b) →
      (generatePdfFromPayload env payload w).1.getJob b = w.getJob b) := by
  constructor
  · unfold apiCancel cancelBegin
    cases hE : a.isEmpty with
    | true => simp
    | false =>
      cases hj : w.getJob a with
      | none => simp
      | some job =>
        obtain ⟨hp, dp, br, ab⟩ := job
        cases br <;> cases dp <;> simp [cancelFinish, hab]
  · intro hid hd
    have hb : renderIdOf env payload ≠ b := by rw [hid]; exact hab
    unfold generatePdfFromPayload
    cases hrun : runToPagination env payload w with
    | ended w1 o => exact runToPagination_ended_getJob env payload w w1 o b hb hd hrun
    | reached ctx =>
      simp only
      have hrid := runToPagination_renderId env payload w ctx hrun
      rw [paginate_getJob env payload ctx b (by rw [hrid]; exact hb)
        (renderId_cases env payload b hb) hd]
      exact runToPagination_reached_getJob env payload w ctx b hb hd hrun

/-- Witness of C14: `job1` is cancelled, or generated to its end, while `job2`
is in the registry. -/
theorem other_job_untouched_witness :
    "job1".toList ≠ "job2".toList ∧
    (apiCancel "job1".toList twoJobsWorld).1.getJob "job2".toList
      = twoJobsWorld.getJob "job2".toList ∧
    renderIdOf quietEnv jobPayload = "job1".toList ∧
    (generatePdfFromPayload quietEnv jobPayload otherJobWorld).1.getJob "job2".toList
      = otherJobWorld.getJob "job2".toList :=
  ⟨by decide,
   (other_job_untouched quietEnv jobPayload twoJobsWorld "job1".toList "job2".toList
     (by decide)).1,
   by decide,
   (other_job_untouched quietEnv jobPayload otherJobWorld "job1".toList "job2".toList
     (by decide)).2 (by decide) (fun _ _ => rfl)⟩

/-- C18: for every request without `forceSingle` whose run reaches `page.pdf`,
the options passed to the engine are exactly `printBackground = true`,
`preferCSSPageSize = true` and `format` the requested format name, `A4` when
none is given; width, height and page range are not set, whatever the
`pageWidth` of the request and the measured content height. -/
theorem pdfOptions_fixedFormat (env : Env) (payload : Payload) (w : World) (ctx : PaginationCtx)
    (hf : payload.forceSingle = false)
    (h : runToPagination env payload w = .reached ctx) :
    ctx.pdfOptions =
      { printBackground := true, preferCSSPageSize := true, width := none, height := none,
        pageRanges := none,
        format := some (if payload.format.isEmpty then "A4".toList else payload.format) } := by
  obtain ⟨hopt, _, _⟩ := runToPagination_reached env payload w ctx h
  rw [hopt]
  simp [pdfOptionsOf, formatOf, hf]

/-- Witness of C18: a request for the format `Letter` that also carries a page
width. -/
theorem pdfOptions_fixedFormat_witness :
    letterPayload.forceSingle = false ∧
    runToPagination quietEnv letterPayload emptyWorld = .reached letterCtx ∧
    letterCtx.pdfOptions =
      { printBackground := true, preferCSSPageSize := true, width := none, height := none,
        pageRanges := none,
        format := some (if letterPayload.format.isEmpty then "A4".toList
          else letterPayload.format) } :=
  ⟨by decide, by decide,
   pdfOptions_fixedFormat quietEnv letterPayload emptyWorld letterCtx (by decide) (by decide)⟩

/-- C16 (fails on the code): a span written with one backslash before each
bracket is not extracted: `mathRe` asks for two backslashes.  The spans
`\(x\)` and `\[x\]` outside any fence get no placeholder and nothing is
recorded, whereas the same spans with two backslashes, and a dollar-dollar
span, are replaced and recorded. -/
theorem extractMath_single_backslash_unprotected :
    fenceRanges "a \\(x\\) b".toList = some [] ∧
    extractMath "a \\(x\\) b".toList = some ⟨"a \\(x\\) b".toList, []⟩ ∧
    extractMath "a \\[x\\] b".toList = some ⟨"a \\[x\\] b".toList, []⟩ ∧
    extractMath "a \\\\(x\\\\) b".toList
      = some ⟨"a MATHBLOCK_PLACEHOLDER_0__ b".toList, ["\\\\(x\\\\)".toList]⟩ ∧
    extractMath "a $$x$$ b".toList
      = some ⟨"a MATHBLOCK_PLACEHOLDER_0__ b".toList, ["$$x$$".toList]⟩ := by
  decide


/-- The map value of a name is the data URL of the last usable entry of that
name. -/
theorem imagesMapGet_last (proto : List Char → Option (List Char)) (pre post : List ImageEntry)
    (i : ImageEntry) (hname : i.name ≠ []) (hurl : i.dataUrl ≠ [])
    (hproto : i.name ≠ "__proto__".toList) (hlast : ∀ j ∈ post, j.name ≠ i.name) :
    imagesMapGet proto (pre ++ i :: post) i.name = some i.dataUrl := by
  unfold imagesMapGet
  have hrev : (pre ++ i :: post).reverse = post.reverse ++ i :: pre.reverse := by simp
  have hi : (!i.name.isEmpty && !i.dataUrl.isEmpty && i.name != "__proto__".toList
      && i.name == i.name) = true := by
    rw [isEmpty_eq_false_of_ne_nil _ hname, isEmpty_eq_false_of_ne_nil _ hurl,
      bne_iff_ne.mpr hproto, beq_self_eq_true]
    rfl
  have hpost : post.reverse.find? (fun j =>
      !j.name.isEmpty && !j.dataUrl.isEmpty && j.name != "__proto__".toList && j.name == i.name)
      = none := by
    rw [List.find?_eq_none]
    intro j hj
    have hne := hlast j (List.mem_reverse.mp hj)
    have hbeq : (j.name == i.name) = false := by simpa using hne
    simp only [hbeq, Bool.and_false]
    exact Bool.false_ne_true
  rw [hrev, List.find?_append, hpost, Option.none_or, List.find?_cons, hi]

/-- The output is the concatenation of the outputs of the pieces. -/
theorem embedImagesInHtml_flatten (proto : List Char → Option (List Char)) (html : List Char)
    (images : List ImageEntry) (hne : images ≠ []) :
    embedImagesInHtml proto html images
      = ((imgTokens html).map (embedPiece proto images)).flatten := by
  unfold embedImagesInHtml replaceAll
  have he : images.isEmpty = false := by
    cases images with
    | nil => exact absurd rfl hne
    | cons a l => rfl
  simp only [he, Bool.false_eq_true, if_false]
  rw [replaceAllGo_imgTokens (imgReplacer proto images) html 0]
  rfl

/-- C17 (counterexample): a tag with an unquoted `src` value is not matched by
the image expression and leaves with its local path although an image of that
name is supplied; and of two supplied images of one name only the data URL of
the later one is used. -/
theorem embedImagesInHtml_misses_tag :
    embedImagesInHtml (fun _ => none) "<img src=a.png>".toList [imageA]
      = "<img src=a.png>".toList ∧
    embedImagesInHtml (fun _ => none) "<img src=\"a.png\">".toList [imageA, imageA2]
      = "<img src=\"data:image/png;base64,BBBB\">".toList := by
  decide

/-- C17 (as amended): for every match of the image expression in the input
(a lower-case `<img`, a quoted `src` value) whose `src` is not an `http(s)`,
`data:` or `file://` URL and whose last path segment is the name of a supplied
image with a non-empty name other than `__proto__` and a non-empty data URL,
no later image having that name, the output holds in place of the match the
tag `<img{before}src="{dataUrl}"{after}>`: the text before and after the `src`
attribute is unchanged, and the pieces around the match are output as for any
input. -/
theorem embedImagesInHtml_rewrites (proto : List Char → Option (List Char)) (html : List Char)
    (pre post : List ImageEntry) (i : ImageEntry) (t : ImgTag) (toks1 toks2 : List ImgToken)
    (hpieces : imgTokens html = toks1 ++ .tag t :: toks2)
    (hlocal : isRemoteSrc t.src = false) (hseg : lastSegment t.src = i.name)
    (hname : i.name ≠ []) (hurl : i.dataUrl ≠ []) (hproto : i.name ≠ "__proto__".toList)
    (hlast : ∀ j ∈ post, j.name ≠ i.name) :
    embedImagesInHtml proto html (pre ++ i :: post)
      = (toks1.map (embedPiece proto (pre ++ i :: post))).flatten
        ++ ("<img".toList ++ t.before ++ "src=\"".toList ++ i.dataUrl ++ "\"".toList
            ++ t.after ++ ">".toList)
        ++ (toks2.map (embedPiece proto (pre ++ i :: post))).flatten := by
  rw [embedImagesInHtml_flatten proto html _ (by simp), hpieces]
  have hpiece : embedPiece proto (pre ++ i :: post) (.tag t)
      = "<img".toList ++ t.before ++ "src=\"".toList ++ i.dataUrl ++ "\"".toList
          ++ t.after ++ ">".toList := by
    simp only [embedPiece, imgReplacer, hlocal, Bool.false_eq_true, if_false, hseg]
    rw [imagesMapGet_last proto pre post i hname hurl hproto hlast]
    rfl
  simp only [List.map_append, List.map_cons, List.flatten_append, List.flatten_cons, hpiece,
    List.append_assoc]

/-- Witness of C17 (as amended): one matched tag followed by text. -/
theorem embedImagesInHtml_rewrites_witness :
    imgTokens "<img alt=\"x\" src=\"pics/a.png\" width=\"1\">!".toList
      = [] ++ .tag tagA :: [.text '!'] ∧
    isRemoteSrc tagA.src = false ∧ lastSegment tagA.src = imageA.name ∧
    imageA.name ≠ [] ∧ imageA.dataUrl ≠ [] ∧ imageA.name ≠ "__proto__".toList ∧
    (∀ j ∈ ([] : List ImageEntry), j.name ≠ imageA.name) ∧
    embedImagesInHtml (fun _ => none)
        "<img alt=\"x\" src=\"pics/a.png\" width=\"1\">!".toList ([] ++ imageA :: [])
      = (([] : List ImgToken).map (embedPiece (fun _ => none) ([] ++ imageA :: []))).flatten
        ++ ("<img".toList ++ tagA.before ++ "src=\"".toList ++ imageA.dataUrl ++ "\"".toList
            ++ tagA.after ++ ">".toList)
        ++ ([ImgToken.text '!'].map (embedPiece (fun _ => none) ([] ++ imageA :: []))).flatten :=
  ⟨by decide, by decide, by decide, by decide, by decide, by decide, by simp,
   embedImagesInHtml_rewrites (fun _ => none) _ [] [] imageA tagA [] [.text '!']
     (by decide) (by decide) (by decide) (by decide) (by decide) (by decide) (by simp)⟩

theorem isDigit_toNat (c : Char) (h : c.isDigit = true) : 48 ≤ c.toNat ∧ c.toNat ≤ 57 := by
  simp only [Char.isDigit, Bool.and_eq_true, decide_eq_true_eq] at h
  obtain ⟨h1, h2⟩ := h
  have h1' : (48 : UInt32).toNat ≤ c.val.toNat := h1
  have h2' : c.val.toNat ≤ (57 : UInt32).toNat := h2
  exact ⟨h1', h2'⟩

theorem isJsSpace_of_isDigit (c : Char) (h : c.isDigit = true) : isJsSpace c = false := by
  have := isDigit_toNat c h
  unfold isJsSpace
  simp only [Bool.or_eq_false_iff, Bool.and_eq_false_iff, beq_eq_false_iff_ne, ne_eq,
    decide_eq_false_iff_not]
  omega

theorem isCross_toNat (c : Char) (h : isCross c = true) :
    c.toNat = 120 ∨ c.toNat = 88 ∨ c.toNat = 215 := by
  simp only [isCross, Bool.or_eq_true, beq_iff_eq] at h
  rcases h with (h | h) | h <;> subst h <;> decide

theorem isCross_of_isDigit (c : Char) (h : c.isDigit = true) : isCross c = false := by
  have hd := isDigit_toNat c h
  cases hc : isCross c with
  | false => rfl
  | true =>
    have := isCross_toNat c hc
    omega

theorem isCross_of_isJsSpace (c : Char) (h : isJsSpace c = true) : isCross c = false := by
  cases hc : isCross c with
  | false => rfl
  | true =>
    have hx := isCross_toNat c hc
    unfold isJsSpace at h
    simp only [Bool.or_eq_true, Bool.and_eq_true, beq_iff_eq, decide_eq_true_eq] at h
    omega

theorem isDigit_of_isJsSpace (c : Char) (h : isJsSpace c = true) : c.isDigit = false := by
  cases hd : c.isDigit with
  | false => rfl
  | true => rw [isJsSpace_of_isDigit c hd] at h; exact absurd h Bool.false_ne_true


/-! ### Runs of one character class -/

theorem takeWhile_append_stop (p : Char → Bool) (l r : List Char) (hl : ∀ x ∈ l, p x = true)
    (hr : ∀ c t, r = c :: t → p c = false) : (l ++ r).takeWhile p = l := by
  induction l with
  | nil =>
    cases r with
    | nil => rfl
    | cons c t => simp [List.takeWhile, hr c t rfl]
  | cons a l ih =>
    have ha := hl a (List.mem_cons_self _ _)
    rw [List.cons_append, List.takeWhile_cons, if_pos ha,
      ih (fun x hx => hl x (List.mem_cons_of_mem _ hx))]

theorem dropWhile_append_stop (p : Char → Bool) (l r : List Char) (hl : ∀ x ∈ l, p x = true)
    (hr : ∀ c t, r = c :: t → p c = false) : (l ++ r).dropWhile p = r := by
  induction l with
  | nil =>
    cases r with
    | nil => rfl
    | cons c t => simp [List.dropWhile, hr c t rfl]
  | cons a l ih =>
    have ha := hl a (List.mem_cons_self _ _)
    rw [List.cons_append, List.dropWhile_cons, if_pos ha]
    exact ih (fun x hx => hl x (List.mem_cons_of_mem _ hx))

theorem splitCross_cons_of_not (a : Char) (t : List Char) (h : isCross a = false) :
    splitCross (a :: t) =
      match splitCross t with
      | p :: ps => (a :: p) :: ps
      | [] => [[a]] := by
  rw [splitCross]
  simp [h]

theorem splitCross_cons_of_cross (a : Char) (t : List Char) (h : isCross a = true) :
    splitCross (a :: t) = [] :: splitCross t := by
  rw [splitCross]
  simp [h]

theorem splitCross_no_cross (r : List Char) (hr : ∀ x ∈ r, isCross x = false) :
    splitCross r = [r] := by
  induction r with
  | nil => rfl
  | cons a r ih =>
    have ha := hr a (List.mem_cons_self _ _)
    rw [splitCross_cons_of_not a r ha, ih (fun x hx => hr x (List.mem_cons_of_mem _ hx))]

theorem splitCross_at (l r : List Char) (c : Char) (hl : ∀ x ∈ l, isCross x = false)
    (hc : isCross c = true) (hr : ∀ x ∈ r, isCross x = false) :
    splitCross (l ++ c :: r) = [l, r] := by
  induction l with
  | nil =>
    rw [List.nil_append, splitCross_cons_of_cross c r hc, splitCross_no_cross r hr]
  | cons a l ih =>
    have ha := hl a (List.mem_cons_self _ _)
    rw [List.cons_append, splitCross_cons_of_not a _ ha,
      ih (fun x hx => hl x (List.mem_cons_of_mem _ hx))]

/-- Trimming strips the white space around a run of digits. -/
theorem trim_digits (sp1 d sp2 : List Char) (hd : ∀ x ∈ d, x.isDigit = true) (hne : d ≠ [])
    (h1 : ∀ x ∈ sp1, isJsSpace x = true) (h2 : ∀ x ∈ sp2, isJsSpace x = true) :
    trim (sp1 ++ d ++ sp2) = d := by
  unfold trim
  have hstop : ∀ (l rest : List Char), l ≠ [] → (∀ x ∈ l, x.isDigit = true) →
      ∀ c t, l ++ rest = c :: t → isJsSpace c = false := by
    intro l rest hl hall c t hct
    cases l with
    | nil => exact absurd rfl hl
    | cons a l' =>
      simp only [List.cons_append, List.cons.injEq] at hct
      rw [← hct.1]
      exact isJsSpace_of_isDigit a (hall a (List.mem_cons_self _ _))
  rw [List.append_assoc, dropWhile_append_stop isJsSpace sp1 (d ++ sp2) h1 (hstop d sp2 hne hd)]
  rw [List.reverse_append]
  have hrev : d.reverse ≠ [] := by simpa using hne
  have hrevd : ∀ x ∈ d.reverse, x.isDigit = true := fun x hx => hd x (List.mem_reverse.mp hx)
  have := dropWhile_append_stop isJsSpace sp2.reverse (d.reverse ++ [])
    (fun x hx => h2 x (List.mem_reverse.mp hx)) (hstop d.reverse [] hrev hrevd)
  rw [List.append_nil] at this
  rw [this, List.reverse_reverse]

theorem parseInt10_digits (d : List Char) (hd : ∀ x ∈ d, x.isDigit = true) (hne : d ≠ []) :
    parseInt10 d = some (parseDecimal d) := by
  unfold parseInt10
  have h1 : d.dropWhile isJsSpace = d := by
    cases d with
    | nil => exact absurd rfl hne
    | cons a l =>
      simp [List.dropWhile, isJsSpace_of_isDigit a (hd a (List.mem_cons_self _ _))]
  have h2 : d.takeWhile Char.isDigit = d := by
    have := takeWhile_append_stop Char.isDigit d [] hd (fun c t h => by simp at h)
    simpa using this
  simp only [h1, h2, isEmpty_eq_false_of_ne_nil d hne, Bool.false_eq_true, if_false]

/-- What lines 247-249 compute on a text of the form `<width>x<height>`. -/
theorem size_text_parts (d1 sp1 sp2 d2 : List Char) (c : Char)
    (hd1 : ∀ x ∈ d1, x.isDigit = true) (hd2 : ∀ x ∈ d2, x.isDigit = true)
    (hn1 : d1 ≠ []) (hn2 : d2 ≠ [])
    (hs1 : ∀ x ∈ sp1, isJsSpace x = true) (hs2 : ∀ x ∈ sp2, isJsSpace x = true)
    (hc : isCross c = true) :
    resolutionReTest (d1 ++ sp1 ++ c :: (sp2 ++ d2)) = true ∧
    (splitCross (d1 ++ sp1 ++ c :: (sp2 ++ d2))).map (fun p => parseInt10 (trim p))
      = [some (parseDecimal d1), some (parseDecimal d2)] := by
  have hcd : c.isDigit = false := by
    cases h : c.isDigit with
    | false => rfl
    | true => rw [isCross_of_isDigit c h] at hc; exact absurd hc Bool.false_ne_true
  have hcs : isJsSpace c = false := by
    cases h : isJsSpace c with
    | false => rfl
    | true => rw [isCross_of_isJsSpace c h] at hc; exact absurd hc Bool.false_ne_true
  constructor
  · have e1 : d1 ++ sp1 ++ c :: (sp2 ++ d2) = d1 ++ (sp1 ++ c :: (sp2 ++ d2)) := by simp
    have ht1 : (d1 ++ (sp1 ++ c :: (sp2 ++ d2))).takeWhile Char.isDigit = d1 := by
      apply takeWhile_append_stop _ _ _ hd1
      intro a t hat
      cases sp1 with
      | nil =>
        simp only [List.nil_append, List.cons.injEq] at hat
        rw [← hat.1]; exact hcd
      | cons b sp1' =>
        simp only [List.cons_append, List.cons.injEq] at hat
        rw [← hat.1]; exact isDigit_of_isJsSpace b (hs1 b (List.mem_cons_self _ _))
    have hdrop1 : (sp1 ++ c :: (sp2 ++ d2)).dropWhile isJsSpace = c :: (sp2 ++ d2) := by
      apply dropWhile_append_stop _ _ _ hs1
      intro a t hat
      simp only [List.cons.injEq] at hat
      rw [← hat.1]; exact hcs
    have hdrop2 : (sp2 ++ d2).dropWhile isJsSpace = d2 := by
      apply dropWhile_append_stop _ _ _ hs2
      intro a t hat
      rw [hat] at hd2
      exact isJsSpace_of_isDigit a (hd2 a (List.mem_cons_self _ _))
    have ht2 : d2.takeWhile Char.isDigit = d2 := by
      have := takeWhile_append_stop Char.isDigit d2 [] hd2 (fun c t h => by simp at h)
      simpa using this
    rw [e1]
    unfold resolutionReTest
    simp only [ht1, List.drop_left, hdrop1, hdrop2, ht2, List.drop_length,
      isEmpty_eq_false_of_ne_nil d1 hn1, isEmpty_eq_false_of_ne_nil d2 hn2, hc]
    rfl
  · have hl : ∀ x ∈ d1 ++ sp1, isCross x = false := by
      intro x hx
      rcases List.mem_append.mp hx with h | h
      · exact isCross_of_isDigit x (hd1 x h)
      · exact isCross_of_isJsSpace x (hs1 x h)
    have hr : ∀ x ∈ sp2 ++ d2, isCross x = false := by
      intro x hx
      rcases List.mem_append.mp hx with h | h
      · exact isCross_of_isJsSpace x (hs2 x h)
      · exact isCross_of_isDigit x (hd2 x h)
    rw [splitCross_at (d1 ++ sp1) (sp2 ++ d2) c hl hc hr]
    have t1 := trim_digits [] d1 sp1 hd1 hn1 (by simp) hs1
    have t2 := trim_digits sp2 d2 [] hd2 hn2 hs2 (by simp)
    simp only [List.nil_append, List.append_nil] at t1 t2
    simp only [List.map_cons, List.map_nil, t1, t2, parseInt10_digits d1 hd1 hn1,
      parseInt10_digits d2 hd2 hn2]

theorem takeWhile_all (p : Char → Bool) (l : List Char) : ∀ x ∈ l.takeWhile p, p x = true := by
  induction l with
  | nil => intro x hx; simp at hx
  | cons a l ih =>
    intro x hx
    rw [List.takeWhile_cons] at hx
    by_cases ha : p a = true
    · rw [if_pos ha] at hx
      rcases List.mem_cons.mp hx with h | h
      · rw [h]; exact ha
      · exact ih x h
    · rw [if_neg ha] at hx
      simp at hx

theorem drop_takeWhile_length (p : Char → Bool) (l : List Char) :
    l.drop (l.takeWhile p).length = l.dropWhile p := by
  induction l with
  | nil => rfl
  | cons a l ih =>
    rw [List.takeWhile_cons, List.dropWhile_cons]
    by_cases ha : p a = true
    · rw [if_pos ha, if_pos ha, List.length_cons, List.drop_succ_cons, ih]
    · rw [if_neg ha, if_neg ha]; rfl

/-- A text that passes the test of line 247 is two runs of digits around one
cross with white space on either side of it. -/
theorem resolutionReTest_parts (s : List Char) (h : resolutionReTest s = true) :
    ∃ d1 sp1 c sp2 d2, s = d1 ++ sp1 ++ c :: (sp2 ++ d2) ∧
      d1 ≠ [] ∧ d2 ≠ [] ∧ (∀ x ∈ d1, x.isDigit = true) ∧ (∀ x ∈ d2, x.isDigit = true) ∧
      (∀ x ∈ sp1, isJsSpace x = true) ∧ (∀ x ∈ sp2, isJsSpace x = true) ∧ isCross c = true := by
  unfold resolutionReTest at h
  simp only [] at h
  rw [drop_takeWhile_length] at h
  have hs : s = s.takeWhile Char.isDigit ++ s.dropWhile Char.isDigit :=
    (List.takeWhile_append_dropWhile _ _).symm
  generalize hr1 : s.dropWhile Char.isDigit = r1 at h hs
  have hr1s : r1 = r1.takeWhile isJsSpace ++ r1.dropWhile isJsSpace :=
    (List.takeWhile_append_dropWhile _ _).symm
  cases hq : r1.dropWhile isJsSpace with
  | nil => rw [hq] at h; exact absurd h Bool.false_ne_true
  | cons c r2 =>
    rw [hq] at h hr1s
    simp only [] at h
    rw [drop_takeWhile_length] at h
    have hr2 : r2 = r2.takeWhile isJsSpace ++ r2.dropWhile isJsSpace :=
      (List.takeWhile_append_dropWhile _ _).symm
    generalize hr3 : r2.dropWhile isJsSpace = r3 at h hr2
    have hr3s : r3 = r3.takeWhile Char.isDigit ++ r3.dropWhile Char.isDigit :=
      (List.takeWhile_append_dropWhile _ _).symm
    simp only [Bool.and_eq_true, Bool.not_eq_true', List.isEmpty_eq_true] at h
    obtain ⟨⟨⟨h1, h2⟩, h3⟩, h4⟩ := h
    rw [h4, List.append_nil] at hr3s
    refine ⟨s.takeWhile Char.isDigit, r1.takeWhile isJsSpace, c, r2.takeWhile isJsSpace,
      r3.takeWhile Char.isDigit, ?_, ?_, ?_, takeWhile_all _ _, takeWhile_all _ _,
      takeWhile_all _ _, takeWhile_all _ _, h2⟩
    · rw [← hr3s, ← hr2, List.append_assoc, ← hr1s]; exact hs
    · intro e; rw [e] at h1; simp at h1
    · intro e; rw [e] at h3; simp at h3

/-- The decidable form holds of every text of the form. -/
theorem isSizeTextB_of_IsSizeText (s : List Char) (h : IsSizeText s) : isSizeTextB s = true := by
  obtain ⟨d1, sp1, c, sp2, d2, hs, hn1, hn2, hd1, hd2, hs1, hs2, hc, hz1, hz2⟩ := h
  have hp := size_text_parts d1 sp1 sp2 d2 c hd1 hd2 hn1 hn2 hs1 hs2 hc
  unfold isSizeTextB
  rw [hs, hp.1, hp.2]
  simp [hz1, hz2]

/-- A text that is neither a key nor of the form gets the 4K fallback of
line 243. -/
theorem resolutionOf_fallback (proto : List Char → Option (List Char)) (s : List Char)
    (hne : s ≠ []) (hkey : RESOLUTIONS.lookup s = none) (hproto : proto s = none)
    (hbad : ¬ IsSizeText s) :
    resolutionOf proto (.text s) = .size 3840 2160 := by
  cases s with
  | nil => exact absurd rfl hne
  | cons a t =>
    unfold resolutionOf
    simp only [hkey, hproto, Option.isSome_none, Bool.false_eq_true, if_false]
    cases ht : resolutionReTest (a :: t) with
    | false => simp
    | true =>
      obtain ⟨d1, sp1, c, sp2, d2, hs, hn1, hn2, hd1, hd2, hs1, hs2, hc⟩ :=
        resolutionReTest_parts _ ht
      have hp := size_text_parts d1 sp1 sp2 d2 c hd1 hd2 hn1 hn2 hs1 hs2 hc
      rw [← hs] at hp
      simp only [if_true, hp.2]
      by_cases hz : parseDecimal d1 ≠ 0 ∧ parseDecimal d2 ≠ 0
      · exact absurd ⟨d1, sp1, c, sp2, d2, hs, hn1, hn2, hd1, hd2, hs1, hs2, hc, hz.1, hz.2⟩ hbad
      · rw [if_neg hz]

theorem fileNameOr_resolution (payload : Payload) (r : ResolutionSpec) (d : List Char) :
    fileNameOr { payload with resolution := r } d = fileNameOr payload d := rfl

theorem pdfOptionsOf_resolution (payload : Payload) (r : ResolutionSpec) (h : Nat) :
    pdfOptionsOf { payload with resolution := r } h = pdfOptionsOf payload h := rfl

theorem outerCatch_resolution (payload : Payload) (r : ResolutionSpec) (p : Option (List Char))
    (msg : List Char) (w : World) :
    outerCatch { payload with resolution := r } p msg w = outerCatch payload p msg w := rfl

theorem paginate_resolution (env : Env) (payload : Payload) (r : ResolutionSpec)
    (ctx : PaginationCtx) :
    paginate env { payload with resolution := r } ctx = paginate env payload ctx := rfl

/-- The resolution of a request only shows in the viewport. -/
theorem runToPagination_resolution (env : Env) (payload : Payload) (w : World)
    (r : ResolutionSpec) :
    runToPagination env { payload with resolution := r } w =
      match runToPagination env payload w with
      | .ended w1 o => .ended w1 o
      | .reached ctx => .reached { ctx with viewport := resolutionOf env.proto r } := by
  unfold runToPagination
  simp only []
  cases themesGet env.proto (if payload.theme.isEmpty then "atom".toList else payload.theme) with
  | absent => rfl
  | inherited => rfl
  | own f =>
    simp only []
    cases env.fails .writeFile with
    | some msg => rfl
    | none =>
      simp only []
      cases env.fails .launch with
      | some msg => rfl
      | none =>
        simp only [fileNameOr_resolution, pdfOptionsOf_resolution, outerCatch_resolution]
        generalize runSteps env (pageSteps payload.markdown) _ = rs
        obtain ⟨w5, o⟩ := rs
        cases o <;> rfl

theorem RESOLUTIONS_lookup_of_mem_x (s : List Char) (h : 'x' ∈ s) :
    RESOLUTIONS.lookup s = none := by
  have h1 : (s == "1K".toList) = false := by
    apply beq_eq_false_iff_ne.mpr
    intro e; rw [e] at h; revert h; decide
  have h2 : (s == "2K".toList) = false := by
    apply beq_eq_false_iff_ne.mpr
    intro e; rw [e] at h; revert h; decide
  have h4 : (s == "4K".toList) = false := by
    apply beq_eq_false_iff_ne.mpr
    intro e; rw [e] at h; revert h; decide
  unfold RESOLUTIONS
  rw [List.lookup_cons, h1, List.lookup_cons, h2, List.lookup_cons, h4]
  rfl

/-- The resolution that lines 242-255 compute for `<w>x<h>` with blanks around
the `x`. -/
theorem resolutionOf_size_text (proto : List Char → Option (List Char)) (w h a b : Nat)
    (hw : 0 < w) (hh : 0 < h)
    (hproto : proto (toDecimal w ++ List.replicate a ' ' ++ 'x' ::
      (List.replicate b ' ' ++ toDecimal h)) = none) :
    resolutionOf proto (.text (toDecimal w ++ List.replicate a ' ' ++ 'x' ::
      (List.replicate b ' ' ++ toDecimal h))) = .size w h := by
  have hsp : ∀ n : Nat, ∀ x ∈ List.replicate n ' ', isJsSpace x = true := by
    intro n x hx
    rw [(List.mem_replicate.mp hx).2]; decide
  have hp := size_text_parts (toDecimal w) (List.replicate a ' ') (List.replicate b ' ')
    (toDecimal h) 'x' (toDecimal_digits w) (toDecimal_digits h) (toDecimal_ne_nil w)
    (toDecimal_ne_nil h) (hsp a) (hsp b) (by decide)
  rw [parseDecimal_toDecimal, parseDecimal_toDecimal] at hp
  have hkey := RESOLUTIONS_lookup_of_mem_x (toDecimal w ++ List.replicate a ' ' ++ 'x' ::
      (List.replicate b ' ' ++ toDecimal h)) (by simp)
  generalize toDecimal w ++ List.replicate a ' ' ++ 'x' ::
      (List.replicate b ' ' ++ toDecimal h) = s at hp hkey hproto
  have hne : s ≠ [] := by
    intro e; rw [e] at hp; exact absurd hp.1 (by decide)
  cases s with
  | nil => exact absurd rfl hne
  | cons c t =>
    unfold resolutionOf
    simp only [hkey, hproto, Option.isSome_none, Bool.false_eq_true, if_false, hp.1, if_true,
      hp.2]
    rw [if_pos ⟨by omega, by omega⟩]

/-- C19 (counterexample): the two malformed resolutions `abc` and `0x100`,
neither a key of `RESOLUTIONS` nor of the form `<width>x<height>` with
positive integers.  No step of the host fails; the run reaches `page.pdf`
with the viewport 3840x2160 and the call returns the PDF. -/
theorem generatePdfFromPayload_malformed_resolution_renders :
    RESOLUTIONS.lookup "abc".toList = none ∧ ¬ IsSizeText "abc".toList ∧
    RESOLUTIONS.lookup "0x100".toList = none ∧ ¬ IsSizeText "0x100".toList ∧
    runToPagination quietEnv abcPayload emptyWorld
      = .reached { jobCtx with viewport := .size 3840 2160 } ∧
    runToPagination quietEnv zeroWidthPayload emptyWorld
      = .reached { jobCtx with viewport := .size 3840 2160 } ∧
    (generatePdfFromPayload quietEnv abcPayload emptyWorld).2
      = .ok [37, 80, 68, 70] "markdown-atom-1002.pdf".toList none ∧
    (generatePdfFromPayload quietEnv zeroWidthPayload emptyWorld).2
      = .ok [37, 80, 68, 70] "markdown-atom-1002.pdf".toList none :=
  ⟨by decide, fun h => absurd (isSizeTextB_of_IsSizeText _ h) (by decide),
   by decide, fun h => absurd (isSizeTextB_of_IsSizeText _ h) (by decide),
   by decide, by decide, by decide, by decide⟩

/-- C19 (as amended): a resolution that is a non-empty string, not a key of
`RESOLUTIONS`, not the name of an inherited property and not of the form
`<width>x<height>` with positive integers never makes the call fail: lines
243-255 fall back to 3840x2160, and the run and the result of the call are
those of the same request with the resolution `4K`. -/
theorem generatePdfFromPayload_malformed_resolution (env : Env) (payload : Payload)
    (world : World) (s : List Char) (hne : s ≠ []) (hkey : RESOLUTIONS.lookup s = none)
    (hproto : env.proto s = none) (hbad : ¬ IsSizeText s) :
    resolutionOf env.proto (.text s) = .size 3840 2160 ∧
    runToPagination env { payload with resolution := .text s } world
      = runToPagination env { payload with resolution := .text "4K".toList } world ∧
    generatePdfFromPayload env { payload with resolution := .text s } world
      = generatePdfFromPayload env { payload with resolution := .text "4K".toList } world := by
  have hres := resolutionOf_fallback env.proto s hne hkey hproto hbad
  have hrun : runToPagination env { payload with resolution := .text s } world
      = runToPagination env { payload with resolution := .text "4K".toList } world := by
    rw [runToPagination_resolution env payload world (.text s),
      runToPagination_resolution env payload world (.text "4K".toList), hres]
    rfl
  refine ⟨hres, hrun, ?_⟩
  unfold generatePdfFromPayload
  rw [hrun]
  rfl

theorem generatePdfFromPayload_malformed_resolution_witness :
    "abc".toList ≠ [] ∧ RESOLUTIONS.lookup "abc".toList = none ∧
    quietEnv.proto "abc".toList = none ∧ ¬ IsSizeText "abc".toList ∧
    resolutionOf quietEnv.proto (.text "abc".toList) = .size 3840 2160 ∧
    runToPagination quietEnv { jobPayload with resolution := .text "abc".toList } emptyWorld
      = runToPagination quietEnv { jobPayload with resolution := .text "4K".toList }
          emptyWorld ∧
    generatePdfFromPayload quietEnv { jobPayload with resolution := .text "abc".toList }
        emptyWorld
      = generatePdfFromPayload quietEnv { jobPayload with resolution := .text "4K".toList }
          emptyWorld :=
  ⟨by decide, by decide, rfl, fun h => absurd (isSizeTextB_of_IsSizeText _ h) (by decide),
   generatePdfFromPayload_malformed_resolution quietEnv jobPayload emptyWorld "abc".toList
     (by decide) (by decide) rfl
     (fun h => absurd (isSizeTextB_of_IsSizeText _ h) (by decide))⟩

/-- C20: when the run of a request reaches `page.pdf`, the same request with
the resolution `1K`, `2K` or `4K` reaches it with the viewport 1920x1080,
2560x1440 or 3840x2160, without a resolution with the viewport 2560x1440, and
with the text `<w>x<h>` (decimal numerals of positive integers below 2^53,
any number of blanks on either side of the `x`, no property of that name on
`Object.prototype`) with the viewport of width `w` and height `h`. -/
theorem viewport_of_resolution (env : Env) (payload : Payload) (world : World)
    (ctx : PaginationCtx) (w h a b : Nat)
    (hrun : runToPagination env payload world = .reached ctx)
    (hw : 0 < w) (hh : 0 < h) (_hw53 : w < 2 ^ 53) (_hh53 : h < 2 ^ 53)
    (hproto : env.proto (toDecimal w ++ List.replicate a ' ' ++ 'x' ::
      (List.replicate b ' ' ++ toDecimal h)) = none) :
    runToPagination env { payload with resolution := .text "1K".toList } world
      = .reached { ctx with viewport := .size 1920 1080 } ∧
    runToPagination env { payload with resolution := .text "2K".toList } world
      = .reached { ctx with viewport := .size 2560 1440 } ∧
    runToPagination env { payload with resolution := .text "4K".toList } world
      = .reached { ctx with viewport := .size 3840 2160 } ∧
    runToPagination env { payload with resolution := .absent } world
      = .reached { ctx with viewport := .size 2560 1440 } ∧
    runToPagination env { payload with resolution := .text (toDecimal w ++
        List.replicate a ' ' ++ 'x' :: (List.replicate b ' ' ++ toDecimal h)) } world
      = .reached { ctx with viewport := .size w h } := by
  refine ⟨?_, ?_, ?_, ?_, ?_⟩
  · rw [runToPagination_resolution, hrun]; rfl
  · rw [runToPagination_resolution, hrun]; rfl
  · rw [runToPagination_resolution, hrun]; rfl
  · rw [runToPagination_resolution, hrun]; rfl
  · rw [runToPagination_resolution, hrun]
    simp only []
    rw [resolutionOf_size_text env.proto w h a b hw hh hproto]

theorem viewport_of_resolution_witness :
    runToPagination quietEnv jobPayload emptyWorld = .reached jobCtx ∧
    0 < 800 ∧ 0 < 600 ∧ 800 < 2 ^ 53 ∧ 600 < 2 ^ 53 ∧
    quietEnv.proto "800 x 600".toList = none ∧
    runToPagination quietEnv { jobPayload with resolution := .text "1K".toList } emptyWorld
      = .reached { jobCtx with viewport := .size 1920 1080 } ∧
    runToPagination quietEnv { jobPayload with resolution := .text "2K".toList } emptyWorld
      = .reached { jobCtx with viewport := .size 2560 1440 } ∧
    runToPagination quietEnv { jobPayload with resolution := .text "4K".toList } emptyWorld
      = .reached { jobCtx with viewport := .size 3840 2160 } ∧
    runToPagination quietEnv { jobPayload with resolution := .absent } emptyWorld
      = .reached { jobCtx with viewport := .size 2560 1440 } ∧
    runToPagination quietEnv { jobPayload with resolution := .text "800 x 600".toList }
        emptyWorld
      = .reached { jobCtx with viewport := .size 800 600 } :=
  ⟨by decide, by decide, by decide, by decide, by decide, rfl,
   viewport_of_resolution quietEnv jobPayload emptyWorld jobCtx 800 600 1 1
     (by decide) (by decide) (by decide) (by decide) (by decide) rfl⟩

theorem escapeHtml_chars (s : List Char) :
    ∀ c ∈ escapeHtml s, c ≠ '<' ∧ c ≠ '>' ∧ c ≠ '"' := by
  induction s with
  | nil => intro c hc; simp [escapeHtml] at hc
  | cons a t ih =>
    intro c hc
    rw [escapeHtml] at hc
    rcases List.mem_append.mp hc with h | h
    · by_cases h1 : a = '&'
      · rw [if_pos h1] at h; clear hc; revert c; decide
      · rw [if_neg h1] at h
        by_cases h2 : a = '<'
        · rw [if_pos h2] at h; clear hc; revert c; decide
        · rw [if_neg h2] at h
          by_cases h3 : a = '>'
          · rw [if_pos h3] at h; clear hc; revert c; decide
          · rw [if_neg h3] at h
            by_cases h4 : a = '"'
            · rw [if_pos h4] at h; clear hc; revert c; decide
            · rw [if_neg h4] at h
              rw [List.mem_singleton] at h
              rw [h]
              exact ⟨h2, h3, h4⟩
    · exact ih c h

theorem highlight_starts_with_pre (code lang : List Char) :
    "<pre".toList.isPrefixOf (highlight code lang) = true := by
  unfold highlight
  rfl

/-- C15: the rule that the server's parser applies to a fenced block, on a
renderer of markdown-it whose own rule for fences returns the result of the
option `highlight` (called with the content and the language name of the info
string) followed by a line feed whenever that result starts with `<pre`.  If
the info string, trimmed, is `mermaid`, the output is `<div class="mermaid">`,
a line feed, the content as it is, a line feed and `</div>`.  Otherwise the
output is `<pre><code class="...">`, the content with `&`, `<`, `>` and `"`
replaced by their entities, and `</code></pre>`; no `<`, `>` or `"` of the
content is left in it. -/
theorem mdParserFence_mermaid_raw_others_escaped (md : Renderer)
    (rule : (List Char → List Char → List Char) → Token → List Char)
    (langName : List Char → List Char) (token : Token)
    (hrule : md.fenceRule = some rule)
    (hdefault : ∀ (hl : List Char → List Char → List Char) (t : Token),
      "<pre".toList.isPrefixOf (hl t.content (langName t.info)) = true →
      rule hl t = hl t.content (langName t.info) ++ "\n".toList) :
    (trim token.info = "mermaid".toList →
      mdParserFence md token
        = "<div class=\"mermaid\">\n".toList ++ token.content ++ "\n</div>".toList) ∧
    (trim token.info ≠ "mermaid".toList →
      mdParserFence md token
        = "<pre><code class=\"".toList
          ++ (if (langName token.info).isEmpty then []
              else "language-".toList ++ langName token.info)
          ++ "\">".toList ++ escapeHtml token.content ++ "</code></pre>\n\n".toList ∧
      ∀ c ∈ escapeHtml token.content, c ≠ '<' ∧ c ≠ '>' ∧ c ≠ '"') := by
  constructor
  · intro h
    unfold mdParserFence
    rw [if_pos h]
  · intro h
    refine ⟨?_, escapeHtml_chars token.content⟩
    unfold mdParserFence
    rw [if_neg h, hrule]
    simp only []
    rw [hdefault highlight token (highlight_starts_with_pre _ _)]
    unfold highlight
    simp only [List.append_assoc]
    rfl

theorem mdParserFence_mermaid_raw_others_escaped_witness :
    sampleRenderer.fenceRule = some sampleFenceRule ∧
    (∀ (hl : List Char → List Char → List Char) (t : Token),
      "<pre".toList.isPrefixOf (hl t.content (firstWord t.info)) = true →
      sampleFenceRule hl t = hl t.content (firstWord t.info) ++ "\n".toList) ∧
    trim mermaidToken.info = "mermaid".toList ∧
    mdParserFence sampleRenderer mermaidToken
      = "<div class=\"mermaid\">\ngraph TD; A-->B & \"C\"\n\n</div>".toList ∧
    trim jsToken.info ≠ "mermaid".toList ∧
    mdParserFence sampleRenderer jsToken
      = ("<pre><code class=\"language-js\">if (a&lt;b &amp;&amp; s==&quot;x&quot;) a&gt;&gt;=1\n"
          ++ "</code></pre>\n\n").toList :=
  ⟨rfl, fun _ _ hp => if_pos hp, by decide,
   (mdParserFence_mermaid_raw_others_escaped sampleRenderer sampleFenceRule firstWord
     mermaidToken rfl (fun _ _ hp => if_pos hp)).1 (by decide),
   by decide,
   ((mdParserFence_mermaid_raw_others_escaped sampleRenderer sampleFenceRule firstWord
     jsToken rfl (fun _ _ hp => if_pos hp)).2 (by decide)).1⟩

/-- C21 (fails on the code): the server takes `#282c34` for the three dark
themes and `#ffffff` for the other three, whatever the width and the margin;
the command line tool takes `#282c34` for `atom` only, so that its documents
for `monokai` and `solarized` have the background `#ffffff`. -/
theorem cliStyle_dark_theme_white_background :
    (∀ pageWidth margin : Nat,
      (buildFullHtmlStyle "atom".toList pageWidth margin).background = "#282c34".toList ∧
      (buildFullHtmlStyle "monokai".toList pageWidth margin).background = "#282c34".toList ∧
      (buildFullHtmlStyle "solarized".toList pageWidth margin).background = "#282c34".toList ∧
      (buildFullHtmlStyle "vue".toList pageWidth margin).background = "#ffffff".toList ∧
      (buildFullHtmlStyle "light".toList pageWidth margin).background = "#ffffff".toList ∧
      (buildFullHtmlStyle "github".toList pageWidth margin).background = "#ffffff".toList) ∧
    THEMES.lookup "monokai".toList ≠ none ∧ THEMES.lookup "solarized".toList ≠ none ∧
    (cliStyle "atom".toList).background = "#282c34".toList ∧
    (cliStyle "monokai".toList).background = "#ffffff".toList ∧
    (cliStyle "solarized".toList).background = "#ffffff".toList :=
  ⟨fun _ _ => ⟨rfl, rfl, rfl, rfl, rfl, rfl⟩, by decide, by decide, by decide, by decide,
   by decide⟩

/-- C22 (fails on the code): with the theme argument `all` and a Markdown
file that does not exist the tool prints the error and returns, so the
process ends with exit code 0; with a registered theme or an unknown one the
exit code is 1.  With the theme argument `constructor`, which `THEMES`
inherits, and a file that exists, the check of line 383 passes, `generatePdf`
swallows the error, and the process ends with exit code 0 without a PDF. -/
theorem cliMain_all_missing_file_exit_zero :
    missingFileHost.fileExists "notes.md".toList = false ∧
    cliMain missingFileHost ["all".toList, "notes.md".toList] = { exitCode := 0, pdfs := [] } ∧
    cliMain missingFileHost ["atom".toList, "notes.md".toList] = { exitCode := 1, pdfs := [] } ∧
    cliMain missingFileHost ["dracula".toList, "notes.md".toList]
      = { exitCode := 1, pdfs := [] } ∧
    THEMES.lookup "constructor".toList = none ∧
    cliMain readyHost ["constructor".toList, "notes.md".toList]
      = { exitCode := 0, pdfs := [] } := by
  decide

/-- C23 (fails on the code): a text that contains `MATHBLOCK_PLACEHOLDER_0__`
itself.  Without a math span the extraction leaves the text as it is and the
restore step replaces the token of the document by the empty text; with one
span the token of the document is replaced by that span. -/
theorem restoreMath_replaces_document_token :
    extractMath "see MATHBLOCK_PLACEHOLDER_0__ here".toList
      = some ⟨"see MATHBLOCK_PLACEHOLDER_0__ here".toList, []⟩ ∧
    htmlBodyOf id "see MATHBLOCK_PLACEHOLDER_0__ here".toList = some "see  here".toList ∧
    extractMath "$$a$$ is not MATHBLOCK_PLACEHOLDER_0__".toList
      = some ⟨"MATHBLOCK_PLACEHOLDER_0__ is not MATHBLOCK_PLACEHOLDER_0__".toList,
          ["$$a$$".toList]⟩ ∧
    htmlBodyOf id "$$a$$ is not MATHBLOCK_PLACEHOLDER_0__".toList
      = some "$$a$$ is not $$a$$".toList := by
  decide

/-- C24 (fails on the code): two requests with the job ids `job1` and `job2`,
no file name, served in the same millisecond.  Both runs compute the same
temp document path, which does not depend on the job id.  When the second
request registers while the first waits for its engine, the first run ends
with the shared temp document deleted and `job2` still registered under it. -/
theorem htmlFilePath_shared_by_two_jobs :
    jobPayload.renderId ≠ jobBPayload.renderId ∧
    runToPagination quietEnv jobPayload emptyWorld = .reached jobCtx ∧
    (∃ ctx, runToPagination quietEnv jobBPayload emptyWorld = .reached ctx ∧
      ctx.renderId = "job2".toList ∧ ctx.htmlFilePath = jobCtx.htmlFilePath) ∧
    jobCtx.htmlFilePath = sampleHtmlPath ∧
    (generatePdfFromPayload twinEnv jobPayload emptyWorld).1
      = { renderJobs := [("job2".toList,
            { htmlFilePath := sampleHtmlPath, debugPdfPath := none, browser := none,
              aborted := false })],
          files := [], engines := [], launched := 1 } :=
  ⟨by decide, by decide,
   ⟨{ jobCtx with
        world := { jobWorld with renderJobs := [("job2".toList, job1)] },
        renderId := "job2".toList }, by decide, rfl, rfl⟩,
   by decide, by decide⟩

/-- C26 (fails on the code): a dollar-dollar span that starts before a fence
and ends inside it.  The fence range is `[4, 15)`; the span at offsets 0 to 11
starts outside it and is extracted, and with it the opening marker and the
first characters of the fenced block, offsets 4 to 10. -/
theorem extractMath_span_runs_into_fence :
    fenceRanges "$$a\n```\nb$$\n```".toList = some [(4, 15)] ∧
    mathReExec "$$a\n```\nb$$\n```".toList 0 = some (0, 11) ∧
    isInFence [(4, 15)] 0 = false ∧
    isInFence [(4, 15)] 4 = true ∧ isInFence [(4, 15)] 10 = true ∧
    extractMath "$$a\n```\nb$$\n```".toList
      = some ⟨"MATHBLOCK_PLACEHOLDER_0__\n```".toList, ["$$a\n```\nb$$".toList]⟩ := by
  decide

/-- C27 (fails on the code): a tag whose file name `constructor` is the name of
no supplied image.  The image map is a plain object, `imagesMap[imageName]`
finds the property it inherits from `Object.prototype`, and the tag comes
back with the text of that function as its `src`. -/
theorem embedImagesInHtml_rewrites_inherited_name :
    imageA.name ≠ "constructor".toList ∧
    isRemoteSrc "pics/constructor".toList = false ∧
    lastSegment "pics/constructor".toList = "constructor".toList ∧
    embedImagesInHtml objectPrototype "<p><img src=\"pics/constructor\"></p>".toList [imageA]
      = "<p><img src=\"function Object() \x7b [native code] \x7d\"></p>".toList := by
  decide

/-- C28 (counterexample): for a content height of 6463 px the page height
is 1710 mm, which is 1710 x 96 / 25.4 px, less than 6463 px
(1710 x 960 = 1641600 is below 6463 x 254 = 1641602). -/
theorem heightMm_shorter_than_content :
    heightMm 6463 = 1710 ∧ heightMm 6463 * 960 < 6463 * 254 := by
  decide

set_option maxRecDepth 20000 in
theorem ceil_covers_tail :
    ∀ k, k < 213 → (6250 + k) * 254 ≤ ((6250 + k) * 264583 + 999999) / 1000000 * 960 := by
  decide

theorem ceil_covers_below (H : Nat) (h : H < 6463) :
    H * 254 ≤ (H * 264583 + 999999) / 1000000 * 960 := by
  by_cases hs : H < 6250
  · omega
  · have := ceil_covers_tail (H - 6250) (by omega)
    have e : 6250 + (H - 6250) = H := by omega
    rw [e] at this
    exact this

/-- C28 (as amended): for every content height `H` below `2^31` px the page
height `heightMm H` is the least whole number of millimetres that is not
below `H x 0.264583`.  Converted back at 96 px per 25.4 mm it is at least
`H x 253.99968 / 254`, so it falls short of `H` by at most `0.00032 x H / 254`
px; and it is at least `H` for every `H` below 6463. -/
theorem heightMm_covers_content (H : Nat) (hH : H < 2 ^ 31) :
    H * 264583 ≤ heightMm H * 1000000 ∧
    heightMm H * 1000000 < H * 264583 + 1000000 ∧
    H * 25399968 ≤ heightMm H * 96000000 ∧
    (H < 6463 → H * 254 ≤ heightMm H * 960) := by
  rw [heightMm_eq_ceil H hH]
  refine ⟨by omega, by omega, by omega, fun h => ceil_covers_below H h⟩

theorem heightMm_covers_content_witness :
    1200 < 2 ^ 31 ∧
    1200 * 264583 ≤ heightMm 1200 * 1000000 ∧
    heightMm 1200 * 1000000 < 1200 * 264583 + 1000000 ∧
    1200 * 25399968 ≤ heightMm 1200 * 96000000 ∧
    1200 * 254 ≤ heightMm 1200 * 960 :=
  ⟨by decide, (heightMm_covers_content 1200 (by decide)).1,
   (heightMm_covers_content 1200 (by decide)).2.1,
   (heightMm_covers_content 1200 (by decide)).2.2.1,
   (heightMm_covers_content 1200 (by decide)).2.2.2 (by decide)⟩

/-- C30 (fails on the code): a request with the margin 0.  `parseFloat` gives
0, which is falsy, so line 240 takes 10: the body padding and the side margin
of `@page` of the document are 10 mm. -/
theorem documentStyle_zero_margin_is_ten :
    noMarginPayload.margin = some 0 ∧
    marginOf noMarginPayload = 10 ∧
    (documentStyle noMarginPayload).padding = 10 ∧
    (documentStyle noMarginPayload).pageMargin = 10 := by
  decide

/-- C29 (fails on the code): a request with the file name `it's`.  The server
names the PDF `it's-atom-1002.pdf`; `encodeURIComponent` leaves the apostrophe
as it is, so the header is `attachment; filename*=UTF-8''it's-atom-1002.pdf`.
The capture `[^;"']+` of the client stops at the apostrophe, and the client
saves the download as `it`. -/
theorem clientFileName_cut_at_apostrophe :
    (apiGenerate quietEnv quotePayload emptyWorld).2
      = .pdf [37, 80, 68, 70] "it's-atom-1002.pdf".toList ∧
    contentDisposition "it's-atom-1002.pdf".toList
      = "attachment; filename*=UTF-8''it's-atom-1002.pdf".toList ∧
    dispositionReExec (contentDisposition "it's-atom-1002.pdf".toList) = some "it".toList ∧
    clientFileName (contentDisposition "it's-atom-1002.pdf".toList) "it's-atom.pdf".toList
      = some "it".toList := by
  decide

theorem indexOfAux_first (needle s : List Char) (pos k : Nat)
    (h : indexOfAux needle s pos = some k) :
    pos ≤ k ∧ needle.isPrefixOf (s.drop (k - pos)) = true ∧
      ∀ j, pos ≤ j → j < k → needle.isPrefixOf (s.drop (j - pos)) = false := by
  induction s generalizing pos with
  | nil =>
    unfold indexOfAux at h
    split at h
    · rename_i hp
      simp only [Option.some.injEq] at h
      subst h
      exact ⟨Nat.le_refl _, by simpa using hp, fun j h1 h2 => by omega⟩
    · simp at h
  | cons c t ih =>
    unfold indexOfAux at h
    split at h
    · rename_i hp
      simp only [Option.some.injEq] at h
      subst h
      exact ⟨Nat.le_refl _, by simpa using hp, fun j h1 h2 => by omega⟩
    · rename_i hp
      obtain ⟨h1, h2, h3⟩ := ih (pos + 1) h
      refine ⟨by omega, ?_, ?_⟩
      · have e : k - pos = (k - (pos + 1)) + 1 := by omega
        rw [e, List.drop_succ_cons]
        exact h2
      · intro j hj1 hj2
        by_cases hj : j = pos
        · subst hj
          rw [Nat.sub_self, List.drop_zero]
          exact Bool.eq_false_iff.mpr hp
        · have e : j - pos = (j - (pos + 1)) + 1 := by omega
          rw [e, List.drop_succ_cons]
          exact h3 j (by omega) hj2

theorem indexOf_first (needle md : List Char) (i k : Nat)
    (h : indexOf needle md i = some k) :
    i ≤ k ∧ needle.isPrefixOf (md.drop k) = true ∧
      ∀ j, i ≤ j → j < k → needle.isPrefixOf (md.drop j) = false := by
  unfold indexOf at h
  obtain ⟨h1, h2, h3⟩ := indexOfAux_first _ _ _ _ h
  refine ⟨h1, ?_, ?_⟩
  · rw [List.drop_drop] at h2
    have e : i + (k - i) = k := by omega
    rw [← e]; exact h2
  · intro j hj1 hj2
    have := h3 j hj1 hj2
    rw [List.drop_drop] at this
    have e : i + (j - i) = j := by omega
    rw [← e]; exact this

theorem fenceReMatch_spec (prev : Option Char) (s : List Char) (len : Nat)
    (h : fenceReMatch prev s = some len) :
    (prev = none ∨ ∃ c, prev = some c ∧ isLineTerminator c = true) ∧
    fenceMarker.isPrefixOf s = true ∧
    len = 3 + ((s.drop 3).takeWhile (fun c => !isLineTerminator c)).length := by
  unfold fenceReMatch at h
  simp only at h
  split at h
  · rename_i hc
    simp only [Bool.and_eq_true] at hc
    simp only [Option.some.injEq] at h
    refine ⟨?_, hc.2, h.symm⟩
    cases prev with
    | none => exact Or.inl rfl
    | some c => exact Or.inr ⟨c, rfl, hc.1⟩
  · simp at h

theorem fenceReSearch_spec (md : List Char) (s : List Char) (prev : Option Char)
    (pos st len : Nat) (hs : s = md.drop pos)
    (hprev : prev = if pos = 0 then none else md.get? (pos - 1))
    (h : fenceReSearch prev s pos = some (st, len)) :
    pos ≤ st ∧ IsLineStart md st ∧ fenceMarker.isPrefixOf (md.drop st) = true ∧
      len = 3 + ((md.drop (st + 3)).takeWhile (fun c => !isLineTerminator c)).length := by
  induction s generalizing pos prev with
  | nil => simp [fenceReSearch] at h
  | cons c t ih =>
    unfold fenceReSearch at h
    cases hm : fenceReMatch prev (c :: t) with
    | some l =>
      rw [hm] at h
      simp only [Option.some.injEq, Prod.mk.injEq] at h
      obtain ⟨h1, h2, h3⟩ := fenceReMatch_spec _ _ _ hm
      obtain ⟨e1, e2⟩ := h
      subst e1 e2
      refine ⟨Nat.le_refl _, ?_, ?_, ?_⟩
      · by_cases hp : pos = 0
        · exact Or.inl hp
        · right
          rw [hprev, if_neg hp] at h1
          rcases h1 with h1 | ⟨c0, h1, h1'⟩
          · cases hg : md.get? (pos - 1) with
            | none =>
              have hlen := List.get?_eq_none.mp hg
              have : (md.drop pos).length = 0 := by
                rw [List.length_drop]; omega
              rw [← hs] at this
              simp at this
            | some x => rw [hg] at h1; exact absurd h1 (by simp)
          · exact ⟨c0, h1, h1'⟩
      · rw [← hs]; exact h2
      · rw [h3, hs, List.drop_drop]
    | none =>
      rw [hm] at h
      have ht : t = md.drop (pos + 1) := by
        have := congrArg List.tail hs
        simpa using this
      have hc : md.get? pos = some c := by
        have := congrArg (fun l => l.get? 0) hs
        simpa using this.symm
      have := ih (some c) (pos + 1) ht
        (by rw [if_neg (Nat.succ_ne_zero pos), Nat.add_sub_cancel, hc]) h
      exact ⟨by omega, this.2⟩

theorem fenceReExec_spec (md : List Char) (li st len : Nat)
    (h : fenceReExec md li = some (st, len)) :
    li ≤ st ∧ IsLineStart md st ∧ fenceMarker.isPrefixOf (md.drop st) = true ∧
      len = 3 + ((md.drop (st + 3)).takeWhile (fun c => !isLineTerminator c)).length := by
  unfold fenceReExec at h
  exact fenceReSearch_spec md _ _ li st len rfl rfl h

/-- The match of the fence expression is the rest of the line. -/
theorem lineEnd_of_marker (md : List Char) (st : Nat)
    (h : fenceMarker.isPrefixOf (md.drop st) = true) :
    lineEnd md st = st + (3 + ((md.drop (st + 3)).takeWhile
      (fun c => !isLineTerminator c)).length) := by
  unfold lineEnd
  rw [List.isPrefixOf_iff_prefix] at h
  obtain ⟨rest, hrest⟩ := h
  have hd : md.drop (st + 3) = rest := by
    have : md.drop (st + 3) = (md.drop st).drop 3 := by
      rw [List.drop_drop]
    rw [this, ← hrest]
    rfl
  rw [hd, ← hrest]
  have : (fenceMarker ++ rest).takeWhile (fun c => !isLineTerminator c)
      = fenceMarker ++ rest.takeWhile (fun c => !isLineTerminator c) := by
    simp [fenceMarker, List.takeWhile, isLineTerminator]
  rw [this, List.length_append]
  rfl

/-- The loop of lines 108-115 keeps what it has recorded in order and adds
only ranges of the intended form, each after the ones before it. -/
theorem fenceLoop_spec (md : List Char) (fuel li : Nat) (ranges : List (Nat × Nat))
    (hli : li ≤ md.length) (hfuel : md.length < li + fuel)
    (hgood : ∀ r ∈ ranges, IsFenceRange md r)
    (hord : ranges.Pairwise (fun a b => a.2 ≤ b.1))
    (hbefore : ∀ r ∈ ranges, r.2 ≤ li) :
    ∃ out, fenceLoop md fuel li ranges = some out ∧
      (∀ r ∈ out, IsFenceRange md r) ∧ out.Pairwise (fun a b => a.2 ≤ b.1) := by
  induction fuel generalizing li ranges with
  | zero => omega
  | succ fuel ih =>
    unfold fenceLoop
    cases he : fenceReExec md li with
    | none => exact ⟨ranges, rfl, hgood, hord⟩
    | some r =>
      obtain ⟨st, len⟩ := r
      have hb := fenceReExec_bounds _ _ _ _ he
      obtain ⟨hs1, hs2, hs3, hs4⟩ := fenceReExec_spec _ _ _ _ he
      simp only
      cases hi : indexOf fenceMarker md (st + len) with
      | none => exact ih _ _ (by omega) (by omega) hgood hord (fun r hr => by
          have := hbefore r hr; omega)
      | some fc =>
        have hib := indexOfAux_bounds _ _ _ _ hi
        simp only [List.length_drop] at hib
        have hm : fenceMarker.length = 3 := by decide
        obtain ⟨hf1, hf2, hf3⟩ := indexOf_first _ _ _ _ hi
        have hnew : IsFenceRange md (st, fc + 3) := by
          refine ⟨by simp only; omega, by simp only; omega, hs2, hs3, fc, rfl, ?_⟩
          simp only
          rw [lineEnd_of_marker md st hs3, ← hs4]
          exact ⟨hf1, hf2, hf3⟩
        apply ih (fc + 3) (ranges ++ [(st, fc + 3)]) (by omega) (by omega)
        · intro r hr
          rcases List.mem_append.mp hr with h | h
          · exact hgood r h
          · rw [List.mem_singleton.mp h]; exact hnew
        · rw [List.pairwise_append]
          refine ⟨hord, List.pairwise_singleton _ _, ?_⟩
          intro a ha b hb'
          rw [List.mem_singleton.mp hb']
          have := hbefore a ha
          simp only
          omega
        · intro r hr
          rcases List.mem_append.mp hr with h | h
          · have := hbefore r h; omega
          · rw [List.mem_singleton.mp h]

/-- C25: for every Markdown text the fence scan of `buildFullHtml` ends and
yields its ranges.  Every range `[start, end)` lies within the text with
`start < end`; `start` is the offset of a line that begins with three
backticks; `end` is the offset just past the first three backticks that
stand at or after the end of that line.  Each range ends before the next one
starts, so the starts increase strictly and the ranges are pairwise
disjoint. -/
theorem fenceRanges_spec (md : List Char) :
    ∃ ranges, fenceRanges md = some ranges ∧
      (∀ r ∈ ranges, r.1 < r.2 ∧ r.2 ≤ md.length ∧ IsLineStart md r.1 ∧
        fenceMarker.isPrefixOf (md.drop r.1) = true ∧
        ∃ k, r.2 = k + 3 ∧ IsFirstMarkerFrom md (lineEnd md r.1) k) ∧
      ranges.Pairwise (fun a b => a.1 < b.1 ∧ a.2 ≤ b.1) := by
  obtain ⟨out, h1, h2, h3⟩ := fenceLoop_spec md (md.length + 1) 0 [] (Nat.zero_le _)
    (by omega) (fun r hr => by simp at hr) List.Pairwise.nil (fun r hr => by simp at hr)
  refine ⟨out, h1, h2, ?_⟩
  have hall : ∀ r ∈ out, r.1 < r.2 := fun r hr => (h2 r hr).1
  clear h1 h2
  induction out with
  | nil => exact List.Pairwise.nil
  | cons a t ih =>
    rw [List.pairwise_cons] at h3 ⊢
    refine ⟨fun b hb => ?_, ih h3.2 (fun r hr => hall r (List.mem_cons_of_mem _ hr))⟩
    have h1 := h3.1 b hb
    have h2 := hall a (List.mem_cons_self _ _)
    omega

end Md2pdf
